import Mathlib

/-! Hamburger: gain curves, multiband splitter, all-pass chain and block pipeline.

A shallow embedding of `src/dsp/Curves.h`, `src/dsp/Dynamics/MBComp.h`,
`src/dsp/PreDistortions/AllPassChain.h` and `src/PluginProcessor.cpp`.

Samples and decibel values are C++ `float`s in the source.  The compressor curve is
embedded twice: over an arbitrary linearly ordered field `α` with exact arithmetic, for
the statements about the curve as a real function, and over `ℚ` with every operation
rounded to binary32 or binary64 as the machine does it (`Binary.fl32`, `Binary.fl64`).
The band splitter rounds every sample operation with `Ops.round`, which is `Binary.fl32`
on `ℚ`.  `juce::Decibels::decibelsToGain` is a library function and is taken as a
parameter.
-/

/-! ## Binary floating point

The arithmetic of the machine: every `float` operation of the source yields the exact
result rounded to IEEE 754 binary32, every `double` operation the exact result rounded to
binary64.  Both are functions on `ℚ`. -/

namespace Binary

/-- Rounding of a rational to the nearest whole number, a tie going to the even one. -/
def roundHalfEven (x : ℚ) : ℤ :=
  if x - ⌊x⌋ < 1 / 2 then ⌊x⌋
  else if 1 / 2 < x - ⌊x⌋ then ⌊x⌋ + 1
  else if ⌊x⌋ % 2 = 0 then ⌊x⌋
  else ⌊x⌋ + 1

/-- The exponent of the binade of `q` in a binary format whose least normal exponent is
`emin`: the whole part of `log₂ |q|`, and `emin` for zero and for the subnormal values. -/
def binade (emin : ℤ) (q : ℚ) : ℤ :=
  if q = 0 then emin else max (Int.log 2 |q|) emin

/-- The spacing of the values of a binary format with `t` fraction bits around `q`. -/
def ulp (t : ℕ) (emin : ℤ) (q : ℚ) : ℚ := (2 : ℚ) ^ (binade emin q - (t : ℤ))

/-- Rounding to the nearest value of the binary format with `t` fraction bits and least
normal exponent `emin`, ties to even. -/
def roundTo (t : ℕ) (emin : ℤ) (q : ℚ) : ℚ :=
  (roundHalfEven (q / ulp t emin q) : ℚ) * ulp t emin q

/-- The value a `float` variable holds after it is given `q`: IEEE 754 binary32, 23
fraction bits, least normal exponent -126, round to nearest even.  Values beyond the
largest finite `float` are outside the embedding. -/
def fl32 (q : ℚ) : ℚ := roundTo 23 (-126) q

/-- The value a `double` holds after it is given `q`: IEEE 754 binary64, 52 fraction
bits, least normal exponent -1022, round to nearest even. -/
def fl64 (q : ℚ) : ℚ := roundTo 52 (-1022) q

end Binary

namespace Curves

variable {α : Type} [LinearOrderedField α]

/-- The third branch of `computeCompressorGain` (Curves.h:33): the soft-knee polynomial. -/
def compressorKnee (input_db threshold ratio kneeWidth : α) : α :=
  input_db + ((1 / ratio - 1) * (input_db - threshold + kneeWidth / 2) ^ 2 / (2 * kneeWidth))

/-- The second branch of `computeCompressorGain` (Curves.h:29): the compressed line. -/
def compressorAbove (input_db threshold ratio : α) : α :=
  threshold + (input_db - threshold) / ratio

/-- The local `output` of `computeCompressorGain` (Curves.h:21-34), in decibels, with the
arithmetic of the field `α`, which is exact; `compressorOutputFloat` is the same expression
with the rounding of the machine. -/
def compressorOutput (input_db threshold ratio kneeWidth : α) : α :=
  if 2 * (input_db - threshold) < -kneeWidth then
    input_db
  else if 2 * (input_db - threshold) > kneeWidth then
    compressorAbove input_db threshold ratio
  else
    compressorKnee input_db threshold ratio kneeWidth

/-- The function `Curves::computeCompressorGain` (Curves.h:13-41). -/
def computeCompressorGain (decibelsToGain : α → α) (input_db threshold ratio kneeWidth : α) : α :=
  let output := compressorOutput input_db threshold ratio kneeWidth
  let gainReduction := output - input_db
  decibelsToGain gainReduction

/-- The knee branch of `computeExpanderGain` (Curves.h:55), with `thres = 0`. -/
def expanderKnee (input_db ratio kneeWidth : α) : α :=
  let thres : α := 0
  input_db + ((1 / ratio) * (input_db - thres + kneeWidth / 2) ^ 2 / (2 * kneeWidth))

/-- The local `output` of `computeExpanderGain` (Curves.h:45-56), in decibels. -/
def expanderOutput (input_db ratio kneeWidth : α) : α :=
  let thres : α := 0
  if 2 * (input_db - thres) > kneeWidth then
    input_db
  else if 2 * (input_db - thres) ≤ -kneeWidth then
    thres + (input_db - thres) * ratio
  else
    expanderKnee input_db ratio kneeWidth

/-- The function `Curves::computeExpanderGain` (Curves.h:43-61). -/
def computeExpanderGain (decibelsToGain : α → α) (input_db ratio kneeWidth : α) : α :=
  let output := expanderOutput input_db ratio kneeWidth
  let gainReduction := output - input_db
  decibelsToGain gainReduction

/-- The C++ conversion of a comparison result to a number: `true` is 1, `false` is 0. -/
def boolToNum (p : Prop) [Decidable p] : α := if p then 1 else 0

/-- The `lowerThres` used by `computeUpwardsDownwardsGain` after the reassignment at
Curves.h:66-69. -/
def clampLowerThres (upperThres lowerThres knee : α) : α :=
  let a := upperThres - 2 * knee
  if lowerThres ≥ upperThres - 2 * knee then a else lowerThres

/-- The "top knee" expression of `computeUpwardsDownwardsGain` (Curves.h:76). -/
def upperKnee (x upperThres upperR knee : α) : α :=
  x + ((1 / upperR - 1) * (x - upperThres + knee / 2) ^ 2) / (2 * knee)

/-- The local `output` of `computeUpwardsDownwardsGain` (Curves.h:64-87), in decibels.
`abs` is the floating-point absolute value; a condition that is a number is true when the
number is not zero. -/
def upwardsDownwardsOutput (x upperThres lowerThres upperR lowerR knee : α) : α :=
  let lowerThres := clampLowerThres upperThres lowerThres knee
  if 2 * (x - upperThres) > knee then
    upperThres + (x - upperThres) / upperR
  else if 2 * |x - lowerThres| > knee then
    upperKnee x upperThres upperR knee
  else if 2 * boolToNum (x < lowerThres) - knee ≠ 0 then
    lowerThres + (x - lowerThres) / lowerR
  else if 2 * boolToNum (x > upperThres) + knee ≠ 0 then
    x + ((1 / lowerR - 1) * (x - lowerThres + knee / 2) ^ 2) / (2 * knee)
  else
    x

/-- The function `Curves::computeUpwardsDownwardsGain` (Curves.h:63-92). -/
def computeUpwardsDownwardsGain (decibelsToGain : α → α)
    (x upperThres lowerThres upperR lowerR knee : α) : α :=
  let output := upwardsDownwardsOutput x upperThres lowerThres upperR lowerR knee
  let gainReduction := output - x
  decibelsToGain gainReduction

/-- A division as the machine executes it: no value when the divisor is zero. -/
def checkedDiv (a b : α) : Option α := if b = 0 then none else some (a / b)

/-- The `output` of `computeCompressorGain` with every division of the taken branch
executed by `checkedDiv`: `none` when some executed division has a zero divisor. -/
def compressorOutputChecked (input_db threshold ratio kneeWidth : α) : Option α :=
  if 2 * (input_db - threshold) < -kneeWidth then
    some input_db
  else if 2 * (input_db - threshold) > kneeWidth then do
    let q ← checkedDiv (input_db - threshold) ratio
    pure (threshold + q)
  else do
    let r ← checkedDiv 1 ratio
    let h ← checkedDiv kneeWidth 2
    let q ← checkedDiv ((r - 1) * (input_db - threshold + h) ^ 2) (2 * kneeWidth)
    pure (input_db + q)

/-- The slope of each branch of `compressorOutput` with respect to `input_db`: 1 on the
pass-through line, `1/ratio` on the compressed line, and the derivative of the knee
polynomial inside the knee window. -/
def compressorSlope (input_db threshold ratio kneeWidth : α) : α :=
  if 2 * (input_db - threshold) < -kneeWidth then
    1
  else if 2 * (input_db - threshold) > kneeWidth then
    1 / ratio
  else
    1 + (1 / ratio - 1) * (input_db - threshold + kneeWidth / 2) / kneeWidth

end Curves

namespace MBComp

/-- The class `juce::AudioBuffer<float>` and the `dsp::AudioBlock<float>` view over it: a channel
count, a sample count and the stored samples.  Accesses outside the two counts have no
value. -/
structure AudioBuffer (α : Type) where
  numChannels : Nat
  numSamples : Nat
  data : Nat → Nat → α

/-- The accessor `getSample (channel, sampleIndex)`. -/
def AudioBuffer.getSample {α : Type} (b : AudioBuffer α) (channel sample : Nat) : Option α :=
  if channel < b.numChannels ∧ sample < b.numSamples then some (b.data channel sample)
  else none

/-- The accessor `setSample (channel, sampleIndex, value)`. -/
def AudioBuffer.setSample {α : Type} (b : AudioBuffer α) (channel sample : Nat) (v : α) :
    Option (AudioBuffer α) :=
  if channel < b.numChannels ∧ sample < b.numSamples then
    some { b with data := fun c i => if c = channel ∧ i = sample then v else b.data c i }
  else none

/-- The call `setSize (newNumChannels, newNumSamples)`: the counts change, the content is whatever
it was. -/
def AudioBuffer.setSize {α : Type} (b : AudioBuffer α) (newNumChannels newNumSamples : Nat) :
    AudioBuffer α :=
  { b with numChannels := newNumChannels, numSamples := newNumSamples }

/-- The struct `dsp::ProcessSpec`. -/
structure ProcessSpec where
  sampleRate : ℚ
  maximumBlockSize : Nat
  numChannels : Nat

/-- The enum `dsp::LinkwitzRileyFilterType`. -/
inductive FilterType where
  | lowpass
  | highpass
  | allpass
  deriving DecidableEq, Repr

/-- What `MBComp` works with and `MBComp.h` does not define: the JUCE Linkwitz-Riley filter
(state `σ`), the band `Compressor` (state `κ`) and `SmoothParam` (state `π`), each
operation returning the new state of the object it is called on; and `round`, the value a
`float` holds after it is given the exact result of an arithmetic operation (on `ℚ` it is
`Binary.fl32`). -/
structure Ops (σ κ π α : Type) where
  round : α → α
  filterSetCutoffFrequency : σ → α → σ
  filterSetType : σ → FilterType → σ
  filterPrepare : σ → ProcessSpec → σ
  filterProcessSample : σ → Nat → α → σ × α
  compressorPrepare : κ → ProcessSpec → κ
  compressorUpdateUpDown : κ → α → α → α → α → α → α → α → α → α → κ
  compressorProcessBlock : κ → AudioBuffer α → κ × AudioBuffer α
  paramUpdate : π → π
  paramGetRaw : π → α

/-- The data members of `MBComp` (MBComp.h:99-123).  `lowBlock`, `midBlock` and `highBlock`
are views over the three buffers and are represented by the buffers themselves. -/
structure State (σ κ π α : Type) where
  threshold : π
  ratio : π
  attack : π
  release : π
  makeup : π
  lowBuffer : AudioBuffer α
  midBuffer : AudioBuffer α
  highBuffer : AudioBuffer α
  lowCrossOver : σ
  highCrossOver : σ
  compressor1 : κ
  compressor2 : κ
  compressor3 : κ

/-- The loop `for (int sample = 0; sample < n; sample++) body`, which stops with no value
as soon as one iteration has none. -/
def forLoop {S : Type} (body : Nat → S → Option S) : Nat → S → Option S
  | 0, s => some s
  | n + 1, s => (forLoop body n s).bind (body n)

variable {σ κ π α : Type} [Field α]

/-- One iteration of the band-split loop of `processBlock` (MBComp.h:31-47). -/
def splitSample (ops : Ops σ κ π α) (block : AudioBuffer α) (sample : Nat)
    (st : State σ κ π α) : Option (State σ κ π α) := do
  let leftSample ← block.getSample 0 sample
  let rightSample ← block.getSample 1 sample
  let lowL := ops.filterProcessSample st.lowCrossOver 0 leftSample
  let highL := ops.filterProcessSample st.highCrossOver 0 leftSample
  let midResultL := ops.round (ops.round (leftSample - lowL.2) - highL.2)
  let lowR := ops.filterProcessSample lowL.1 1 rightSample
  let highR := ops.filterProcessSample highL.1 1 rightSample
  let midResultR := ops.round (ops.round (rightSample - lowR.2) - highR.2)
  let lowBuffer ← st.lowBuffer.setSample 0 sample lowL.2
  let midBuffer ← st.midBuffer.setSample 0 sample midResultL
  let highBuffer ← st.highBuffer.setSample 0 sample highL.2
  let lowBuffer ← lowBuffer.setSample 1 sample lowR.2
  let midBuffer ← midBuffer.setSample 1 sample midResultR
  let highBuffer ← highBuffer.setSample 1 sample highR.2
  pure { st with
    lowCrossOver := lowR.1, highCrossOver := highR.1,
    lowBuffer := lowBuffer, midBuffer := midBuffer, highBuffer := highBuffer }

/-- The band-split loop of `processBlock` (MBComp.h:29-48). -/
def splitBands (ops : Ops σ κ π α) (block : AudioBuffer α) (st : State σ κ π α) :
    Option (State σ κ π α) :=
  forLoop (splitSample ops block) block.numSamples st

/-- The parameter reads, `updateUpDown` calls and band compressors of `processBlock`
(MBComp.h:50-63). -/
def compressBands (ops : Ops σ κ π α) (st : State σ κ π α) : State σ κ π α :=
  let atk := ops.paramGetRaw st.attack
  let rel := ops.paramGetRaw st.release
  let mkp := ops.paramGetRaw st.makeup
  let rat := ops.paramGetRaw st.ratio
  let thr := ops.paramGetRaw st.threshold
  let c1 := ops.compressorUpdateUpDown st.compressor1 atk rel mkp rat rat thr
    (ops.round (thr + 2)) (ops.round (1 / 10)) 0
  let c2 := ops.compressorUpdateUpDown st.compressor2 atk rel mkp rat rat thr
    (ops.round (thr + 2)) (ops.round (1 / 10)) 0
  let c3 := ops.compressorUpdateUpDown st.compressor3 atk rel mkp rat rat thr
    (ops.round (thr + 2)) (ops.round (1 / 10)) 0
  let r1 := ops.compressorProcessBlock c1 st.lowBuffer
  let r2 := ops.compressorProcessBlock c2 st.midBuffer
  let r3 := ops.compressorProcessBlock c3 st.highBuffer
  { st with
    compressor1 := r1.1, compressor2 := r2.1, compressor3 := r3.1,
    lowBuffer := r1.2, midBuffer := r2.2, highBuffer := r3.2 }

/-- One iteration of the band-sum loop of `processBlock` (MBComp.h:66-73). -/
def sumSample (ops : Ops σ κ π α) (st : State σ κ π α) (sample : Nat) (block : AudioBuffer α) :
    Option (AudioBuffer α) := do
  let lowL ← st.lowBuffer.getSample 0 sample
  let midL ← st.midBuffer.getSample 0 sample
  let highL ← st.highBuffer.getSample 0 sample
  let block ← block.setSample 0 sample (ops.round (ops.round (lowL + midL) + highL))
  let lowR ← st.lowBuffer.getSample 1 sample
  let midR ← st.midBuffer.getSample 1 sample
  let highR ← st.highBuffer.getSample 1 sample
  block.setSample 1 sample (ops.round (ops.round (lowR + midR) + highR))

/-- The band-sum loop of `processBlock` (MBComp.h:65-74). -/
def sumBands (ops : Ops σ κ π α) (st : State σ κ π α) (block : AudioBuffer α) :
    Option (AudioBuffer α) :=
  forLoop (sumSample ops st) block.numSamples block

/-- The method `MBComp::processBlock` (MBComp.h:21-75): the new object state and the block written
back, or no value when a sample access is out of range. -/
def processBlock (ops : Ops σ κ π α) (st : State σ κ π α) (block : AudioBuffer α) :
    Option (State σ κ π α × AudioBuffer α) := do
  let st := { st with
    attack := ops.paramUpdate st.attack,
    release := ops.paramUpdate st.release,
    makeup := ops.paramUpdate st.makeup,
    ratio := ops.paramUpdate st.ratio,
    threshold := ops.paramUpdate st.threshold }
  let st ← splitBands ops block st
  let st := compressBands ops st
  let block ← sumBands ops st block
  pure (st, block)

/-- The method `MBComp::prepare` (MBComp.h:77-97). -/
def prepare (ops : Ops σ κ π α) (st : State σ κ π α) (spec : ProcessSpec) : State σ κ π α :=
  let lowCrossOver := ops.filterSetCutoffFrequency st.lowCrossOver 500
  let highCrossOver := ops.filterSetCutoffFrequency st.highCrossOver 2500
  let lowCrossOver := ops.filterSetType lowCrossOver FilterType.lowpass
  let highCrossOver := ops.filterSetType highCrossOver FilterType.highpass
  { st with
    compressor1 := ops.compressorPrepare st.compressor1 spec,
    compressor2 := ops.compressorPrepare st.compressor2 spec,
    compressor3 := ops.compressorPrepare st.compressor3 spec,
    lowCrossOver := ops.filterPrepare lowCrossOver spec,
    highCrossOver := ops.filterPrepare highCrossOver spec,
    lowBuffer := st.lowBuffer.setSize 2 spec.maximumBlockSize,
    midBuffer := st.midBuffer.setSize 2 spec.maximumBlockSize,
    highBuffer := st.highBuffer.setSize 2 spec.maximumBlockSize }

/-- A concrete set of collaborators on `ℚ` with `float` arithmetic: a one-pole averaging
filter whose state is the previous input, and band compressors at unity gain. -/
def unityOps : Ops ℚ Unit Unit ℚ where
  round := Binary.fl32
  filterSetCutoffFrequency := fun s _ => s
  filterSetType := fun s _ => s
  filterPrepare := fun _ _ => 0
  filterProcessSample := fun s _ x => (x, Binary.fl32 ((s + x) / 2))
  compressorPrepare := fun k _ => k
  compressorUpdateUpDown := fun k _ _ _ _ _ _ _ _ _ => k
  compressorProcessBlock := fun k b => (k, b)
  paramUpdate := fun p => p
  paramGetRaw := fun _ => 0

/-- A freshly constructed `MBComp` with empty band buffers. -/
def freshState : State ℚ Unit Unit ℚ where
  threshold := ()
  ratio := ()
  attack := ()
  release := ()
  makeup := ()
  lowBuffer := ⟨0, 0, fun _ _ => 0⟩
  midBuffer := ⟨0, 0, fun _ _ => 0⟩
  highBuffer := ⟨0, 0, fun _ _ => 0⟩
  lowCrossOver := 0
  highCrossOver := 0
  compressor1 := ()
  compressor2 := ()
  compressor3 := ()

/-- A stereo block of three samples: left `1, 2, 3`, right `2, 4, 6`. -/
def rampBlock : AudioBuffer ℚ := ⟨2, 3, fun c i => ((c + 1) * (i + 1) : ℕ)⟩

/-- A spec with room for four samples per block. -/
def smallSpec : ProcessSpec := ⟨44100, 4, 2⟩

end MBComp

namespace Processor

open MBComp (AudioBuffer ProcessSpec)

/-- The call `buffer.clear (channel, startSample, numSamples)` of `juce::AudioBuffer`: the
given region of one channel becomes zero.  The host hands `processBlock` a buffer with at
least as many channels as the larger of the two channel counts. -/
def clear {α : Type} [Zero α] (b : AudioBuffer α) (channel startSample numSamples : Nat) :
    AudioBuffer α :=
  { b with data := fun c i =>
      if c = channel ∧ startSample ≤ i ∧ i < startSample + numSamples then 0 else b.data c i }

/-- The members of `AudioPluginAudioProcessor` that `prepareToPlay` prepares. -/
inductive Component where
  | inputGain
  | outputGain
  | oversamplingStack
  | emphasisFilter
  | distortionTypeSelection
  | postClip
  | preDistortionSelection
  | noiseDistortionSelection
  | dynamics
  | dryWetMixer
  deriving DecidableEq, Repr

/-- The calls of `processBlock` that take the audio block (PluginProcessor.cpp:374-420). -/
inductive Stage where
  | inputGain
  | pushDrySamples
  | processSamplesUp
  | emphasisBefore
  | dynamics
  | noiseDistortion
  | preDistortion
  | primaryDistortion
  | emphasisAfter
  | postClip
  | processSamplesDown
  | outputGain
  | mixWetSamples
  deriving DecidableEq, Repr

/-- One call made by `prepareToPlay` or `processBlock` on a member object or on the
`AudioProcessor` base class.  An audio call records the block it is given. -/
inductive Event (α : Type) where
  | prepareToPlay (sampleRate : ℚ) (samplesPerBlock : Nat)
  | prepare (c : Component) (spec : ProcessSpec)
  | setOversamplingFactor (factor : Int)
  | setLatencySamples (samples : Int)
  | mixerReset
  | setWetLatency (samples : ℚ)
  | setGainDecibels (c : Component) (decibels : ℚ)
  | setWetMixProportion (proportion : ℚ)
  | scopeData (input : AudioBuffer α)
  | clear (channel startSample numSamples : Nat)
  | stage (s : Stage) (input : AudioBuffer α)

/-- The stage of an audio call, nothing for every other call. -/
def Event.stageName {α : Type} : Event α → Option Stage
  | Event.stage s _ => some s
  | _ => none

/-- Whether the call writes audio: a stage call or a `clear`. -/
def Event.touchesAudio {α : Type} : Event α → Bool
  | Event.stage _ _ => true
  | Event.clear _ _ _ => true
  | _ => false

/-- Whether the call is the entry into `prepareToPlay` or one of its `prepare` calls. -/
def Event.isPrepare {α : Type} : Event α → Bool
  | Event.prepareToPlay _ _ => true
  | Event.prepare _ _ => true
  | _ => false

/-- The parameter values and host configuration a call reads: the parameter handles
`hamburgerEnabledButton`, `hq`, `clipEnabled`, `inputGainKnob`, `outputGainKnob`, `mixKnob`,
and `getSampleRate ()`, `getTotalNumInputChannels ()`, `getTotalNumOutputChannels ()`. -/
structure Env where
  hamburgerEnabled : Bool
  hq : Int
  clipEnabled : Bool
  inputGainKnob : ℚ
  outputGainKnob : ℚ
  mixKnob : ℚ
  sampleRate : ℚ
  totalNumInputChannels : Nat
  totalNumOutputChannels : Nat

/-- The behaviour of the member objects, none of which is defined in PluginProcessor.cpp:
the effect of a control call on their joint state `κ`, of an audio call on that state and
on the block, and the latency the oversampling stack reports. -/
structure Ops (κ α : Type) where
  control : Event α → κ → κ
  audio : Stage → κ → AudioBuffer α → κ × AudioBuffer α
  processSamplesDown : κ → AudioBuffer α → AudioBuffer α → κ × AudioBuffer α
  getLatencySamples : κ → ℚ

/-- Modelled from the spec: the `OversamplingStack` class, whose source is not among the
files of `src/`.  Of its state only the factor is represented: `setOversamplingFactor`
stores it and `getOversamplingFactor` returns it.  Its audio behaviour and its latency
belong to `Ops`. -/
structure OversamplingStack where
  factor : Int

/-- Modelled from the spec: the setter `OversamplingStack::setOversamplingFactor`. -/
def OversamplingStack.setOversamplingFactor (_stack : OversamplingStack) (factor : Int) :
    OversamplingStack :=
  { factor := factor }

/-- Modelled from the spec: the getter `OversamplingStack::getOversamplingFactor`. -/
def OversamplingStack.getOversamplingFactor (stack : OversamplingStack) : Int :=
  stack.factor

/-- The processor: the joint state of the member objects, the factor held by
`oversamplingStack`, `oldOversamplingFactor`, and the calls made so far. -/
structure State (κ α : Type) where
  components : κ
  oversamplingStack : OversamplingStack
  oldOversamplingFactor : Int
  log : List (Event α)

variable {κ α : Type}

/-- Make a control call: the member objects change and the call is recorded. -/
def State.call (ops : Ops κ α) (e : Event α) (st : State κ α) : State κ α :=
  { st with components := ops.control e st.components, log := st.log ++ [e] }

/-- Make an audio call on a block: the member objects change, the call is recorded with the
block it received, and the processed block is returned. -/
def State.runAudio (ops : Ops κ α) (s : Stage) (st : State κ α) (block : AudioBuffer α) :
    State κ α × AudioBuffer α :=
  ({ st with components := (ops.audio s st.components block).1,
             log := st.log ++ [Event.stage s block] },
   (ops.audio s st.components block).2)

/-- The spec that `prepareToPlay` builds at PluginProcessor.cpp:281-284. -/
def baseSpec (env : Env) (sampleRate : ℚ) (samplesPerBlock : Nat) : ProcessSpec :=
  { sampleRate := sampleRate, maximumBlockSize := samplesPerBlock,
    numChannels := env.totalNumOutputChannels }

/-- The spec that `prepareToPlay` builds at PluginProcessor.cpp:293-296 from the factor the
stack returns.  The block size `samplesPerBlock * pow (2, factor)` is a `double` stored in
the 32-bit unsigned member `maximumBlockSize`: its whole part is kept modulo `2 ^ 32`. -/
def oversampledSpec (env : Env) (factor : Int) (sampleRate : ℚ) (samplesPerBlock : Nat) :
    ProcessSpec :=
  { sampleRate := sampleRate * (2 : ℚ) ^ factor,
    maximumBlockSize := Int.toNat ⌊(samplesPerBlock : ℚ) * (2 : ℚ) ^ factor⌋ % 4294967296,
    numChannels := env.totalNumOutputChannels }

/-- The first part of `prepareToPlay` (PluginProcessor.cpp:279-303): every `prepare` call
before the latency is read. -/
def prepareComponents (ops : Ops κ α) (env : Env) (st : State κ α) (sampleRate : ℚ)
    (samplesPerBlock : Nat) : State κ α :=
  let spec := baseSpec env sampleRate samplesPerBlock
  let st := st.call ops (Event.prepareToPlay sampleRate samplesPerBlock)
  let st := st.call ops (Event.prepare Component.inputGain spec)
  let st := st.call ops (Event.prepare Component.outputGain spec)
  let st := { st.call ops (Event.setOversamplingFactor env.hq) with
              oversamplingStack := st.oversamplingStack.setOversamplingFactor env.hq }
  let st := st.call ops (Event.prepare Component.oversamplingStack spec)
  let oversampled := oversampledSpec env st.oversamplingStack.getOversamplingFactor
    sampleRate samplesPerBlock
  let st := st.call ops (Event.prepare Component.emphasisFilter oversampled)
  let st := st.call ops (Event.prepare Component.distortionTypeSelection oversampled)
  let st := st.call ops (Event.prepare Component.postClip oversampled)
  let st := st.call ops (Event.prepare Component.preDistortionSelection oversampled)
  let st := st.call ops (Event.prepare Component.noiseDistortionSelection oversampled)
  st.call ops (Event.prepare Component.dynamics oversampled)

/-- The method `AudioPluginAudioProcessor::prepareToPlay` (PluginProcessor.cpp:279-314). -/
def prepareToPlay (ops : Ops κ α) (env : Env) (st : State κ α) (sampleRate : ℚ)
    (samplesPerBlock : Nat) : State κ α :=
  let spec := baseSpec env sampleRate samplesPerBlock
  let st := prepareComponents ops env st sampleRate samplesPerBlock
  let totalLatency := ops.getLatencySamples st.components
  let st := st.call ops (Event.setLatencySamples ⌈totalLatency⌉)
  let st := st.call ops Event.mixerReset
  let st := st.call ops (Event.prepare Component.dryWetMixer spec)
  st.call ops (Event.setWetLatency totalLatency)

/-- The "oversampling config" block of `processBlock` (PluginProcessor.cpp:341-355). -/
def oversamplingConfig (ops : Ops κ α) (env : Env) (st : State κ α) (numSamples : Nat) :
    State κ α :=
  let st := st.call ops (Event.setWetLatency (ops.getLatencySamples st.components))
  let oversampleAmount := env.hq
  let st := { st.call ops (Event.setOversamplingFactor oversampleAmount) with
              oversamplingStack := st.oversamplingStack.setOversamplingFactor oversampleAmount }
  if st.oldOversamplingFactor ≠ oversampleAmount then
    prepareToPlay ops env { st with oldOversamplingFactor := oversampleAmount }
      env.sampleRate numSamples
  else
    st

/-- The loop `for (auto i = first; i < last; ++i) buffer.clear (i, 0, numSamples)`
(PluginProcessor.cpp:366-367), with `count` iterations left. -/
def clearChannels [Zero α] (ops : Ops κ α) (numSamples : Nat) :
    Nat → Nat → State κ α × AudioBuffer α → State κ α × AudioBuffer α
  | 0, _, r => r
  | count + 1, i, r =>
    clearChannels ops numSamples count (i + 1)
      (r.1.call ops (Event.clear i 0 numSamples), clear r.2 i 0 numSamples)

/-- The stages of `processBlock` up to the primary distortion and the second emphasis
filter (PluginProcessor.cpp:369-402): the state, the block and the oversampled block. -/
def runUpStages (ops : Ops κ α) (env : Env) (st : State κ α) (block : AudioBuffer α) :
    State κ α × AudioBuffer α × AudioBuffer α :=
  let gainAmount := env.inputGainKnob
  let st := st.call ops (Event.setGainDecibels Component.inputGain gainAmount)
  let r := st.runAudio ops Stage.inputGain block
  let block := r.2
  let st := (r.1.runAudio ops Stage.pushDrySamples block).1
  let r := st.runAudio ops Stage.processSamplesUp block
  let r := r.1.runAudio ops Stage.emphasisBefore r.2
  let r := r.1.runAudio ops Stage.dynamics r.2
  let r := r.1.runAudio ops Stage.noiseDistortion r.2
  let r := r.1.runAudio ops Stage.preDistortion r.2
  let r := r.1.runAudio ops Stage.primaryDistortion r.2
  let r := r.1.runAudio ops Stage.emphasisAfter r.2
  (r.1, block, r.2)

/-- The last stages of `processBlock` (PluginProcessor.cpp:404-421). -/
def runDownStages (ops : Ops κ α) (env : Env) (st : State κ α)
    (block oversampledBlock : AudioBuffer α) : State κ α × AudioBuffer α :=
  let r := if env.clipEnabled then st.runAudio ops Stage.postClip oversampledBlock
    else (st, oversampledBlock)
  let st := r.1
  let down := ops.processSamplesDown st.components r.2 block
  let st := { st with components := down.1,
                      log := st.log ++ [Event.stage Stage.processSamplesDown r.2] }
  let block := down.2
  let st := st.call ops (Event.scopeData block)
  let st := st.call ops (Event.setGainDecibels Component.outputGain env.outputGainKnob)
  let r := st.runAudio ops Stage.outputGain block
  let st := r.1.call ops
    (Event.setWetMixProportion (Binary.fl32 (env.mixKnob * Binary.fl32 (1 / 100))))
  st.runAudio ops Stage.mixWetSamples r.2

/-- The method `AudioPluginAudioProcessor::processBlock` (PluginProcessor.cpp:333-422). -/
def processBlock [Zero α] (ops : Ops κ α) (env : Env) (st : State κ α)
    (buffer : AudioBuffer α) : State κ α × AudioBuffer α :=
  if env.hamburgerEnabled = false then
    (st, buffer)
  else
    let st := oversamplingConfig ops env st buffer.numSamples
    let totalNumInputChannels := env.totalNumInputChannels
    let totalNumOutputChannels := env.totalNumOutputChannels
    if totalNumInputChannels = 0 then
      (st, buffer)
    else if totalNumOutputChannels = 0 then
      (st, buffer)
    else
      let r := clearChannels ops buffer.numSamples
        (totalNumOutputChannels - totalNumInputChannels) totalNumInputChannels (st, buffer)
      let up := runUpStages ops env r.1 r.2
      runDownStages ops env up.1 up.2.1 up.2.2

/-- Member objects that leave every block as it is and an oversampling stack that reports
a latency of two and a half samples. -/
def halfSampleOps : Ops Unit ℚ where
  control := fun _ k => k
  audio := fun _ k b => (k, b)
  processSamplesDown := fun k _ b => (k, b)
  getLatencySamples := fun _ => 5 / 2

/-- An enabled stereo configuration at 44.1 kHz asking for one stage of oversampling. -/
def stereoEnv : Env where
  hamburgerEnabled := true
  hq := 1
  clipEnabled := true
  inputGainKnob := 0
  outputGainKnob := 0
  mixKnob := 100
  sampleRate := 44100
  totalNumInputChannels := 2
  totalNumOutputChannels := 2

/-- The stereo configuration with the plugin switched off. -/
def bypassedEnv : Env := { stereoEnv with hamburgerEnabled := false }

/-- One input channel feeding two output channels. -/
def monoInEnv : Env := { stereoEnv with totalNumInputChannels := 1 }

/-- A processor that has made no call yet and last saw oversampling factor 0. -/
def idleState : State Unit ℚ where
  components := ()
  oversamplingStack := { factor := 0 }
  oldOversamplingFactor := 0
  log := []

/-- The stereo configuration asking for two stages of oversampling. -/
def quadEnv : Env := { stereoEnv with hq := 2 }

/-- Member objects whose joint state counts the calls made on them.  Every audio call
doubles each sample of the block it is given, the down-sampler returns the oversampled
block, and the stack reports half a sample of latency per call counted. -/
def countingOps : Ops Nat ℚ where
  control := fun _ k => k + 1
  audio := fun _ k b => (k + 1, { b with data := fun c i => 2 * b.data c i })
  processSamplesDown := fun k oversampled _ => (k + 1, oversampled)
  getLatencySamples := fun k => k / 2

/-- A processor over `countingOps` that has made no call yet and last saw factor 1. -/
def countingState : State Nat ℚ where
  components := 0
  oversamplingStack := { factor := 1 }
  oldOversamplingFactor := 1
  log := []

/-- The signal path of one block in the words of the specification ("Data flow per
block"): the member objects, the block at the base rate and the block at the oversampled
rate. -/
structure Flow (κ α : Type) where
  components : κ
  block : AudioBuffer α
  oversampledBlock : AudioBuffer α

/-- The stage order of the specification: input gain, dry capture, oversampling up,
emphasis-pre, dynamics, noise distortion, pre-distortion, primary distortion,
emphasis-post, the soft clip when it is enabled, oversampling down, output gain, dry/wet
mix. -/
def specStageOrder (clipEnabled : Bool) : List Stage :=
  [Stage.inputGain, Stage.pushDrySamples, Stage.processSamplesUp, Stage.emphasisBefore,
    Stage.dynamics, Stage.noiseDistortion, Stage.preDistortion, Stage.primaryDistortion,
    Stage.emphasisAfter]
  ++ (if clipEnabled = true then [Stage.postClip] else [])
  ++ [Stage.processSamplesDown, Stage.outputGain, Stage.mixWetSamples]

/-- What one stage of the specification does to the signal path.  The two gain stages and
the mix take their setting from the parameter and work on the base-rate block; the dry
capture reads that block and leaves it as it is; the up-sampler produces the oversampled
block from it; the stages between the two resamplers work on the oversampled block; the
down-sampler writes the base-rate block, which is then shown to the scope. -/
def specApplyStage (ops : Ops κ α) (env : Env) (flow : Flow κ α) : Stage → Flow κ α
  | Stage.inputGain =>
    let r := ops.audio Stage.inputGain
      (ops.control (Event.setGainDecibels Component.inputGain env.inputGainKnob)
        flow.components) flow.block
    { flow with components := r.1, block := r.2 }
  | Stage.pushDrySamples =>
    { flow with components := (ops.audio Stage.pushDrySamples flow.components flow.block).1 }
  | Stage.processSamplesUp =>
    let r := ops.audio Stage.processSamplesUp flow.components flow.block
    { flow with components := r.1, oversampledBlock := r.2 }
  | Stage.processSamplesDown =>
    let r := ops.processSamplesDown flow.components flow.oversampledBlock flow.block
    { flow with components := ops.control (Event.scopeData r.2) r.1, block := r.2 }
  | Stage.outputGain =>
    let r := ops.audio Stage.outputGain
      (ops.control (Event.setGainDecibels Component.outputGain env.outputGainKnob)
        flow.components) flow.block
    { flow with components := r.1, block := r.2 }
  | Stage.mixWetSamples =>
    let r := ops.audio Stage.mixWetSamples
      (ops.control
        (Event.setWetMixProportion (Binary.fl32 (env.mixKnob * Binary.fl32 (1 / 100))))
        flow.components)
      flow.block
    { flow with components := r.1, block := r.2 }
  | s =>
    let r := ops.audio s flow.components flow.oversampledBlock
    { flow with components := r.1, oversampledBlock := r.2 }

/-- The signal path of the specification: its stages applied one after the other, each
once, in the order of `specStageOrder`. -/
def specPipeline (ops : Ops κ α) (env : Env) (flow : Flow κ α) : Flow κ α :=
  (specStageOrder env.clipEnabled).foldl (specApplyStage ops env) flow

end Processor

namespace AllPassChain

open MBComp (AudioBuffer ProcessSpec)

/-- One call made on a stage of the chain: an assignment to its coefficients, `prepare`,
`reset`, or `process` on the block; each records the index of the stage. -/
inductive Event (γ : Type) where
  | assign (index : Nat) (coefficients : γ)
  | prepare (index : Nat) (spec : ProcessSpec)
  | reset (index : Nat)
  | process (index : Nat)

/-- The index of a `process` call, nothing for every other call. -/
def Event.processIndex {γ : Type} : Event γ → Option Nat
  | Event.process i => some i
  | _ => none

/-- The collaborators of `AllPassChain` that are not defined in AllPassChain.h: the JUCE
coefficient factory `makeAllPass` (coefficients `γ`), the JUCE filter (memory `φ`) and
`SmoothParam` (state `π`). -/
structure Ops (γ φ π α : Type) where
  makeAllPass : ℚ → ℚ → ℚ → γ
  filterProcess : γ → φ → AudioBuffer α → φ × AudioBuffer α
  filterPrepare : φ → ProcessSpec → φ
  filterReset : φ → φ
  paramUpdate : π → π
  paramGetRaw : π → ℚ
  paramPrepareToPlay : π → ℚ → Nat → π

/-- One element of `allPassFilters`: the shared coefficients `state` and the filter
memory. -/
structure Filter (γ φ : Type) where
  state : γ
  memory : φ

/-- The data members of `AllPassChain` (AllPassChain.h:65-76) and the calls made so far on
the stages.  `allPassFilters` has exactly 50 elements. -/
structure State (γ φ π : Type) where
  allPassFrequency : π
  allPassQ : π
  allPassAmount : π
  oldAllPassFreq : ℚ
  oldAllPassQ : ℚ
  oldAllPassAmount : ℚ
  allPassFilters : Fin 50 → Filter γ φ
  oldSampleRate : ℚ
  log : List (Event γ)

variable {γ φ π α : Type}

/-- The body of the range-based loops at AllPassChain.h:28-31 and 51-54 for one stage:
its coefficients are overwritten. -/
def assignOne (c : γ) (st : State γ φ π) (i : Fin 50) : State γ φ π :=
  { st with
    allPassFilters := Function.update st.allPassFilters i { st.allPassFilters i with state := c },
    log := st.log ++ [Event.assign i.val c] }

/-- The loop `for (const auto &allPassFilter : allPassFilters)` assigning `c` to every
stage. -/
def assignAll (c : γ) (st : State γ φ π) : State γ φ π :=
  (List.finRange 50).foldl (assignOne c) st

/-- The stage loop `for (int i = 0; i < allPassAmount.getRaw (); i++)` of `processBlock`
(AllPassChain.h:34-37) from index `i` on; `allPassFilters[i]` has no value for `i ≥ 50`. -/
def stageLoop (ops : Ops γ φ π α) (amount : ℚ) (i : Nat) (r : State γ φ π × AudioBuffer α) :
    Option (State γ φ π × AudioBuffer α) :=
  if (i : ℚ) < amount then
    if hi : i < 50 then
      stageLoop ops amount (i + 1)
        ({ r.1 with
            allPassFilters := Function.update r.1.allPassFilters ⟨i, hi⟩
              { r.1.allPassFilters ⟨i, hi⟩ with
                memory := (ops.filterProcess (r.1.allPassFilters ⟨i, hi⟩).state
                  (r.1.allPassFilters ⟨i, hi⟩).memory r.2).1 },
            log := r.1.log ++ [Event.process i] },
          (ops.filterProcess (r.1.allPassFilters ⟨i, hi⟩).state
            (r.1.allPassFilters ⟨i, hi⟩).memory r.2).2)
    else
      none
  else
    some r
termination_by Int.toNat ⌈amount⌉ - i
decreasing_by
  rename_i h
  have h1 : (i : Int) < ⌈amount⌉ := Int.lt_ceil.mpr (by exact_mod_cast h)
  omega

/-- The method `AllPassChain::processBlock` (AllPassChain.h:20-38). -/
def processBlock (ops : Ops γ φ π α) (st : State γ φ π) (block : AudioBuffer α) :
    Option (State γ φ π × AudioBuffer α) :=
  let st := { st with allPassAmount := ops.paramUpdate st.allPassAmount }
  let st := { st with allPassFrequency := ops.paramUpdate st.allPassFrequency }
  let st := { st with allPassQ := ops.paramUpdate st.allPassQ }
  let st :=
    if st.oldAllPassFreq ≠ ops.paramGetRaw st.allPassFrequency
        ∨ st.oldAllPassQ ≠ ops.paramGetRaw st.allPassQ
        ∨ st.oldAllPassAmount ≠ ops.paramGetRaw st.allPassAmount then
      assignAll (ops.makeAllPass st.oldSampleRate (ops.paramGetRaw st.allPassFrequency)
        (ops.paramGetRaw st.allPassQ)) st
    else
      st
  stageLoop ops (ops.paramGetRaw st.allPassAmount) 0 (st, block)

/-- The body of the loop at AllPassChain.h:56-59 for index `i`: `prepare` then `reset`. -/
def prepareOne (ops : Ops γ φ π α) (spec : ProcessSpec) (i : Nat) (st : State γ φ π) :
    Option (State γ φ π) :=
  if hi : i < 50 then
    some { st with
      allPassFilters := Function.update st.allPassFilters ⟨i, hi⟩
        { st.allPassFilters ⟨i, hi⟩ with
          memory := ops.filterReset (ops.filterPrepare (st.allPassFilters ⟨i, hi⟩).memory spec) },
      log := st.log ++ [Event.prepare i spec, Event.reset i] }
  else
    none

/-- The method `AllPassChain::prepareToPlay` (AllPassChain.h:40-62). -/
def prepareToPlay (ops : Ops γ φ π α) (st : State γ φ π) (sampleRate : ℚ)
    (samplesPerBlock : Nat) : Option (State γ φ π) :=
  let st := { st with
    allPassFrequency := ops.paramPrepareToPlay st.allPassFrequency sampleRate samplesPerBlock }
  let st := { st with
    allPassQ := ops.paramPrepareToPlay st.allPassQ sampleRate samplesPerBlock }
  let st := { st with
    allPassAmount := ops.paramPrepareToPlay st.allPassAmount sampleRate samplesPerBlock }
  let spec : ProcessSpec :=
    { sampleRate := sampleRate, maximumBlockSize := samplesPerBlock, numChannels := 2 }
  let st := assignAll (ops.makeAllPass sampleRate (ops.paramGetRaw st.allPassFrequency)
    (ops.paramGetRaw st.allPassQ)) st
  (MBComp.forLoop (prepareOne ops spec) 50 st).map
    (fun st => { st with oldSampleRate := sampleRate })

/-- The calls of the first `k` iterations of the loop at AllPassChain.h:56-59. -/
def prepareEvents (spec : ProcessSpec) : Nat → List (Event γ)
  | 0 => []
  | k + 1 => prepareEvents spec k ++ [Event.prepare k spec, Event.reset k]

/-- The block after the first `k` stages of the chain in the words of the specification
("`k` filter stages process each sample", "active in series"): the stages `0, …, k − 1`
applied to the block one after the other, each once, every stage with the coefficients and
the memory it holds in `filters`. -/
def specSeriesOutput (ops : Ops γ φ π α) (filters : Fin 50 → Filter γ φ) (block : AudioBuffer α) :
    Nat → AudioBuffer α
  | 0 => block
  | k + 1 =>
    if h : k < 50 then
      (ops.filterProcess (filters ⟨k, h⟩).state (filters ⟨k, h⟩).memory
        (specSeriesOutput ops filters block k)).2
    else
      specSeriesOutput ops filters block k

/-- Concrete collaborators: coefficients are the triple handed to `makeAllPass`, the filter
passes the block through, and a parameter is its raw value. -/
def plainOps : Ops (ℚ × ℚ × ℚ) Unit ℚ ℚ where
  makeAllPass := fun sampleRate frequency q => (sampleRate, frequency, q)
  filterProcess := fun _ m b => (m, b)
  filterPrepare := fun m _ => m
  filterReset := fun m => m
  paramUpdate := fun p => p
  paramGetRaw := fun p => p
  paramPrepareToPlay := fun p _ _ => p

/-- A freshly constructed chain holding the given parameter values: the three `old` members
have their initial value 0. -/
def freshChain (frequency q amount : ℚ) : State (ℚ × ℚ × ℚ) Unit ℚ where
  allPassFrequency := frequency
  allPassQ := q
  allPassAmount := amount
  oldAllPassFreq := 0
  oldAllPassQ := 0
  oldAllPassAmount := 0
  allPassFilters := fun _ => ⟨(0, 0, 0), ()⟩
  oldSampleRate := 44100
  log := []

end AllPassChain

namespace Parameters

/-- The class `juce::NormalisableRange<float>` as it is constructed in
PluginProcessor.cpp: start, end, interval and skew factor. -/
structure NormalisableRange where
  start : ℚ
  finish : ℚ
  interval : ℚ
  skew : ℚ

/-- The helper `makeRange (start, end)` (PluginProcessor.cpp:143-146): interval 0.001 and
the default skew 1. -/
def makeRange (start finish : ℚ) : NormalisableRange :=
  ⟨start, finish, 1 / 1000, 1⟩

/-- One `params.add` of `createParameterLayout`: an `AudioParameterFloat` with its range
and default, an `AudioParameterChoice` with the name of its category list and its default
index, an `AudioParameterBool` with its default, or an `AudioParameterInt` with its minimum,
maximum and default.  The first string is the member of `ParamIDs`, the second the display
name. -/
inductive ParamDecl where
  | float (id name : String) (range : NormalisableRange) (defaultValue : ℚ)
  | choice (id name : String) (categories : String) (defaultIndex : Nat)
  | bool (id name : String) (defaultValue : Bool)
  | int (id name : String) (minValue maxValue : Int) (defaultValue : Int)

/-- The identifier of a declaration. -/
def ParamDecl.id : ParamDecl → String
  | ParamDecl.float i _ _ _ => i
  | ParamDecl.choice i _ _ _ => i
  | ParamDecl.bool i _ _ => i
  | ParamDecl.int i _ _ _ _ => i

/-- The default of a declaration lies in its declared range: between start and end for a
float, between minimum and maximum for an int, index 0 for a choice; a bool has no range. -/
def ParamDecl.defaultInRange : ParamDecl → Prop
  | ParamDecl.float _ _ r d => r.start ≤ d ∧ d ≤ r.finish
  | ParamDecl.choice _ _ _ d => d = 0
  | ParamDecl.bool _ _ _ => True
  | ParamDecl.int _ _ lo hi d => lo ≤ d ∧ d ≤ hi

/-- The values an integer declaration admits, nothing for the other kinds. -/
def ParamDecl.intValues : ParamDecl → Option (Int × Int)
  | ParamDecl.int _ _ lo hi _ => some (lo, hi)
  | _ => none

/-- The parameters added by `AudioPluginAudioProcessor::createParameterLayout`
(PluginProcessor.cpp:148-256), in the order of the source. -/
def createParameterLayout : List ParamDecl :=
  [
    ParamDecl.float "inputGain" "Input Gain" (makeRange (-24) 24) 0,
    ParamDecl.float "outputGain" "Out Gain" (makeRange (-24) 24) 0,
    ParamDecl.float "mix" "Mix" (makeRange 0 100) 100,
    ParamDecl.float "saturationAmount" "Grill Saturation" (makeRange 0 100) 0,
    ParamDecl.float "diode" "Grill Diode" (makeRange 0 100) 0,
    ParamDecl.float "fold" "Grill Fold" (makeRange 0 100) 0,
    ParamDecl.float "grillBias" "Grill Bias" (makeRange 0 1) 0,
    ParamDecl.float "tubeAmount" "Tube Saturation" (makeRange 0 100) 0,
    ParamDecl.float "jeffAmount" "Tube Jeff Amt" (makeRange 0 100) 0,
    ParamDecl.float "tubeBias" "Tube Bias" (makeRange 0 1) 0,
    ParamDecl.float "tubeTone" "Tube Tone" (makeRange 0 1) 1,
    ParamDecl.float "phaseAmount" "Phase Distortion" (makeRange 0 100) 0,
    ParamDecl.float "phaseDistTone" "Phase Dist Tone" ⟨20, 20000, 0, (1 / 4)⟩ 355,
    ParamDecl.float "phaseDistStereo" "Phase Dist Stereo" (makeRange 0 1) 0,
    ParamDecl.float "phaseRectify" "Phase Dist Rectify" (makeRange 0 1) 0,
    ParamDecl.float "rubidiumAmount" "Rubidium Saturation" (makeRange 0 100) 5,
    ParamDecl.float "rubidiumMojo" "Rubidium Mojo" (makeRange 0 100) 5,
    ParamDecl.float "rubidiumAsym" "Rubidium Asymmetry" (makeRange 0 10) 0,
    ParamDecl.float "rubidiumTone" "Rubidium Tone" ⟨4, 100, 0, (1 / 2)⟩ 5,
    ParamDecl.float "matrix1" "Matrix #1" (makeRange 0 1) 0,
    ParamDecl.float "matrix2" "Matrix #2" (makeRange 0 1) 0,
    ParamDecl.float "matrix3" "Matrix #3" (makeRange 0 1) 0,
    ParamDecl.float "matrix4" "Matrix #4" (makeRange 0 1) 0,
    ParamDecl.float "matrix5" "Matrix #5" (makeRange 0 1) 0,
    ParamDecl.float "matrix6" "Matrix #6" (makeRange 0 1) 0,
    ParamDecl.float "matrix7" "Matrix #7" (makeRange 0 1) 0,
    ParamDecl.float "matrix8" "Matrix #8" (makeRange 0 1) 0,
    ParamDecl.float "matrix9" "Matrix #9" (makeRange 0 1) 1,
    ParamDecl.choice "primaryDistortionType" "Distortion Type" "distortion" 0,
    ParamDecl.choice "noiseDistortionType" "Noise Type" "noiseTypes" 0,
    ParamDecl.choice "compressionType" "Compression Type" "dynamics" 0,
    ParamDecl.float "compSpeed" "Comp Speed" ⟨0, 400, 0, (1 / 4)⟩ 100,
    ParamDecl.float "compBandTilt" "Comp Band Tilt" (makeRange (-20) 20) 0,
    ParamDecl.float "compStereoLink" "Stereo Link" (makeRange 0 100) 100,
    ParamDecl.float "compRatio" "Comp Ratio" (makeRange 1 10) (7 / 2),
    ParamDecl.float "compOut" "Comp Makeup" (makeRange (-24) 24) 0,
    ParamDecl.float "stereoCompThreshold" "Stereo Comp Threshold" (makeRange (-48) 0) (-24),
    ParamDecl.float "MBCompThreshold" "MB Comp Threshold" (makeRange (-48) 0) (-24),
    ParamDecl.float "MSCompThreshold" "MS Comp Threshold" (makeRange (-48) 0) (-24),
    ParamDecl.float "sizzleAmount" "Sizzle Amt" (makeRange 0 100) 5,
    ParamDecl.float "sizzleFrequency" "Sizzle Freq" ⟨20, 20000, 0, (1 / 4)⟩ 4000,
    ParamDecl.float "sizzleQ" "Sizzle Q" (makeRange (1 / 10) (3 / 2)) 1,
    ParamDecl.float "erosionAmount" "Erosion Amt" (makeRange 0 100) 3,
    ParamDecl.float "erosionFrequency" "Noise Freq" ⟨20, 20000, 0, (1 / 4)⟩ 400,
    ParamDecl.float "erosionQ" "Erosion Q" (makeRange (1 / 10) (3 / 2)) 1,
    ParamDecl.float "gateAmt" "Gate Amt" (makeRange 0 1) 0,
    ParamDecl.float "gateMix" "Gate Mix" (makeRange 0 1) 1,
    ParamDecl.float "downsampleFreq" "Dwnsmpl Freq" ⟨200, 40000, 0, (1 / 4)⟩ 40000,
    ParamDecl.float "downsampleMix" "Dwnsmpl Mix" (makeRange 0 1) 1,
    ParamDecl.float "bitReduction" "Dwnsmpl Bits" (makeRange 1 32) 32,
    ParamDecl.float "fizzAmount" "Fizz Amt" (makeRange 0 100) 5,
    ParamDecl.float "allPassFreq" "AllPass Frequency" ⟨20, 20000, 0, (1 / 4)⟩ 85,
    ParamDecl.float "allPassQ" "AllPass Q" (makeRange (1 / 100) (141 / 100)) (2 / 5),
    ParamDecl.float "allPassAmount" "AllPass Number" (makeRange 0 50) 10,
    ParamDecl.float "grungeAmt" "Grunge Amt" (makeRange 0 1) 0,
    ParamDecl.float "grungeTone" "Grunge Tone" (makeRange 0 1) (1 / 2),
    ParamDecl.float "emphasisLowGain" "Emphasis Low Gain" (makeRange (-18) 18) 0,
    ParamDecl.float "emphasisHighGain" "Emphasis Hi Gain" (makeRange (-18) 18) 0,
    ParamDecl.float "emphasisLowFreq" "Emphasis Low Frequency" ⟨20, 20000, 0, (1 / 4)⟩ 62,
    ParamDecl.float "emphasisHighFreq" "Emphasis Hi Frequency" ⟨20, 20000, 0, (1 / 4)⟩ 9000,
    ParamDecl.bool "hamburgerEnabled" "Hamburger Enabled" true,
    ParamDecl.bool "compressionOn" "Compressor On" false,
    ParamDecl.bool "primaryDistortionEnabled" "Dist Enabled" true,
    ParamDecl.bool "emphasisOn" "Emphasis EQ On" true,
    ParamDecl.bool "preDistortionEnabled" "Pre-Dist Enabled" false,
    ParamDecl.bool "noiseDistortionEnabled" "Noise Enabled" false,
    ParamDecl.bool "postClipEnabled" "SoftClip Enabled" true,
    ParamDecl.int "oversamplingFactor" "Oversampling Factor" 0 2 0,
    ParamDecl.float "postClipGain" "SoftClip Gain" (makeRange (-18) 18) 0,
    ParamDecl.float "postClipKnee" "SoftClip Knee" (makeRange 0 4) (1 / 2)
  ]

end Parameters

namespace Curves

/-- The number of the branch that `computeUpwardsDownwardsGain` takes (Curves.h:71-87), from
1 for the line above the upper knee to 5 for the final `else` with `output = x`. -/
def upwardsDownwardsBranch {α : Type} [LinearOrderedField α]
    (x upperThres lowerThres knee : α) : Nat :=
  let lowerThres := clampLowerThres upperThres lowerThres knee
  if 2 * (x - upperThres) > knee then
    1
  else if 2 * |x - lowerThres| > knee then
    2
  else if 2 * boolToNum (x < lowerThres) - knee ≠ 0 then
    3
  else if 2 * boolToNum (x > upperThres) + knee ≠ 0 then
    4
  else
    5

end Curves

namespace Curves

/-- The local `output` of `computeCompressorGain` (Curves.h:21-34) as the machine computes
it.  The two tests and the compressed line are `float` arithmetic.  In the knee branch
`pow` takes and returns `double`, so the product, the quotient and the sum after it are
`double` operations on the converted `float` operands, and the assignment to the `float`
`output` rounds once more. -/
def compressorOutputFloat (input_db threshold ratio kneeWidth : ℚ) : ℚ :=
  if Binary.fl32 (2 * Binary.fl32 (input_db - threshold)) < -kneeWidth then
    input_db
  else if Binary.fl32 (2 * Binary.fl32 (input_db - threshold)) > kneeWidth then
    Binary.fl32 (threshold + Binary.fl32 (Binary.fl32 (input_db - threshold) / ratio))
  else
    Binary.fl32 (Binary.fl64 (input_db
      + Binary.fl64 (Binary.fl64 (Binary.fl32 (Binary.fl32 (1 / ratio) - 1)
          * Binary.fl64 (Binary.fl32 (Binary.fl32 (input_db - threshold)
              + Binary.fl32 (kneeWidth / 2)) ^ 2))
        / Binary.fl32 (2 * kneeWidth))))

/-- The local `gainReduction` of `computeCompressorGain` (Curves.h:36-38) as the machine
computes it. -/
def gainReductionFloat (input_db threshold ratio kneeWidth : ℚ) : ℚ :=
  Binary.fl32 (compressorOutputFloat input_db threshold ratio kneeWidth - input_db)

/-- The function `Curves::computeCompressorGain` (Curves.h:13-41) as the machine computes
it. -/
def computeCompressorGainFloat (decibelsToGain : ℚ → ℚ)
    (input_db threshold ratio kneeWidth : ℚ) : ℚ :=
  decibelsToGain (gainReductionFloat input_db threshold ratio kneeWidth)

end Curves

namespace Binary

/-! ## Rounding to a binary format -/

theorem abs_roundHalfEven_sub_le (x : ℚ) : |(roundHalfEven x : ℚ) - x| ≤ 1 / 2 := by
  have h1 := Int.floor_le x
  have h2 := Int.lt_floor_add_one x
  unfold roundHalfEven
  split_ifs with a b c
  · rw [abs_le]; constructor <;> linarith
  · push_cast; rw [abs_le]; constructor <;> linarith
  · rw [abs_le]; constructor <;> linarith
  · push_cast; rw [abs_le]; constructor <;> linarith

/-- A whole number less than half a unit away is the nearest one. -/
theorem roundHalfEven_eq_of_abs_lt (x : ℚ) (m : ℤ) (h : |x - m| < 1 / 2) :
    roundHalfEven x = m := by
  have hx := abs_roundHalfEven_sub_le x
  have h1 : |((roundHalfEven x - m : ℤ) : ℚ)| < 1 := by
    push_cast
    calc |(roundHalfEven x : ℚ) - m| = |((roundHalfEven x : ℚ) - x) + (x - m)| := by ring_nf
      _ ≤ |(roundHalfEven x : ℚ) - x| + |x - m| := abs_add _ _
      _ < 1 := by linarith
  have h2 : |roundHalfEven x - m| < 1 := by exact_mod_cast h1
  have := Int.abs_lt_one_iff.mp h2
  omega

/-- A value half-way between two whole numbers is rounded to the even one. -/
theorem roundHalfEven_eq_of_tie (x : ℚ) (n : ℤ) (h : x - n = 1 / 2 ∨ x - n = -(1 / 2))
    (hn : n % 2 = 0) : roundHalfEven x = n := by
  rcases h with h1 | h1
  · have hfl : ⌊x⌋ = n := by
      rw [Int.floor_eq_iff]
      constructor <;> linarith
    unfold roundHalfEven
    rw [hfl, h1]
    simp [hn]
  · have hfl : ⌊x⌋ = n - 1 := by
      rw [Int.floor_eq_iff]
      push_cast
      constructor <;> linarith
    unfold roundHalfEven
    rw [hfl]
    have hfrac : x - ((n - 1 : ℤ) : ℚ) = 1 / 2 := by
      push_cast
      linarith
    rw [hfrac]
    have hodd : ¬ ((n - 1) % 2 = 0) := by omega
    simp [hodd]

/-- A whole number is rounded to itself. -/
theorem roundHalfEven_intCast (m : ℤ) : roundHalfEven (m : ℚ) = m :=
  roundHalfEven_eq_of_abs_lt _ m (by simp)

/-- Rounding to the nearest whole number is monotone. -/
theorem roundHalfEven_mono {x y : ℚ} (h : x ≤ y) : roundHalfEven x ≤ roundHalfEven y := by
  by_contra hlt
  have hlt : roundHalfEven y + 1 ≤ roundHalfEven x := by omega
  have hx := abs_le.mp (abs_roundHalfEven_sub_le x)
  have hy := abs_le.mp (abs_roundHalfEven_sub_le y)
  have hq : ((roundHalfEven y : ℤ) : ℚ) + 1 ≤ (roundHalfEven x : ℚ) := by exact_mod_cast hlt
  have hxy : x = y := by linarith [hx.1, hx.2, hy.1, hy.2]
  rw [hxy] at hlt
  omega


/-- Every power of two is positive. -/
theorem two_zpow_pos (z : ℤ) : (0 : ℚ) < 2 ^ z := zpow_pos (by norm_num) z

/-- No binade lies below the least exponent. -/
theorem emin_le_binade (emin : ℤ) (q : ℚ) : emin ≤ binade emin q := by
  unfold binade
  split_ifs
  · exact le_refl _
  · exact le_max_right _ _

/-- Every value lies below the top of its binade. -/
theorem abs_lt_two_zpow_binade (emin : ℤ) (q : ℚ) : |q| < 2 ^ (binade emin q + 1) := by
  unfold binade
  split_ifs with h
  · rw [h, abs_zero]
    exact two_zpow_pos _
  · have h1 := Int.lt_zpow_succ_log_self (R := ℚ) (b := 2) (by norm_num) |q|
    have h2 : (2 : ℚ) ^ (Int.log 2 |q| + 1) ≤ (2 : ℚ) ^ (max (Int.log 2 |q|) emin + 1) :=
      zpow_le_zpow_right₀ (by norm_num) (by have := le_max_left (Int.log 2 |q|) emin; omega)
    have h3 : |q| < (2 : ℚ) ^ (Int.log 2 |q| + 1) := by exact_mod_cast h1
    exact lt_of_lt_of_le h3 h2

/-- Above the least binade a value lies at or above the bottom of its binade. -/
theorem two_zpow_binade_le_abs (emin : ℤ) (q : ℚ) (h : emin < binade emin q) :
    2 ^ binade emin q ≤ |q| := by
  unfold binade at h ⊢
  split_ifs at h ⊢ with h0
  · exact absurd h (lt_irrefl _)
  · have hpos : 0 < |q| := abs_pos.mpr h0
    have hmax : max (Int.log 2 |q|) emin = Int.log 2 |q| := by
      rcases le_total (Int.log 2 |q|) emin with hle | hle
      · rw [max_eq_right hle] at h
        exact absurd h (lt_irrefl _)
      · exact max_eq_left hle
    rw [hmax]
    have h1 := Int.zpow_log_le_self (R := ℚ) (b := 2) (by norm_num) hpos
    exact_mod_cast h1

/-- The binade of a value known to lie in `[2^e, 2^(e+1))` with `emin ≤ e`. -/
theorem binade_eq (emin : ℤ) (q : ℚ) (e : ℤ) (he : emin ≤ e) (hlo : 2 ^ e ≤ |q|)
    (hhi : |q| < 2 ^ (e + 1)) : binade emin q = e := by
  have hpos : 0 < |q| := lt_of_lt_of_le (two_zpow_pos e) hlo
  have h0 : q ≠ 0 := abs_pos.mp hpos
  have h1 : e ≤ Int.log 2 |q| :=
    (Int.zpow_le_iff_le_log (R := ℚ) (b := 2) (by norm_num) hpos).mp (by exact_mod_cast hlo)
  have h2 : Int.log 2 |q| < e + 1 :=
    (Int.lt_zpow_iff_log_lt (R := ℚ) (b := 2) (by norm_num) hpos).mp (by exact_mod_cast hhi)
  unfold binade
  rw [if_neg h0]
  have : Int.log 2 |q| = e := by omega
  rw [this]
  exact max_eq_left he

/-- A value below the top of binade `e ≥ emin` has a binade of at most `e`. -/
theorem binade_le (emin : ℤ) (q : ℚ) (e : ℤ) (he : emin ≤ e) (hhi : |q| < 2 ^ (e + 1)) :
    binade emin q ≤ e := by
  unfold binade
  split_ifs with h0
  · exact he
  · have hpos : 0 < |q| := abs_pos.mpr h0
    have h2 : Int.log 2 |q| < e + 1 :=
      (Int.lt_zpow_iff_log_lt (R := ℚ) (b := 2) (by norm_num) hpos).mp (by exact_mod_cast hhi)
    exact max_le (by omega) he

/-- The spacing is positive. -/
theorem ulp_pos (t : ℕ) (emin : ℤ) (q : ℚ) : 0 < ulp t emin q := two_zpow_pos _

/-- Rounding keeps a value at or above a multiple of the spacing it is not below. -/
theorem le_roundTo (t : ℕ) (emin : ℤ) (q : ℚ) (k : ℤ) (h : (k : ℚ) * ulp t emin q ≤ q) :
    (k : ℚ) * ulp t emin q ≤ roundTo t emin q := by
  have hu := ulp_pos t emin q
  have h1 : (k : ℚ) ≤ q / ulp t emin q := (le_div_iff₀ hu).mpr h
  have h2 := roundHalfEven_mono h1
  rw [roundHalfEven_intCast] at h2
  unfold roundTo
  have h3 : (k : ℚ) ≤ (roundHalfEven (q / ulp t emin q) : ℚ) := by exact_mod_cast h2
  exact mul_le_mul_of_nonneg_right h3 hu.le

/-- Rounding keeps a value at or below a multiple of the spacing it does not exceed. -/
theorem roundTo_le (t : ℕ) (emin : ℤ) (q : ℚ) (k : ℤ) (h : q ≤ (k : ℚ) * ulp t emin q) :
    roundTo t emin q ≤ (k : ℚ) * ulp t emin q := by
  have hu := ulp_pos t emin q
  have h1 : q / ulp t emin q ≤ (k : ℚ) := (div_le_iff₀ hu).mpr h
  have h2 := roundHalfEven_mono h1
  rw [roundHalfEven_intCast] at h2
  unfold roundTo
  have h3 : (roundHalfEven (q / ulp t emin q) : ℚ) ≤ (k : ℚ) := by exact_mod_cast h2
  exact mul_le_mul_of_nonneg_right h3 hu.le

/-- The bottom and the top of the binade of `q` as multiples of the spacing. -/
theorem two_pow_mul_ulp (t : ℕ) (emin : ℤ) (q : ℚ) :
    (((2 : ℤ) ^ t : ℤ) : ℚ) * ulp t emin q = 2 ^ binade emin q
      ∧ (((2 : ℤ) ^ (t + 1) : ℤ) : ℚ) * ulp t emin q = 2 ^ (binade emin q + 1) := by
  unfold ulp
  constructor
  · push_cast
    rw [← zpow_natCast (2 : ℚ) t, ← zpow_add₀ (by norm_num : (2 : ℚ) ≠ 0)]
    congr 1
    ring
  · push_cast
    rw [← zpow_natCast (2 : ℚ) (t + 1), ← zpow_add₀ (by norm_num : (2 : ℚ) ≠ 0)]
    congr 1
    push_cast
    ring

/-- Rounding is monotone. -/
theorem roundTo_mono (t : ℕ) (emin : ℤ) {q q' : ℚ} (h : q ≤ q') :
    roundTo t emin q ≤ roundTo t emin q' := by
  rcases lt_trichotomy (binade emin q) (binade emin q') with hlt | heq | hgt
  · -- `q'` lies in a higher binade: it is positive
    have hb' := two_zpow_binade_le_abs emin q' (lt_of_le_of_lt (emin_le_binade emin q) hlt)
    have hb := abs_lt_two_zpow_binade emin q
    have hstep : (2 : ℚ) ^ (binade emin q + 1) ≤ 2 ^ binade emin q' :=
      zpow_le_zpow_right₀ (by norm_num) (by omega)
    have hq' : 0 ≤ q' := by
      by_contra hneg
      have hneg : q' < 0 := not_le.mp hneg
      have h1 : |q'| = -q' := abs_of_neg hneg
      have h2 : |q| = -q := abs_of_neg (lt_of_le_of_lt h hneg)
      rw [h1] at hb'
      rw [h2] at hb
      linarith
    rw [abs_of_nonneg hq'] at hb'
    have hlow : (2 : ℚ) ^ binade emin q' ≤ roundTo t emin q' := by
      rw [← (two_pow_mul_ulp t emin q').1]
      apply le_roundTo
      rw [(two_pow_mul_ulp t emin q').1]
      exact hb'
    have hhigh : roundTo t emin q ≤ (2 : ℚ) ^ (binade emin q + 1) := by
      rw [← (two_pow_mul_ulp t emin q).2]
      apply roundTo_le
      rw [(two_pow_mul_ulp t emin q).2]
      exact le_of_lt (lt_of_le_of_lt (le_abs_self q) hb)
    linarith
  · unfold roundTo ulp
    rw [heq]
    have hu : (0 : ℚ) < 2 ^ (binade emin q' - (t : ℤ)) := two_zpow_pos _
    have h1 : q / 2 ^ (binade emin q' - (t : ℤ)) ≤ q' / 2 ^ (binade emin q' - (t : ℤ)) :=
      div_le_div_of_nonneg_right h hu.le
    have h2 := roundHalfEven_mono h1
    have h3 : (roundHalfEven (q / 2 ^ (binade emin q' - (t : ℤ))) : ℚ)
        ≤ (roundHalfEven (q' / 2 ^ (binade emin q' - (t : ℤ))) : ℚ) := by exact_mod_cast h2
    exact mul_le_mul_of_nonneg_right h3 hu.le
  · -- `q` lies in a higher binade: it is negative
    have hb := two_zpow_binade_le_abs emin q (lt_of_le_of_lt (emin_le_binade emin q') hgt)
    have hb' := abs_lt_two_zpow_binade emin q'
    have hstep : (2 : ℚ) ^ (binade emin q' + 1) ≤ 2 ^ binade emin q :=
      zpow_le_zpow_right₀ (by norm_num) (by omega)
    have hq : q ≤ 0 := by
      by_contra hpos
      have hpos : 0 < q := not_le.mp hpos
      have h1 : |q| = q := abs_of_pos hpos
      have h2 : |q'| = q' := abs_of_pos (lt_of_lt_of_le hpos h)
      rw [h1] at hb
      rw [h2] at hb'
      linarith
    rw [abs_of_nonpos hq] at hb
    have hhigh : roundTo t emin q ≤ -(2 : ℚ) ^ binade emin q := by
      have hk : ((-(2 : ℤ) ^ t : ℤ) : ℚ) * ulp t emin q = -(2 : ℚ) ^ binade emin q := by
        rw [← (two_pow_mul_ulp t emin q).1]
        push_cast
        ring
      rw [← hk]
      apply roundTo_le
      rw [hk]
      linarith
    have hlow : -(2 : ℚ) ^ (binade emin q' + 1) ≤ roundTo t emin q' := by
      have hk : ((-(2 : ℤ) ^ (t + 1) : ℤ) : ℚ) * ulp t emin q'
          = -(2 : ℚ) ^ (binade emin q' + 1) := by
        rw [← (two_pow_mul_ulp t emin q').2]
        push_cast
        ring
      rw [← hk]
      apply le_roundTo
      rw [hk]
      have := neg_abs_le q'
      linarith
    linarith

/-- Zero is rounded to zero. -/
theorem roundTo_zero (t : ℕ) (emin : ℤ) : roundTo t emin 0 = 0 := by
  unfold roundTo
  rw [zero_div]
  have : roundHalfEven 0 = 0 := by
    have := roundHalfEven_intCast 0
    simpa using this
  rw [this]
  simp

/-- A non-negative value is rounded to a non-negative value. -/
theorem roundTo_nonneg (t : ℕ) (emin : ℤ) {q : ℚ} (h : 0 ≤ q) : 0 ≤ roundTo t emin q := by
  have := roundTo_mono t emin h
  rwa [roundTo_zero] at this

/-- A non-positive value is rounded to a non-positive value. -/
theorem roundTo_nonpos (t : ℕ) (emin : ℤ) {q : ℚ} (h : q ≤ 0) : roundTo t emin q ≤ 0 := by
  have := roundTo_mono t emin h
  rwa [roundTo_zero] at this

/-- A whole multiple of a power of two that is at least the spacing is a value of the
format: rounding leaves it as it is. -/
theorem roundTo_eq_self (t : ℕ) (emin : ℤ) (q : ℚ) (m e : ℤ) (hq : q = (m : ℚ) * 2 ^ e)
    (he : binade emin q - (t : ℤ) ≤ e) : roundTo t emin q = q := by
  unfold roundTo ulp
  have hu : (0 : ℚ) < 2 ^ (binade emin q - (t : ℤ)) := two_zpow_pos _
  obtain ⟨n, hn⟩ := Int.eq_ofNat_of_zero_le (sub_nonneg.mpr he)
  have hdiv : q / 2 ^ (binade emin q - (t : ℤ)) = ((m * 2 ^ n : ℤ) : ℚ) := by
    rw [div_eq_iff hu.ne']
    push_cast
    rw [mul_assoc, ← zpow_natCast (2 : ℚ) n, ← zpow_add₀ (by norm_num : (2 : ℚ) ≠ 0), ← hn]
    rw [show e - (binade emin q - (t : ℤ)) + (binade emin q - (t : ℤ)) = e by ring]
    exact hq
  rw [hdiv, roundHalfEven_intCast, ← hdiv]
  exact div_mul_cancel₀ q hu.ne'

/-- The rounded value differs from the value by at most half the spacing. -/
theorem abs_roundTo_sub_le (t : ℕ) (emin : ℤ) (q : ℚ) :
    |roundTo t emin q - q| ≤ ulp t emin q / 2 := by
  have hu := ulp_pos t emin q
  have h := abs_roundHalfEven_sub_le (q / ulp t emin q)
  have h1 : roundTo t emin q - q
      = ((roundHalfEven (q / ulp t emin q) : ℚ) - q / ulp t emin q) * ulp t emin q := by
    unfold roundTo
    field_simp
  rw [h1, abs_mul, abs_of_pos hu]
  calc |(roundHalfEven (q / ulp t emin q) : ℚ) - q / ulp t emin q| * ulp t emin q
      ≤ 1 / 2 * ulp t emin q := mul_le_mul_of_nonneg_right h hu.le
    _ = ulp t emin q / 2 := by ring

/-- Evaluation of a rounding: for `q` in the binade `e ≥ emin` and a whole number `m`
within half a unit of `q / 2^(e − t)`, the rounded value is `m · 2^(e − t)`. -/
theorem roundTo_eval (t : ℕ) (emin : ℤ) (q : ℚ) (e m : ℤ) (he : emin ≤ e)
    (hlo : 2 ^ e ≤ |q|) (hhi : |q| < 2 ^ (e + 1))
    (hm : |q / 2 ^ (e - (t : ℤ)) - m| < 1 / 2) :
    roundTo t emin q = (m : ℚ) * 2 ^ (e - (t : ℤ)) := by
  unfold roundTo ulp
  rw [binade_eq emin q e he hlo hhi, roundHalfEven_eq_of_abs_lt _ m hm]


/-- Rounding twice is rounding once: a rounded value is a value of the format. -/
theorem roundTo_idem (t : ℕ) (emin : ℤ) (q : ℚ) :
    roundTo t emin (roundTo t emin q) = roundTo t emin q := by
  have hb := abs_lt_two_zpow_binade emin q
  have hup : roundTo t emin q ≤ (2 : ℚ) ^ (binade emin q + 1) := by
    rw [← (two_pow_mul_ulp t emin q).2]
    apply roundTo_le
    rw [(two_pow_mul_ulp t emin q).2]
    exact le_of_lt (lt_of_le_of_lt (le_abs_self q) hb)
  have hk : ((-(2 : ℤ) ^ (t + 1) : ℤ) : ℚ) * ulp t emin q
      = -(2 : ℚ) ^ (binade emin q + 1) := by
    rw [← (two_pow_mul_ulp t emin q).2]
    push_cast
    ring
  have hdown : -(2 : ℚ) ^ (binade emin q + 1) ≤ roundTo t emin q := by
    rw [← hk]
    apply le_roundTo
    rw [hk]
    have := neg_abs_le q
    linarith
  have hpos := two_zpow_pos (binade emin q + 1)
  have hE := emin_le_binade emin q
  by_cases hlt : |roundTo t emin q| < 2 ^ (binade emin q + 1)
  · have hbin := binade_le emin (roundTo t emin q) (binade emin q) hE hlt
    exact roundTo_eq_self t emin (roundTo t emin q) (roundHalfEven (q / ulp t emin q))
      (binade emin q - (t : ℤ)) rfl (by omega)
  · have habs : |roundTo t emin q| = 2 ^ (binade emin q + 1) := by
      apply le_antisymm
      · exact abs_le.mpr ⟨hdown, hup⟩
      · exact not_lt.mp hlt
    have hbin : binade emin (roundTo t emin q) = binade emin q + 1 := by
      apply binade_eq emin _ _ (by omega) (le_of_eq habs.symm)
      rw [habs]
      exact zpow_lt_zpow_right₀ (by norm_num) (by omega)
    rcases abs_eq (le_of_lt hpos) |>.mp habs with h | h
    · exact roundTo_eq_self t emin (roundTo t emin q) 1 (binade emin q + 1)
        (by rw [h]; push_cast; ring) (by rw [hbin]; omega)
    · exact roundTo_eq_self t emin (roundTo t emin q) (-1) (binade emin q + 1)
        (by rw [h]; push_cast; ring) (by rw [hbin]; omega)

/-- A lower least exponent gives a binade that is not higher. -/
theorem binade_anti_emin {emin emin' : ℤ} (h : emin' ≤ emin) (q : ℚ) :
    binade emin' q ≤ binade emin q := by
  unfold binade
  split_ifs
  · exact h
  · exact max_le_max (le_refl _) h

/-- A value of a format is a value of every format with at least as many fraction bits
and a least exponent that is not higher. -/
theorem roundTo_eq_self_of_finer {t t' : ℕ} {emin emin' : ℤ} (ht : t ≤ t')
    (he : emin' ≤ emin) (q : ℚ) (h : roundTo t emin q = q) : roundTo t' emin' q = q := by
  have hb := binade_anti_emin he q
  have ht' : (t : ℤ) ≤ (t' : ℤ) := by exact_mod_cast ht
  exact roundTo_eq_self t' emin' q (roundHalfEven (q / ulp t emin q))
    (binade emin q - (t : ℤ)) h.symm (by omega)

/-- The rounding error is at most the relative error `2^-(t+1)` of the format plus half
the spacing of its subnormal values. -/
theorem abs_roundTo_sub_le_rel (t : ℕ) (emin : ℤ) (q : ℚ) :
    |roundTo t emin q - q| ≤ |q| * 2 ^ (-((t : ℤ) + 1)) + 2 ^ (emin - (t : ℤ) - 1) := by
  have h := abs_roundTo_sub_le t emin q
  have h2 : (2 : ℚ) ≠ 0 := by norm_num
  have hhalf : ∀ z : ℤ, (2 : ℚ) ^ z / 2 = 2 ^ (z - 1) := by
    intro z
    rw [zpow_sub₀ h2, zpow_one]
  rcases eq_or_lt_of_le (emin_le_binade emin q) with heq | hlt
  · have hu : ulp t emin q / 2 = 2 ^ (emin - (t : ℤ) - 1) := by
      unfold ulp
      rw [← heq, hhalf]
    rw [hu] at h
    have hnn : 0 ≤ |q| * 2 ^ (-((t : ℤ) + 1)) :=
      mul_nonneg (abs_nonneg q) (two_zpow_pos _).le
    linarith
  · have hb := two_zpow_binade_le_abs emin q hlt
    have hu : ulp t emin q / 2 = 2 ^ binade emin q * 2 ^ (-((t : ℤ) + 1)) := by
      unfold ulp
      rw [hhalf, ← zpow_add₀ h2]
      congr 1
      ring
    rw [hu] at h
    have h3 : (2 : ℚ) ^ binade emin q * 2 ^ (-((t : ℤ) + 1)) ≤ |q| * 2 ^ (-((t : ℤ) + 1)) :=
      mul_le_mul_of_nonneg_right hb (two_zpow_pos _).le
    have hnn : (0 : ℚ) ≤ 2 ^ (emin - (t : ℤ) - 1) := (two_zpow_pos _).le
    linarith

/-- Evaluation of a rounding at a tie: for `q` in the binade `e ≥ emin` half-way between
two neighbouring values, the rounded value is the one with the even multiple `m`. -/
theorem roundTo_eval_tie (t : ℕ) (emin : ℤ) (q : ℚ) (e m : ℤ) (he : emin ≤ e)
    (hlo : 2 ^ e ≤ |q|) (hhi : |q| < 2 ^ (e + 1))
    (hm : q / 2 ^ (e - (t : ℤ)) - m = 1 / 2 ∨ q / 2 ^ (e - (t : ℤ)) - m = -(1 / 2))
    (heven : m % 2 = 0) :
    roundTo t emin q = (m : ℚ) * 2 ^ (e - (t : ℤ)) := by
  unfold roundTo ulp
  rw [binade_eq emin q e he hlo hhi, roundHalfEven_eq_of_tie _ m hm heven]

/-! ### The two formats of the program -/

theorem fl32_mono {q q' : ℚ} (h : q ≤ q') : fl32 q ≤ fl32 q' := roundTo_mono 23 (-126) h

/-- The `double` rounding is monotone. -/
theorem fl64_mono {q q' : ℚ} (h : q ≤ q') : fl64 q ≤ fl64 q' := roundTo_mono 52 (-1022) h

/-- Zero is a `double`. -/
theorem fl64_zero : fl64 0 = 0 := roundTo_zero 52 (-1022)

/-- A rounded value is a `float`. -/
theorem fl32_idem (q : ℚ) : fl32 (fl32 q) = fl32 q := roundTo_idem 23 (-126) q

/-- Every `float` is a `double`. -/
theorem fl64_of_fl32 (q : ℚ) (h : fl32 q = q) : fl64 q = q :=
  roundTo_eq_self_of_finer (by norm_num) (by norm_num) q h

/-- One is a `float`. -/
theorem fl32_one : fl32 1 = 1 :=
  roundTo_eq_self 23 (-126) 1 1 0 (by norm_num)
    (by rw [binade_eq (-126) 1 0 (by norm_num) (by norm_num) (by norm_num)]; norm_num)

/-- Evaluation of a `float` rounding. -/
theorem fl32_eval (q : ℚ) (e m : ℤ) (he : -126 ≤ e) (hlo : 2 ^ e ≤ |q|)
    (hhi : |q| < 2 ^ (e + 1)) (hm : |q / 2 ^ (e - 23) - m| < 1 / 2) :
    fl32 q = (m : ℚ) * 2 ^ (e - 23) :=
  roundTo_eval 23 (-126) q e m he hlo hhi hm

/-- Evaluation of a `double` rounding. -/
theorem fl64_eval (q : ℚ) (e m : ℤ) (he : -1022 ≤ e) (hlo : 2 ^ e ≤ |q|)
    (hhi : |q| < 2 ^ (e + 1)) (hm : |q / 2 ^ (e - 52) - m| < 1 / 2) :
    fl64 q = (m : ℚ) * 2 ^ (e - 52) :=
  roundTo_eval 52 (-1022) q e m he hlo hhi hm

/-- Evaluation of a `float` rounding at a tie. -/
theorem fl32_eval_tie (q : ℚ) (e m : ℤ) (he : -126 ≤ e) (hlo : 2 ^ e ≤ |q|)
    (hhi : |q| < 2 ^ (e + 1))
    (hm : q / 2 ^ (e - 23) - m = 1 / 2 ∨ q / 2 ^ (e - 23) - m = -(1 / 2))
    (heven : m % 2 = 0) :
    fl32 q = (m : ℚ) * 2 ^ (e - 23) :=
  roundTo_eval_tie 23 (-126) q e m he hlo hhi hm heven

/-- Evaluation of a `double` rounding at a tie. -/
theorem fl64_eval_tie (q : ℚ) (e m : ℤ) (he : -1022 ≤ e) (hlo : 2 ^ e ≤ |q|)
    (hhi : |q| < 2 ^ (e + 1))
    (hm : q / 2 ^ (e - 52) - m = 1 / 2 ∨ q / 2 ^ (e - 52) - m = -(1 / 2))
    (heven : m % 2 = 0) :
    fl64 q = (m : ℚ) * 2 ^ (e - 52) :=
  roundTo_eval_tie 52 (-1022) q e m he hlo hhi hm heven

/-- The error of a `float` rounding: relative error `2^-24`, absolute error `2^-150` in
the subnormal range. -/
theorem abs_fl32_sub_le (q : ℚ) : |fl32 q - q| ≤ |q| / 2 ^ 24 + 1 / 2 ^ 150 := by
  have h := abs_roundTo_sub_le_rel 23 (-126) q
  have h1 : (2 : ℚ) ^ (-(((23 : ℕ) : ℤ) + 1)) = 1 / 2 ^ 24 := by norm_num
  have h2 : (2 : ℚ) ^ ((-126 : ℤ) - ((23 : ℕ) : ℤ) - 1) = 1 / 2 ^ 150 := by norm_num
  rw [h1, h2] at h
  unfold fl32
  calc |roundTo 23 (-126) q - q| ≤ |q| * (1 / 2 ^ 24) + 1 / 2 ^ 150 := h
    _ = |q| / 2 ^ 24 + 1 / 2 ^ 150 := by ring

/-! ## Rounding around a power of two -/

/-- The `float` rounding of a value in the binade of `2 ^ k`: the nearest whole multiple of
`2 ^ k / 2 ^ 23`. -/
theorem fl32_of_binade (k : ℕ) (v : ℚ) (h1 : (2 : ℚ) ^ k ≤ v) (h2 : v < 2 ^ (k + 1)) :
    fl32 v = (roundHalfEven (v / (2 ^ k / 2 ^ 23)) : ℚ) * (2 ^ k / 2 ^ 23) := by
  have hpos : (0 : ℚ) < 2 ^ k := by positivity
  have hv : 0 < v := lt_of_lt_of_le hpos h1
  have hb : binade (-126) v = (k : ℤ) := by
    apply binade_eq (-126) v k (by omega)
    · rw [abs_of_pos hv, zpow_natCast]
      exact h1
    · rw [abs_of_pos hv]
      have : (2 : ℚ) ^ ((k : ℤ) + 1) = 2 ^ (k + 1) := by
        rw [← zpow_natCast]
        push_cast
        rfl
      rw [this]
      exact h2
  have hu : ulp 23 (-126) v = 2 ^ k / 2 ^ 23 := by
    unfold ulp
    rw [hb, zpow_sub₀ (by norm_num : (2 : ℚ) ≠ 0), zpow_natCast]
    norm_num
  unfold fl32 roundTo
  rw [hu]

/-- A power of two with a natural exponent is a `float`. -/
theorem fl32_two_pow (k : ℕ) : fl32 ((2 : ℚ) ^ k) = 2 ^ k := by
  have hpos : (0 : ℚ) < 2 ^ k := by positivity
  have h := fl32_of_binade k (2 ^ k) (le_refl _) (by
    rw [pow_succ]
    linarith)
  rw [h]
  have hdiv : (2 : ℚ) ^ k / (2 ^ k / 2 ^ 23) = ((8388608 : ℤ) : ℚ) := by
    field_simp
    norm_num
  rw [hdiv, roundHalfEven_intCast]
  push_cast
  field_simp
  ring

/-- A value less than a quarter of a spacing away from `2 ^ (j + 1)` is rounded to
`2 ^ (j + 1)`. -/
theorem fl32_near_two_pow (j : ℕ) (v : ℚ) (h : |v - 2 ^ (j + 1)| < 2 ^ (j + 1) / 2 ^ 25) :
    fl32 v = 2 ^ (j + 1) := by
  have hpos : (0 : ℚ) < 2 ^ j := by positivity
  have hsucc : (2 : ℚ) ^ (j + 1) = 2 * 2 ^ j := by
    rw [pow_succ]
    ring
  obtain ⟨hlo, hhi⟩ := abs_lt.mp h
  rw [hsucc] at hlo hhi ⊢
  by_cases hv : 2 * (2 : ℚ) ^ j ≤ v
  · have hv' : (2 : ℚ) ^ (j + 1) ≤ v := by
      rw [hsucc]
      exact hv
    have hup : v < 2 ^ (j + 1 + 1) := by
      rw [pow_succ, hsucc]
      have : 2 * (2 : ℚ) ^ j / 2 ^ 25 ≤ 2 * 2 ^ j := by
        rw [div_le_iff₀ (by positivity)]
        nlinarith
      linarith
    rw [fl32_of_binade (j + 1) v hv' hup, hsucc]
    have hr : roundHalfEven (v / (2 * 2 ^ j / 2 ^ 23)) = 8388608 := by
      apply roundHalfEven_eq_of_abs_lt
      have hd : v / (2 * 2 ^ j / 2 ^ 23) - ((8388608 : ℤ) : ℚ)
          = (v - 2 * 2 ^ j) / (2 * 2 ^ j / 2 ^ 23) := by
        field_simp
        ring
      rw [hd, abs_lt]
      constructor
      · rw [lt_div_iff₀ (by positivity)]
        nlinarith
      · rw [div_lt_iff₀ (by positivity)]
        nlinarith
    rw [hr]
    push_cast
    field_simp
    ring
  · have hv : v < 2 * (2 : ℚ) ^ j := not_le.mp hv
    have hlow : (2 : ℚ) ^ j ≤ v := by
      have : 2 * (2 : ℚ) ^ j / 2 ^ 25 ≤ 2 ^ j := by
        rw [div_le_iff₀ (by positivity)]
        nlinarith
      linarith
    have hup : v < 2 ^ (j + 1) := by
      rw [hsucc]
      exact hv
    rw [fl32_of_binade j v hlow hup]
    have hr : roundHalfEven (v / (2 ^ j / 2 ^ 23)) = 16777216 := by
      apply roundHalfEven_eq_of_abs_lt
      have hd : v / (2 ^ j / 2 ^ 23) - ((16777216 : ℤ) : ℚ)
          = (v - 2 * 2 ^ j) / (2 ^ j / 2 ^ 23) := by
        field_simp
        ring
      rw [hd, abs_lt]
      constructor
      · rw [lt_div_iff₀ (by positivity)]
        have : 2 * (2 : ℚ) ^ j / 2 ^ 25 = 1 / 2 * (2 ^ j / 2 ^ 23) := by
          field_simp
          ring
        linarith
      · rw [div_lt_iff₀ (by positivity)]
        have : (0 : ℚ) < 2 ^ j / 2 ^ 23 := by positivity
        nlinarith
    rw [hr]
    push_cast
    field_simp
    ring

/-- A value above the midpoint between `2 ^ k` and the next `float` is rounded to the next
`float` or higher. -/
theorem le_fl32_of_above_midpoint (k : ℕ) (v : ℚ) (h : 2 ^ k * (1 + 1 / 2 ^ 24) < v) :
    (2 : ℚ) ^ k * (1 + 1 / 2 ^ 23) ≤ fl32 v := by
  have hpos : (0 : ℚ) < 2 ^ k := by positivity
  by_cases hv : v < 2 ^ (k + 1)
  · have hlow : (2 : ℚ) ^ k ≤ v := by
      have : (2 : ℚ) ^ k ≤ 2 ^ k * (1 + 1 / 2 ^ 24) := by nlinarith
      linarith
    rw [fl32_of_binade k v hlow hv]
    have hu : (0 : ℚ) < 2 ^ k / 2 ^ 23 := by positivity
    have hn := abs_le.mp (abs_roundHalfEven_sub_le (v / (2 ^ k / 2 ^ 23)))
    have hq : (8388608 : ℚ) + 1 / 2 < v / (2 ^ k / 2 ^ 23) := by
      rw [lt_div_iff₀ hu]
      have : ((8388608 : ℚ) + 1 / 2) * (2 ^ k / 2 ^ 23) = 2 ^ k * (1 + 1 / 2 ^ 24) := by
        field_simp
        ring
      rw [this]
      exact h
    have hgt : ((8388608 : ℤ) : ℚ) < (roundHalfEven (v / (2 ^ k / 2 ^ 23)) : ℚ) := by
      push_cast
      linarith [hn.1]
    have hint : (8388608 : ℤ) < roundHalfEven (v / (2 ^ k / 2 ^ 23)) := by exact_mod_cast hgt
    have hge : ((8388609 : ℤ) : ℚ) ≤ (roundHalfEven (v / (2 ^ k / 2 ^ 23)) : ℚ) := by
      have : (8388609 : ℤ) ≤ roundHalfEven (v / (2 ^ k / 2 ^ 23)) := by omega
      exact_mod_cast this
    have hmul := mul_le_mul_of_nonneg_right hge hu.le
    have he : ((8388609 : ℤ) : ℚ) * (2 ^ k / 2 ^ 23) = 2 ^ k * (1 + 1 / 2 ^ 23) := by
      push_cast
      field_simp
      ring
    rw [he] at hmul
    exact hmul
  · have hv : (2 : ℚ) ^ (k + 1) ≤ v := not_lt.mp hv
    have hm := fl32_mono hv
    rw [fl32_two_pow] at hm
    have hs : (2 : ℚ) ^ (k + 1) = 2 ^ k * 2 := pow_succ 2 k
    have : (2 : ℚ) ^ k * (1 + 1 / 2 ^ 23) ≤ 2 ^ k * 2 :=
      mul_le_mul_of_nonneg_left (by norm_num) hpos.le
    rw [hs] at hm
    linarith

/-- A `float` below 1 is at most `1 − 2^-24`, the largest `float` below 1. -/
theorem float_lt_one_le (r : ℚ) (hf : fl32 r = r) (h1 : r < 1) : r ≤ 1 - 1 / 2 ^ 24 := by
  by_contra hgt
  have hgt : 1 - 1 / 2 ^ 24 < r := not_le.mp hgt
  have hpos : 0 < r := by
    have : (0 : ℚ) < 1 - 1 / 2 ^ 24 := by norm_num
    linarith
  have hb : binade (-126) r = -1 := by
    apply binade_eq (-126) r (-1) (by norm_num)
    · rw [abs_of_pos hpos]
      have : (2 : ℚ) ^ (-1 : ℤ) = 1 / 2 := by norm_num
      rw [this]
      have : (1 : ℚ) / 2 ≤ 1 - 1 / 2 ^ 24 := by norm_num
      linarith
    · rw [abs_of_pos hpos]
      norm_num
      exact h1
  have hu : ulp 23 (-126) r = 1 / 2 ^ 24 := by
    unfold ulp
    rw [hb]
    norm_num
  unfold fl32 roundTo at hf
  rw [hu] at hf
  have hlo : ((16777215 : ℤ) : ℚ) < (roundHalfEven (r / (1 / 2 ^ 24)) : ℚ) := by
    push_cast
    have : (16777215 : ℚ) = (1 - 1 / 2 ^ 24) * 2 ^ 24 := by norm_num
    have hr : (roundHalfEven (r / (1 / 2 ^ 24)) : ℚ) = r * 2 ^ 24 := by
      have h24 : (0 : ℚ) < 2 ^ 24 := by positivity
      field_simp at hf ⊢
      linarith
    rw [hr, this]
    exact mul_lt_mul_of_pos_right hgt (by positivity)
  have hhi : (roundHalfEven (r / (1 / 2 ^ 24)) : ℚ) < ((16777216 : ℤ) : ℚ) := by
    push_cast
    have hr : (roundHalfEven (r / (1 / 2 ^ 24)) : ℚ) = r * 2 ^ 24 := by
      have h24 : (0 : ℚ) < 2 ^ 24 := by positivity
      field_simp at hf ⊢
      linarith
    rw [hr]
    have : (16777216 : ℚ) = 1 * 2 ^ 24 := by norm_num
    rw [this]
    exact mul_lt_mul_of_pos_right h1 (by positivity)
  have h1' : (16777215 : ℤ) < roundHalfEven (r / (1 / 2 ^ 24)) := by exact_mod_cast hlo
  have h2' : roundHalfEven (r / (1 / 2 ^ 24)) < (16777216 : ℤ) := by exact_mod_cast hhi
  omega

end Binary

namespace Curves

/-! ## The compressor curve -/

/-- C1: inside the knee window (`-kneeWidth ≤ 2·(input_db − threshold) ≤ kneeWidth`,
`kneeWidth > 0`, `ratio ≠ 0`) the dB-domain output of `computeCompressorGain` is
`input_db + (1/ratio − 1)·(input_db − threshold + kneeWidth/2)² / (2·kneeWidth)`, and the
value returned is `decibelsToGain` of its difference from `input_db`. -/
theorem compressorOutput_in_knee {α : Type} [LinearOrderedField α]
    (decibelsToGain : α → α) (input_db threshold ratio kneeWidth : α)
    (_hr : ratio ≠ 0) (_hk : 0 < kneeWidth)
    (hlo : -kneeWidth ≤ 2 * (input_db - threshold))
    (hhi : 2 * (input_db - threshold) ≤ kneeWidth) :
    compressorOutput input_db threshold ratio kneeWidth
        = input_db + (1 / ratio - 1) * (input_db - threshold + kneeWidth / 2) ^ 2
            / (2 * kneeWidth)
      ∧ computeCompressorGain decibelsToGain input_db threshold ratio kneeWidth
        = decibelsToGain (input_db + (1 / ratio - 1)
            * (input_db - threshold + kneeWidth / 2) ^ 2 / (2 * kneeWidth) - input_db) := by
  have h1 : ¬ 2 * (input_db - threshold) < -kneeWidth := not_lt.mpr hlo
  have h2 : ¬ 2 * (input_db - threshold) > kneeWidth := not_lt.mpr hhi
  have hout : compressorOutput input_db threshold ratio kneeWidth
      = input_db + (1 / ratio - 1) * (input_db - threshold + kneeWidth / 2) ^ 2
          / (2 * kneeWidth) := by
    simp only [compressorOutput, if_neg h1, if_neg h2, compressorKnee]
  refine ⟨hout, ?_⟩
  simp only [computeCompressorGain, hout]

theorem compressorOutput_in_knee_witness :
    compressorOutput (0 : ℚ) 0 2 1 = 0 + (1 / 2 - 1) * (0 - 0 + 1 / 2) ^ 2 / (2 * 1)
      ∧ computeCompressorGain (fun g : ℚ => g) 0 0 2 1
        = (fun g : ℚ => g) (0 + (1 / 2 - 1) * (0 - 0 + 1 / 2) ^ 2 / (2 * 1) - 0) :=
  compressorOutput_in_knee (fun g : ℚ => g) 0 0 2 1 (by norm_num) (by norm_num)
    (by norm_num) (by norm_num)

/-- Over the reals the compressor output is a continuous function of `input_db` whenever
the knee width is positive. -/
theorem compressorOutput_continuous (threshold ratio kneeWidth : ℝ) (hk : 0 < kneeWidth) :
    Continuous (fun x : ℝ => compressorOutput x threshold ratio kneeWidth) := by
  have hrw : (fun x : ℝ => compressorOutput x threshold ratio kneeWidth)
      = fun x : ℝ => if -kneeWidth ≤ 2 * (x - threshold) then
          (if 2 * (x - threshold) ≤ kneeWidth then compressorKnee x threshold ratio kneeWidth
            else compressorAbove x threshold ratio)
          else x := by
    funext x
    unfold compressorOutput
    split_ifs <;> first | rfl | (exfalso; linarith)
  rw [hrw]
  have hknee : Continuous (fun x : ℝ => compressorKnee x threshold ratio kneeWidth) := by
    unfold compressorKnee
    fun_prop
  have habove : Continuous (fun x : ℝ => compressorAbove x threshold ratio) := by
    unfold compressorAbove
    fun_prop
  have hlin : Continuous (fun x : ℝ => 2 * (x - threshold)) := by fun_prop
  refine Continuous.if_le (Continuous.if_le hknee habove hlin continuous_const ?_)
    continuous_id continuous_const hlin ?_
  · intro x hx
    have hx2 : x = threshold + kneeWidth / 2 := by linarith
    subst hx2
    have hk0 : kneeWidth ≠ 0 := ne_of_gt hk
    simp only [compressorKnee, compressorAbove]
    field_simp
    ring
  · intro x hx
    have hx2 : x = threshold - kneeWidth / 2 := by linarith
    subst hx2
    have h2 : 2 * (threshold - kneeWidth / 2 - threshold) ≤ kneeWidth := by linarith
    rw [if_pos h2]
    simp only [compressorKnee, id]
    ring_nf

/-- C2: for `ratio > 1` and `kneeWidth > 0` the dB-domain output of `computeCompressorGain`
is continuous in `input_db` at both knee boundaries; at `threshold − kneeWidth/2` the knee
formula equals the pass-through value `input_db`, and at `threshold + kneeWidth/2` it
equals `threshold + (input_db − threshold)/ratio`. -/
theorem compressorOutput_continuousAt_knee_boundaries (threshold ratio kneeWidth : ℝ)
    (_hr : 1 < ratio) (hk : 0 < kneeWidth) :
    ContinuousAt (fun x : ℝ => compressorOutput x threshold ratio kneeWidth)
        (threshold - kneeWidth / 2)
      ∧ ContinuousAt (fun x : ℝ => compressorOutput x threshold ratio kneeWidth)
        (threshold + kneeWidth / 2)
      ∧ compressorKnee (threshold - kneeWidth / 2) threshold ratio kneeWidth
        = threshold - kneeWidth / 2
      ∧ compressorKnee (threshold + kneeWidth / 2) threshold ratio kneeWidth
        = threshold + ((threshold + kneeWidth / 2) - threshold) / ratio := by
  have hk0 : kneeWidth ≠ 0 := ne_of_gt hk
  refine ⟨(compressorOutput_continuous threshold ratio kneeWidth hk).continuousAt,
    (compressorOutput_continuous threshold ratio kneeWidth hk).continuousAt, ?_, ?_⟩
  · simp only [compressorKnee]
    ring_nf
  · simp only [compressorKnee]
    field_simp
    ring

theorem compressorOutput_continuousAt_knee_boundaries_witness :
    ContinuousAt (fun x : ℝ => compressorOutput x 0 2 1) (0 - 1 / 2)
      ∧ ContinuousAt (fun x : ℝ => compressorOutput x 0 2 1) (0 + 1 / 2)
      ∧ compressorKnee (0 - 1 / 2 : ℝ) 0 2 1 = 0 - 1 / 2
      ∧ compressorKnee (0 + 1 / 2 : ℝ) 0 2 1 = 0 + ((0 + 1 / 2) - 0) / 2 :=
  compressorOutput_continuousAt_knee_boundaries 0 2 1 (by norm_num) (by norm_num)

/-- Two functions with the same derivative at `x₀` glue to a function differentiable at `x₀`:
`f` agrees with `g` just left of `x₀` and with `h` just right of it. -/
theorem hasDerivAt_of_glue {f g h : ℝ → ℝ} {d x₀ δ : ℝ} (hδ : 0 < δ)
    (hg : HasDerivAt g d x₀) (hh : HasDerivAt h d x₀)
    (hl : ∀ y, x₀ - δ < y → y ≤ x₀ → f y = g y)
    (hr : ∀ y, x₀ ≤ y → y < x₀ + δ → f y = h y) : HasDerivAt f d x₀ := by
  have hnhds : Set.Ioo (x₀ - δ) (x₀ + δ) ∈ nhds x₀ :=
    Ioo_mem_nhds (by linarith) (by linarith)
  have hleft : HasDerivWithinAt f d (Set.Iic x₀) x₀ := by
    rw [← hasDerivWithinAt_inter hnhds]
    refine hg.hasDerivWithinAt.congr ?_ (hl x₀ (by linarith) le_rfl)
    intro y hy
    exact hl y hy.2.1 hy.1
  have hright : HasDerivWithinAt f d (Set.Ici x₀) x₀ := by
    rw [← hasDerivWithinAt_inter hnhds]
    refine hh.hasDerivWithinAt.congr ?_ (hr x₀ le_rfl (by linarith))
    intro y hy
    exact hr y hy.1 hy.2.2
  have hunion := hleft.union hright
  rwa [Set.Iic_union_Ici, hasDerivWithinAt_univ] at hunion

/-- The derivative of the knee polynomial. -/
theorem hasDerivAt_compressorKnee (threshold ratio kneeWidth : ℝ) (hk : kneeWidth ≠ 0)
    (x : ℝ) :
    HasDerivAt (fun y : ℝ => compressorKnee y threshold ratio kneeWidth)
      (1 + (1 / ratio - 1) * (x - threshold + kneeWidth / 2) / kneeWidth) x := by
  have h1 : HasDerivAt (fun y : ℝ => y - threshold + kneeWidth / 2) 1 x :=
    ((hasDerivAt_id x).sub_const threshold).add_const (kneeWidth / 2)
  have h2 := h1.pow 2
  have h3 := ((h2.const_mul (1 / ratio - 1)).div_const (2 * kneeWidth))
  have h4 := (hasDerivAt_id x).add h3
  refine (h4.congr_deriv ?_).congr_of_eventuallyEq ?_
  · field_simp
  · exact Filter.Eventually.of_forall (fun y => by simp [compressorKnee])

/-- The derivative of the compressed line. -/
theorem hasDerivAt_compressorAbove (threshold ratio : ℝ) (x : ℝ) :
    HasDerivAt (fun y : ℝ => compressorAbove y threshold ratio) (1 / ratio) x := by
  have h1 : HasDerivAt (fun y : ℝ => y - threshold) 1 x := (hasDerivAt_id x).sub_const threshold
  have h2 := (h1.div_const ratio).const_add threshold
  exact h2.congr_of_eventuallyEq
    (Filter.Eventually.of_forall (fun y => by simp [compressorAbove]))

/-- The compressor output is differentiable in `input_db` everywhere, the knee boundaries
included, and its derivative is `compressorSlope`. -/
theorem compressorOutput_hasDerivAt (threshold ratio kneeWidth : ℝ) (hk : 0 < kneeWidth)
    (x : ℝ) :
    HasDerivAt (fun y : ℝ => compressorOutput y threshold ratio kneeWidth)
      (compressorSlope x threshold ratio kneeWidth) x := by
  have hk0 : kneeWidth ≠ 0 := ne_of_gt hk
  have hknee := hasDerivAt_compressorKnee threshold ratio kneeWidth hk0 x
  have habove := hasDerivAt_compressorAbove threshold ratio x
  have hid : HasDerivAt (fun y : ℝ => y) 1 x := hasDerivAt_id x
  have fid : ∀ y : ℝ, 2 * (y - threshold) < -kneeWidth →
      compressorOutput y threshold ratio kneeWidth = y := by
    intro y hy
    simp only [compressorOutput, if_pos hy]
  have fknee : ∀ y : ℝ, -kneeWidth ≤ 2 * (y - threshold) → 2 * (y - threshold) ≤ kneeWidth →
      compressorOutput y threshold ratio kneeWidth
        = compressorKnee y threshold ratio kneeWidth := by
    intro y h1 h2
    simp only [compressorOutput, if_neg (not_lt.mpr h1), if_neg (not_lt.mpr h2)]
  have fabove : ∀ y : ℝ, kneeWidth < 2 * (y - threshold) →
      compressorOutput y threshold ratio kneeWidth = compressorAbove y threshold ratio := by
    intro y hy
    have h1 : ¬ 2 * (y - threshold) < -kneeWidth := by linarith
    simp only [compressorOutput, if_neg h1, if_pos hy]
  rcases lt_trichotomy (2 * (x - threshold)) (-kneeWidth) with hlt | heq | hgt
  · -- below the knee
    have hs : compressorSlope x threshold ratio kneeWidth = 1 := by
      simp only [compressorSlope, if_pos hlt]
    rw [hs]
    have hδ : 0 < (-kneeWidth - 2 * (x - threshold)) / 2 := by linarith
    exact hasDerivAt_of_glue hδ hid hid (fun y _ hy => fid y (by linarith))
      (fun y _ hy => fid y (by linarith))
  · -- the lower knee boundary
    have hs : compressorSlope x threshold ratio kneeWidth = 1 := by
      have h1 : ¬ 2 * (x - threshold) < -kneeWidth := by linarith
      have h2 : ¬ 2 * (x - threshold) > kneeWidth := by linarith
      have h3 : x - threshold + kneeWidth / 2 = 0 := by linarith
      simp only [compressorSlope, if_neg h1, if_neg h2, h3]
      ring
    have hknee1 : HasDerivAt (fun y : ℝ => compressorKnee y threshold ratio kneeWidth) 1 x := by
      have h3 : x - threshold + kneeWidth / 2 = 0 := by linarith
      refine hknee.congr_deriv ?_
      rw [h3]
      ring
    rw [hs]
    refine hasDerivAt_of_glue hk hid hknee1 ?_ ?_
    · intro y _ hy
      rcases lt_or_eq_of_le hy with hlt | rfl
      · exact fid y (by linarith)
      · rw [fknee y (by linarith) (by linarith)]
        simp only [compressorKnee]
        have h3 : y - threshold + kneeWidth / 2 = 0 := by linarith
        rw [h3]
        ring
    · intro y hy1 hy2
      exact fknee y (by linarith) (by linarith)
  · rcases lt_trichotomy (2 * (x - threshold)) kneeWidth with hlt2 | heq2 | hgt2
    · -- strictly inside the knee
      have hs : compressorSlope x threshold ratio kneeWidth
          = 1 + (1 / ratio - 1) * (x - threshold + kneeWidth / 2) / kneeWidth := by
        have h1 : ¬ 2 * (x - threshold) < -kneeWidth := by linarith
        have h2 : ¬ 2 * (x - threshold) > kneeWidth := by linarith
        simp only [compressorSlope, if_neg h1, if_neg h2]
      rw [hs]
      have hδ : 0 < min ((2 * (x - threshold) + kneeWidth) / 2)
          ((kneeWidth - 2 * (x - threshold)) / 2) := by
        apply lt_min <;> linarith
      refine hasDerivAt_of_glue hδ hknee hknee ?_ ?_
      · intro y hy1 hy2
        have := min_le_left ((2 * (x - threshold) + kneeWidth) / 2)
          ((kneeWidth - 2 * (x - threshold)) / 2)
        exact fknee y (by linarith) (by linarith)
      · intro y hy1 hy2
        have := min_le_right ((2 * (x - threshold) + kneeWidth) / 2)
          ((kneeWidth - 2 * (x - threshold)) / 2)
        exact fknee y (by linarith) (by linarith)
    · -- the upper knee boundary
      have h3 : x - threshold + kneeWidth / 2 = kneeWidth := by linarith
      have hs : compressorSlope x threshold ratio kneeWidth = 1 / ratio := by
        have h1 : ¬ 2 * (x - threshold) < -kneeWidth := by linarith
        have h2 : ¬ 2 * (x - threshold) > kneeWidth := by linarith
        simp only [compressorSlope, if_neg h1, if_neg h2, h3]
        field_simp
      have hknee1 : HasDerivAt (fun y : ℝ => compressorKnee y threshold ratio kneeWidth)
          (1 / ratio) x := by
        refine hknee.congr_deriv ?_
        rw [h3]
        field_simp
      rw [hs]
      refine hasDerivAt_of_glue hk hknee1 habove ?_ ?_
      · intro y hy1 hy2
        exact fknee y (by linarith) (by linarith)
      · intro y hy1 _
        rcases lt_or_eq_of_le hy1 with hlt | rfl
        · exact fabove y (by linarith)
        · rw [fknee x (by linarith) (by linarith)]
          have hx : x = threshold + kneeWidth / 2 := by linarith
          simp only [compressorKnee, compressorAbove]
          rw [hx]
          field_simp
          ring
    · -- above the knee
      have hs : compressorSlope x threshold ratio kneeWidth = 1 / ratio := by
        have h1 : ¬ 2 * (x - threshold) < -kneeWidth := by linarith
        simp only [compressorSlope, if_neg h1, if_pos hgt2]
      rw [hs]
      have hδ : 0 < (2 * (x - threshold) - kneeWidth) / 2 := by linarith
      exact hasDerivAt_of_glue hδ habove habove (fun y hy _ => fabove y (by linarith))
        (fun y _ hy => fabove y (by linarith))

/-- The branch slopes fit together: `compressorSlope` is continuous in `input_db`. -/
theorem compressorSlope_continuous (threshold ratio kneeWidth : ℝ) (hk : 0 < kneeWidth) :
    Continuous (fun x : ℝ => compressorSlope x threshold ratio kneeWidth) := by
  have hk0 : kneeWidth ≠ 0 := ne_of_gt hk
  have hrw : (fun x : ℝ => compressorSlope x threshold ratio kneeWidth)
      = fun x : ℝ => if -kneeWidth ≤ 2 * (x - threshold) then
          (if 2 * (x - threshold) ≤ kneeWidth then
              1 + (1 / ratio - 1) * (x - threshold + kneeWidth / 2) / kneeWidth
            else 1 / ratio)
          else 1 := by
    funext x
    unfold compressorSlope
    split_ifs <;> first | rfl | (exfalso; linarith)
  rw [hrw]
  have hknee : Continuous
      (fun x : ℝ => 1 + (1 / ratio - 1) * (x - threshold + kneeWidth / 2) / kneeWidth) := by
    fun_prop
  have hlin : Continuous (fun x : ℝ => 2 * (x - threshold)) := by fun_prop
  refine Continuous.if_le (Continuous.if_le hknee continuous_const hlin continuous_const ?_)
    continuous_const continuous_const hlin ?_
  · intro x hx
    have hx2 : x = threshold + kneeWidth / 2 := by linarith
    subst hx2
    field_simp
    ring
  · intro x hx
    have hx2 : x = threshold - kneeWidth / 2 := by linarith
    subst hx2
    have h2 : 2 * (threshold - kneeWidth / 2 - threshold) ≤ kneeWidth := by linarith
    rw [if_pos h2]
    ring_nf

/-- C3: for `ratio > 1` and `kneeWidth > 0` the first derivative of the dB-domain output of
`computeCompressorGain` with respect to `input_db` is continuous at both knee boundaries:
the slope of the output and of the knee polynomial is 1 at `threshold − kneeWidth/2` (the
pass-through slope) and `1/ratio` at `threshold + kneeWidth/2` (the compressed slope). -/
theorem compressorOutput_deriv_continuousAt_knee_boundaries (threshold ratio kneeWidth : ℝ)
    (_hr : 1 < ratio) (hk : 0 < kneeWidth) :
    HasDerivAt (fun x : ℝ => compressorOutput x threshold ratio kneeWidth) 1
        (threshold - kneeWidth / 2)
      ∧ HasDerivAt (fun x : ℝ => compressorOutput x threshold ratio kneeWidth) (1 / ratio)
        (threshold + kneeWidth / 2)
      ∧ HasDerivAt (fun x : ℝ => compressorKnee x threshold ratio kneeWidth) 1
        (threshold - kneeWidth / 2)
      ∧ HasDerivAt (fun x : ℝ => compressorKnee x threshold ratio kneeWidth) (1 / ratio)
        (threshold + kneeWidth / 2)
      ∧ ContinuousAt (deriv (fun x : ℝ => compressorOutput x threshold ratio kneeWidth))
        (threshold - kneeWidth / 2)
      ∧ ContinuousAt (deriv (fun x : ℝ => compressorOutput x threshold ratio kneeWidth))
        (threshold + kneeWidth / 2) := by
  have hk0 : kneeWidth ≠ 0 := ne_of_gt hk
  have hderiv : deriv (fun x : ℝ => compressorOutput x threshold ratio kneeWidth)
      = fun x : ℝ => compressorSlope x threshold ratio kneeWidth := by
    funext x
    exact (compressorOutput_hasDerivAt threshold ratio kneeWidth hk x).deriv
  have hslo : compressorSlope (threshold - kneeWidth / 2) threshold ratio kneeWidth = 1 := by
    have h1 : ¬ 2 * (threshold - kneeWidth / 2 - threshold) < -kneeWidth := by linarith
    have h2 : ¬ 2 * (threshold - kneeWidth / 2 - threshold) > kneeWidth := by linarith
    simp only [compressorSlope, if_neg h1, if_neg h2]
    ring_nf
  have hshi : compressorSlope (threshold + kneeWidth / 2) threshold ratio kneeWidth
      = 1 / ratio := by
    have h1 : ¬ 2 * (threshold + kneeWidth / 2 - threshold) < -kneeWidth := by linarith
    have h2 : ¬ 2 * (threshold + kneeWidth / 2 - threshold) > kneeWidth := by linarith
    simp only [compressorSlope, if_neg h1, if_neg h2]
    field_simp
    ring
  refine ⟨?_, ?_, ?_, ?_, ?_, ?_⟩
  · have h := compressorOutput_hasDerivAt threshold ratio kneeWidth hk
      (threshold - kneeWidth / 2)
    rwa [hslo] at h
  · have h := compressorOutput_hasDerivAt threshold ratio kneeWidth hk
      (threshold + kneeWidth / 2)
    rwa [hshi] at h
  · refine (hasDerivAt_compressorKnee threshold ratio kneeWidth hk0
      (threshold - kneeWidth / 2)).congr_deriv ?_
    ring_nf
  · refine (hasDerivAt_compressorKnee threshold ratio kneeWidth hk0
      (threshold + kneeWidth / 2)).congr_deriv ?_
    field_simp
    ring
  · rw [hderiv]
    exact (compressorSlope_continuous threshold ratio kneeWidth hk).continuousAt
  · rw [hderiv]
    exact (compressorSlope_continuous threshold ratio kneeWidth hk).continuousAt

theorem compressorOutput_deriv_continuousAt_knee_boundaries_witness :
    HasDerivAt (fun x : ℝ => compressorOutput x 0 2 1) 1 (0 - 1 / 2)
      ∧ HasDerivAt (fun x : ℝ => compressorOutput x 0 2 1) (1 / 2) (0 + 1 / 2)
      ∧ HasDerivAt (fun x : ℝ => compressorKnee x 0 2 1) 1 (0 - 1 / 2)
      ∧ HasDerivAt (fun x : ℝ => compressorKnee x 0 2 1) (1 / 2) (0 + 1 / 2)
      ∧ ContinuousAt (deriv (fun x : ℝ => compressorOutput x 0 2 1)) (0 - 1 / 2)
      ∧ ContinuousAt (deriv (fun x : ℝ => compressorOutput x 0 2 1)) (0 + 1 / 2) :=
  compressorOutput_deriv_continuousAt_knee_boundaries 0 2 1 (by norm_num) (by norm_num)

end Curves

namespace MBComp

/-! ## The multiband splitter -/

theorem getSample_eq_some {α : Type} (b : AudioBuffer α) {channel sample : Nat}
    (hc : channel < b.numChannels) (hs : sample < b.numSamples) :
    b.getSample channel sample = some (b.data channel sample) := by
  simp only [AudioBuffer.getSample, hc, hs, and_self, if_true]

theorem setSample_eq_some {α : Type} (b : AudioBuffer α) {channel sample : Nat} (v : α)
    (hc : channel < b.numChannels) (hs : sample < b.numSamples) :
    b.setSample channel sample v
      = some { b with data := fun c i => if c = channel ∧ i = sample then v else b.data c i } := by
  simp only [AudioBuffer.setSample, hc, hs, and_self, if_true]

/-- Writing back the value a sample already has leaves the buffer as it is. -/
theorem setSample_self {α : Type} (b : AudioBuffer α) {channel sample : Nat}
    (hc : channel < b.numChannels) (hs : sample < b.numSamples) :
    b.setSample channel sample (b.data channel sample) = some b := by
  rw [setSample_eq_some b _ hc hs]
  congr 1
  cases b with
  | mk nc ns data =>
    simp only [AudioBuffer.mk.injEq, true_and]
    funext c i
    by_cases h : c = channel ∧ i = sample
    · rw [if_pos h, h.1, h.2]
    · rw [if_neg h]

/-- A loop whose every iteration leaves the state as it is returns that state. -/
theorem forLoop_fixed {S : Type} (body : Nat → S → Option S) (s : S) (n : Nat)
    (h : ∀ i, i < n → body i s = some s) : forLoop body n s = some s := by
  induction n with
  | zero => rfl
  | succ n ih =>
    simp only [forLoop]
    rw [ih (fun i hi => h i (Nat.lt_succ_of_lt hi))]
    exact h n (Nat.lt_succ_self n)

/-- One split iteration at an index that is in range for the block and the three band
buffers succeeds, keeps the buffer sizes, touches only that index, and stores there the
outputs of the two crossover filters as low and high and the rounded residual
`round (round (input − low) − high)` as mid. -/
theorem splitSample_spec {σ κ π α : Type} [Field α] (ops : Ops σ κ π α)
    (block : AudioBuffer α) (k : Nat) (st : State σ κ π α)
    (hbc : 2 ≤ block.numChannels) (hbs : k < block.numSamples)
    (hlc : 2 ≤ st.lowBuffer.numChannels) (hls : k < st.lowBuffer.numSamples)
    (hmc : 2 ≤ st.midBuffer.numChannels) (hms : k < st.midBuffer.numSamples)
    (hhc : 2 ≤ st.highBuffer.numChannels) (hhs : k < st.highBuffer.numSamples) :
    ∃ st', splitSample ops block k st = some st'
      ∧ st'.lowBuffer.numChannels = st.lowBuffer.numChannels
      ∧ st'.lowBuffer.numSamples = st.lowBuffer.numSamples
      ∧ st'.midBuffer.numChannels = st.midBuffer.numChannels
      ∧ st'.midBuffer.numSamples = st.midBuffer.numSamples
      ∧ st'.highBuffer.numChannels = st.highBuffer.numChannels
      ∧ st'.highBuffer.numSamples = st.highBuffer.numSamples
      ∧ (∀ c i, i ≠ k → st'.lowBuffer.data c i = st.lowBuffer.data c i
          ∧ st'.midBuffer.data c i = st.midBuffer.data c i
          ∧ st'.highBuffer.data c i = st.highBuffer.data c i)
      ∧ (∀ c, c < 2 → st'.midBuffer.data c k
          = ops.round (ops.round (block.data c k - st'.lowBuffer.data c k)
              - st'.highBuffer.data c k))
      ∧ st'.lowBuffer.data 0 k = (ops.filterProcessSample st.lowCrossOver 0 (block.data 0 k)).2
      ∧ st'.highBuffer.data 0 k
          = (ops.filterProcessSample st.highCrossOver 0 (block.data 0 k)).2
      ∧ st'.lowBuffer.data 1 k
          = (ops.filterProcessSample
              (ops.filterProcessSample st.lowCrossOver 0 (block.data 0 k)).1 1
              (block.data 1 k)).2
      ∧ st'.highBuffer.data 1 k
          = (ops.filterProcessSample
              (ops.filterProcessSample st.highCrossOver 0 (block.data 0 k)).1 1
              (block.data 1 k)).2 := by
  have hb0 : 0 < block.numChannels := by omega
  have hb1 : 1 < block.numChannels := by omega
  have hl0 : 0 < st.lowBuffer.numChannels := by omega
  have hl1 : 1 < st.lowBuffer.numChannels := by omega
  have hm0 : 0 < st.midBuffer.numChannels := by omega
  have hm1 : 1 < st.midBuffer.numChannels := by omega
  have hh0 : 0 < st.highBuffer.numChannels := by omega
  have hh1 : 1 < st.highBuffer.numChannels := by omega
  simp only [splitSample, getSample_eq_some block hb0 hbs, getSample_eq_some block hb1 hbs,
    setSample_eq_some _ _ hl0 hls, setSample_eq_some _ _ hm0 hms, setSample_eq_some _ _ hh0 hhs,
    Option.bind_eq_bind, Option.some_bind, Option.pure_def, bind_pure_comp]
  simp only [AudioBuffer.setSample, hl1, hls, hm1, hms, hh1, hhs, and_self, if_true,
    Option.some_bind, Option.some.injEq, exists_eq_left']
  refine ⟨trivial, trivial, trivial, trivial, trivial, trivial, ?_, ?_, ?_, ?_, trivial⟩
  · intro c i hi
    simp [hi]
  · intro c hc
    have hc01 : c = 0 ∨ c = 1 := by omega
    rcases hc01 with rfl | rfl <;> simp
  · simp
  · simp

/-- The first `n` iterations of the band-split loop succeed when the band buffers have
two channels and room for the block; afterwards the buffer sizes are as before and every
index `i` below `n` holds, on both channels, the outputs the two crossover filters gave for
sample `i` (in the state the first `i` iterations left them in) as low and high, and the
rounded residual `round (round (input − low) − high)` as mid. -/
theorem splitLoop_spec {σ κ π α : Type} [Field α] (ops : Ops σ κ π α)
    (block : AudioBuffer α) (st : State σ κ π α)
    (hbc : 2 ≤ block.numChannels)
    (hlc : 2 ≤ st.lowBuffer.numChannels) (hls : block.numSamples ≤ st.lowBuffer.numSamples)
    (hmc : 2 ≤ st.midBuffer.numChannels) (hms : block.numSamples ≤ st.midBuffer.numSamples)
    (hhc : 2 ≤ st.highBuffer.numChannels) (hhs : block.numSamples ≤ st.highBuffer.numSamples)
    (n : Nat) (hn : n ≤ block.numSamples) :
    ∃ st', forLoop (splitSample ops block) n st = some st'
      ∧ st'.lowBuffer.numChannels = st.lowBuffer.numChannels
      ∧ st'.lowBuffer.numSamples = st.lowBuffer.numSamples
      ∧ st'.midBuffer.numChannels = st.midBuffer.numChannels
      ∧ st'.midBuffer.numSamples = st.midBuffer.numSamples
      ∧ st'.highBuffer.numChannels = st.highBuffer.numChannels
      ∧ st'.highBuffer.numSamples = st.highBuffer.numSamples
      ∧ (∀ c i, c < 2 → i < n → st'.midBuffer.data c i
          = ops.round (ops.round (block.data c i - st'.lowBuffer.data c i)
              - st'.highBuffer.data c i))
      ∧ (∀ i, i < n → ∃ before, forLoop (splitSample ops block) i st = some before
          ∧ st'.lowBuffer.data 0 i
              = (ops.filterProcessSample before.lowCrossOver 0 (block.data 0 i)).2
          ∧ st'.highBuffer.data 0 i
              = (ops.filterProcessSample before.highCrossOver 0 (block.data 0 i)).2
          ∧ st'.lowBuffer.data 1 i
              = (ops.filterProcessSample
                  (ops.filterProcessSample before.lowCrossOver 0 (block.data 0 i)).1 1
                  (block.data 1 i)).2
          ∧ st'.highBuffer.data 1 i
              = (ops.filterProcessSample
                  (ops.filterProcessSample before.highCrossOver 0 (block.data 0 i)).1 1
                  (block.data 1 i)).2) := by
  induction n with
  | zero =>
    exact ⟨st, rfl, rfl, rfl, rfl, rfl, rfl, rfl,
      fun c i _ hi => absurd hi (Nat.not_lt_zero i), fun i hi => absurd hi (Nat.not_lt_zero i)⟩
  | succ n ih =>
    obtain ⟨st1, hrun, h1, h2, h3, h4, h5, h6, hsum, htie⟩ := ih (Nat.le_of_succ_le hn)
    have hk : n < block.numSamples := hn
    obtain ⟨st2, hstep, g1, g2, g3, g4, g5, g6, hkeep, hnew, t1, t2, t3, t4⟩ :=
      splitSample_spec ops block n st1 hbc hk (by omega) (by omega) (by omega) (by omega)
        (by omega) (by omega)
    refine ⟨st2, ?_, by omega, by omega, by omega, by omega, by omega, by omega, ?_, ?_⟩
    · simp only [forLoop, hrun, Option.some_bind, hstep]
    · intro c i hc hi
      by_cases hin : i = n
      · subst hin
        exact hnew c hc
      · have hlt : i < n := by omega
        obtain ⟨k1, k2, k3⟩ := hkeep c i hin
        rw [k1, k2, k3]
        exact hsum c i hc hlt
    · intro i hi
      by_cases hin : i = n
      · subst hin
        exact ⟨st1, hrun, t1, t2, t3, t4⟩
      · have hlt : i < n := by omega
        obtain ⟨before, hb, b1, b2, b3, b4⟩ := htie i hlt
        refine ⟨before, hb, ?_, ?_, ?_, ?_⟩
        · rw [(hkeep 0 i hin).1]
          exact b1
        · rw [(hkeep 0 i hin).2.2]
          exact b2
        · rw [(hkeep 1 i hin).1]
          exact b3
        · rw [(hkeep 1 i hin).2.2]
          exact b4

/-- One band-sum iteration at an index inside the block and the band buffers succeeds,
keeps the size of the block, writes `round (round (low + mid) + high)` to that index of
channels 0 and 1, and leaves every other sample of the block as it is. -/
theorem sumSample_spec {σ κ π α : Type} [Field α] (ops : Ops σ κ π α) (st : State σ κ π α)
    (k : Nat) (block : AudioBuffer α) (hbc : 2 ≤ block.numChannels)
    (hbs : k < block.numSamples)
    (hlc : 2 ≤ st.lowBuffer.numChannels) (hls : k < st.lowBuffer.numSamples)
    (hmc : 2 ≤ st.midBuffer.numChannels) (hms : k < st.midBuffer.numSamples)
    (hhc : 2 ≤ st.highBuffer.numChannels) (hhs : k < st.highBuffer.numSamples) :
    ∃ out, sumSample ops st k block = some out
      ∧ out.numChannels = block.numChannels ∧ out.numSamples = block.numSamples
      ∧ (∀ c, c < 2 → out.data c k
          = ops.round (ops.round (st.lowBuffer.data c k + st.midBuffer.data c k)
              + st.highBuffer.data c k))
      ∧ (∀ c i, ¬ (c < 2 ∧ i = k) → out.data c i = block.data c i) := by
  have hb0 : 0 < block.numChannels := by omega
  have hb1 : 1 < block.numChannels := by omega
  simp only [sumSample,
    getSample_eq_some st.lowBuffer (show 0 < st.lowBuffer.numChannels by omega) hls,
    getSample_eq_some st.midBuffer (show 0 < st.midBuffer.numChannels by omega) hms,
    getSample_eq_some st.highBuffer (show 0 < st.highBuffer.numChannels by omega) hhs,
    getSample_eq_some st.lowBuffer (show 1 < st.lowBuffer.numChannels by omega) hls,
    getSample_eq_some st.midBuffer (show 1 < st.midBuffer.numChannels by omega) hms,
    getSample_eq_some st.highBuffer (show 1 < st.highBuffer.numChannels by omega) hhs,
    Option.bind_eq_bind, Option.some_bind, setSample_eq_some block _ hb0 hbs]
  simp only [AudioBuffer.setSample, hb1, hbs, and_self, if_true, Option.some.injEq,
    exists_eq_left']
  refine ⟨trivial, trivial, ?_, ?_⟩
  · intro c hc
    have hc01 : c = 0 ∨ c = 1 := by omega
    rcases hc01 with rfl | rfl <;> simp
  · intro c i hci
    have h1 : ¬ (c = 1 ∧ i = k) := fun h => hci ⟨by omega, h.2⟩
    have h0 : ¬ (c = 0 ∧ i = k) := fun h => hci ⟨by omega, h.2⟩
    simp [h0, h1]

/-- The first `n` iterations of the band-sum loop succeed when the band buffers have two
channels and room for `n` samples; the block keeps its size, holds
`round (round (low + mid) + high)` at every index below `n` of channels 0 and 1, and is as
it was everywhere else. -/
theorem sumLoop_spec {σ κ π α : Type} [Field α] (ops : Ops σ κ π α) (st : State σ κ π α)
    (block : AudioBuffer α)
    (hbc : 2 ≤ block.numChannels)
    (hlc : 2 ≤ st.lowBuffer.numChannels) (hls : block.numSamples ≤ st.lowBuffer.numSamples)
    (hmc : 2 ≤ st.midBuffer.numChannels) (hms : block.numSamples ≤ st.midBuffer.numSamples)
    (hhc : 2 ≤ st.highBuffer.numChannels) (hhs : block.numSamples ≤ st.highBuffer.numSamples)
    (n : Nat) (hn : n ≤ block.numSamples) :
    ∃ out, forLoop (sumSample ops st) n block = some out
      ∧ out.numChannels = block.numChannels ∧ out.numSamples = block.numSamples
      ∧ (∀ c i, c < 2 → i < n → out.data c i
          = ops.round (ops.round (st.lowBuffer.data c i + st.midBuffer.data c i)
              + st.highBuffer.data c i))
      ∧ (∀ c i, ¬ (c < 2 ∧ i < n) → out.data c i = block.data c i) := by
  induction n with
  | zero =>
    exact ⟨block, rfl, rfl, rfl, fun c i _ hi => absurd hi (Nat.not_lt_zero i),
      fun c i _ => rfl⟩
  | succ n ih =>
    obtain ⟨b1, hrun, h1, h2, hval, hrest⟩ := ih (Nat.le_of_succ_le hn)
    obtain ⟨b2, hstep, g1, g2, gval, grest⟩ := sumSample_spec ops st n b1 (by omega)
      (by omega) hlc (by omega) hmc (by omega) hhc (by omega)
    refine ⟨b2, ?_, by omega, by omega, ?_, ?_⟩
    · simp only [forLoop, hrun, Option.some_bind, hstep]
    · intro c i hc hi
      by_cases hin : i = n
      · subst hin
        exact gval c hc
      · rw [grest c i (fun h => hin h.2)]
        exact hval c i hc (by omega)
    · intro c i hci
      rw [grest c i (fun h => hci ⟨h.1, by omega⟩)]
      exact hrest c i (fun h => hci ⟨h.1, by omega⟩)

end MBComp

namespace Curves

/-! ## The upward/downward curve -/

/-- When the lower threshold is more than two knee widths below the upper one, the
reassignment at Curves.h:67-69 does not fire. -/
theorem clampLowerThres_of_lt {α : Type} [LinearOrderedField α] (upperThres lowerThres knee : α)
    (h : lowerThres < upperThres - 2 * knee) :
    clampLowerThres upperThres lowerThres knee = lowerThres := by
  simp only [clampLowerThres, ge_iff_le, if_neg (not_le.mpr h)]

/-- What the branch chain of `computeUpwardsDownwardsGain` does for an input above the lower
knee window and not above the upper one: the second test `2·|x − lowerThres| > knee`
succeeds and the output is the upper-knee polynomial. -/
theorem upwardsDownwardsOutput_above_lower_knee {α : Type} [LinearOrderedField α]
    (x upperThres lowerThres upperR lowerR knee : α)
    (hL : lowerThres < upperThres - 2 * knee)
    (hlo : lowerThres + knee / 2 < x) (hhi : 2 * (x - upperThres) ≤ knee) :
    upwardsDownwardsOutput x upperThres lowerThres upperR lowerR knee
      = upperKnee x upperThres upperR knee := by
  have h1 : ¬ 2 * (x - upperThres) > knee := not_lt.mpr hhi
  have habs : x - lowerThres ≤ |x - lowerThres| := le_abs_self _
  have h2 : 2 * |x - lowerThres| > knee := by linarith
  simp only [upwardsDownwardsOutput, clampLowerThres_of_lt _ _ _ hL, if_neg h1, if_pos h2]

/-- C5 (the code at a failing input): with `upperThres = 10`, `lowerThres = −10`,
`upperR = lowerR = 2`, `knee = 1`, the input `x = 0` lies strictly between the two knee
regions, yet `computeUpwardsDownwardsGain` takes the "top knee" branch and its dB-domain
output is `−361/16`, not `x`: a gain change of `−361/16` dB is passed to `decibelsToGain`. -/
theorem upwardsDownwards_between_knees_changes_gain :
    (0 : ℚ) < 1 ∧ (-10 : ℚ) < 10 - 2 * 1 ∧ (-10 : ℚ) + 1 / 2 < 0 ∧ (0 : ℚ) < 10 - 1 / 2
      ∧ upwardsDownwardsOutput (0 : ℚ) 10 (-10) 2 2 1 = -361 / 16
      ∧ upwardsDownwardsOutput (0 : ℚ) 10 (-10) 2 2 1 ≠ 0
      ∧ ∀ decibelsToGain : ℚ → ℚ,
          computeUpwardsDownwardsGain decibelsToGain 0 10 (-10) 2 2 1
            = decibelsToGain (-361 / 16) := by
  have hout : upwardsDownwardsOutput (0 : ℚ) 10 (-10) 2 2 1 = -361 / 16 := by
    rw [upwardsDownwardsOutput_above_lower_knee (0 : ℚ) 10 (-10) 2 2 1 (by norm_num)
      (by norm_num) (by norm_num)]
    norm_num [upperKnee]
  refine ⟨by norm_num, by norm_num, by norm_num, by norm_num, hout, ?_, ?_⟩
  · rw [hout]
    norm_num
  · intro decibelsToGain
    simp only [computeUpwardsDownwardsGain, hout, sub_zero]

/-- What the branch chain does inside the lower knee window (`2·|x − lowerThres| ≤ knee`)
when `knee ≠ 2`: the third test is a non-zero number, so the output is the straight line
`lowerThres + (x − lowerThres)/lowerR`. -/
theorem upwardsDownwardsOutput_in_lower_window {α : Type} [LinearOrderedField α]
    (x upperThres lowerThres upperR lowerR knee : α)
    (hL : lowerThres < upperThres - 2 * knee) (hk : 0 < knee) (hk2 : knee ≠ 2)
    (hwin : 2 * |x - lowerThres| ≤ knee) :
    upwardsDownwardsOutput x upperThres lowerThres upperR lowerR knee
      = lowerThres + (x - lowerThres) / lowerR := by
  have habs : x - lowerThres ≤ |x - lowerThres| := le_abs_self _
  have h1 : ¬ 2 * (x - upperThres) > knee := by
    apply not_lt.mpr
    linarith
  have h2 : ¬ 2 * |x - lowerThres| > knee := not_lt.mpr hwin
  have h3 : 2 * boolToNum (x < lowerThres) - knee ≠ (0 : α) := by
    unfold boolToNum
    by_cases hx : x < lowerThres
    · rw [if_pos hx]
      intro h
      apply hk2
      linarith
    · rw [if_neg hx]
      intro h
      linarith
  simp only [upwardsDownwardsOutput, clampLowerThres_of_lt _ _ _ hL, if_neg h1, if_neg h2,
    if_pos h3]

/-- C6 (the code at a failing input): with `upperThres = 10`, `lowerThres = −10`,
`upperR = lowerR = 2`, `knee = 1` the dB-domain output of `computeUpwardsDownwardsGain` is
not continuous at the knee boundary `x = lowerThres + knee/2 = −19/2`: the value there is
`−39/4`, while every input just above it gets the upper-knee polynomial, which is below
`−90`. -/
theorem upwardsDownwards_discontinuous_at_lower_knee_boundary :
    upwardsDownwardsOutput (-10 + 1 / 2 : ℚ) 10 (-10) 2 2 1 = -39 / 4
      ∧ upwardsDownwardsOutput (-10 + 1 / 2 + 1 / 1000 : ℚ) 10 (-10) 2 2 1
          = -398958001 / 4000000
      ∧ ¬ ContinuousAt (fun x : ℝ => upwardsDownwardsOutput x 10 (-10) 2 2 1)
          (-10 + 1 / 2) := by
  refine ⟨?_, ?_, ?_⟩
  · rw [upwardsDownwardsOutput_in_lower_window (-10 + 1 / 2 : ℚ) 10 (-10) 2 2 1 (by norm_num)
      (by norm_num) (by norm_num) (by norm_num [abs_of_pos])]
    norm_num
  · rw [upwardsDownwardsOutput_above_lower_knee (-10 + 1 / 2 + 1 / 1000 : ℚ) 10 (-10) 2 2 1
      (by norm_num) (by norm_num) (by norm_num)]
    norm_num [upperKnee]
  · intro hc
    rw [Metric.continuousAt_iff] at hc
    obtain ⟨δ, hδ, h⟩ := hc 1 one_pos
    have ht0 : 0 < min (δ / 2) (1 / 4) := lt_min (by linarith) (by norm_num)
    have ht1 : min (δ / 2) (1 / 4) ≤ 1 / 4 := min_le_right _ _
    have ht2 : min (δ / 2) (1 / 4) ≤ δ / 2 := min_le_left _ _
    generalize min (δ / 2) (1 / 4) = t at ht0 ht1 ht2
    have hd : dist (-10 + 1 / 2 + t) (-10 + 1 / 2 : ℝ) < δ := by
      rw [Real.dist_eq]
      have : (-10 + 1 / 2 + t) - (-10 + 1 / 2 : ℝ) = t := by ring
      rw [this, abs_of_pos ht0]
      linarith
    have hx := h hd
    rw [Real.dist_eq] at hx
    have e1 : upwardsDownwardsOutput (-10 + 1 / 2 + t : ℝ) 10 (-10) 2 2 1
        = upperKnee (-10 + 1 / 2 + t) 10 2 1 :=
      upwardsDownwardsOutput_above_lower_knee _ 10 (-10) 2 2 1 (by norm_num) (by linarith)
        (by linarith)
    have e2 : upwardsDownwardsOutput (-10 + 1 / 2 : ℝ) 10 (-10) 2 2 1
        = -10 + (-10 + 1 / 2 - (-10)) / 2 :=
      upwardsDownwardsOutput_in_lower_window _ 10 (-10) 2 2 1 (by norm_num) (by norm_num)
        (by norm_num) (by norm_num [abs_of_pos])
    rw [e1, e2] at hx
    have hlt := (abs_lt.mp hx).1
    simp only [upperKnee] at hlt
    nlinarith [sq_nonneg t]

/-- The reassignment at Curves.h:66-69 computes `min (lowerThres, upperThres − 2·knee)`. -/
theorem clampLowerThres_eq_min {α : Type} [LinearOrderedField α] (upperThres lowerThres knee : α) :
    clampLowerThres upperThres lowerThres knee = min lowerThres (upperThres - 2 * knee) := by
  unfold clampLowerThres
  by_cases h : lowerThres ≥ upperThres - 2 * knee
  · simp only [if_pos h]
    exact (min_eq_right h).symm
  · simp only [if_neg h]
    exact (min_eq_left (le_of_lt (not_le.mp h))).symm

/-- The dB-domain output depends on `lowerThres` only through the clamped value. -/
theorem upwardsDownwardsOutput_congr_clamp {α : Type} [LinearOrderedField α]
    (x upperThres lowerThres lowerThres' upperR lowerR knee : α)
    (h : clampLowerThres upperThres lowerThres knee
      = clampLowerThres upperThres lowerThres' knee) :
    upwardsDownwardsOutput x upperThres lowerThres upperR lowerR knee
      = upwardsDownwardsOutput x upperThres lowerThres' upperR lowerR knee := by
  simp only [upwardsDownwardsOutput, h]

/-- C7: `computeUpwardsDownwardsGain` uses `min (lowerThres, upperThres − 2·knee)` as its
effective lower threshold.  For `lowerThres ≥ upperThres − 2·knee` the result equals the
result with `lowerThres = upperThres − 2·knee`; for every lower threshold the result is the
one obtained with the minimum; and for `knee > 0` the upper end of the effective lower knee
window is strictly below the lower end of the upper knee window. -/
theorem computeUpwardsDownwardsGain_clamps_lowerThres {α : Type} [LinearOrderedField α]
    (decibelsToGain : α → α) (x upperThres lowerThres upperR lowerR knee : α)
    (hL : lowerThres ≥ upperThres - 2 * knee) (hk : 0 < knee) :
    computeUpwardsDownwardsGain decibelsToGain x upperThres lowerThres upperR lowerR knee
        = computeUpwardsDownwardsGain decibelsToGain x upperThres (upperThres - 2 * knee)
            upperR lowerR knee
      ∧ (∀ l : α, clampLowerThres upperThres l knee = min l (upperThres - 2 * knee)
          ∧ computeUpwardsDownwardsGain decibelsToGain x upperThres l upperR lowerR knee
            = computeUpwardsDownwardsGain decibelsToGain x upperThres
                (min l (upperThres - 2 * knee)) upperR lowerR knee
          ∧ min l (upperThres - 2 * knee) + knee / 2 < upperThres - knee / 2) := by
  have hidem : ∀ l : α, clampLowerThres upperThres l knee
      = clampLowerThres upperThres (min l (upperThres - 2 * knee)) knee := by
    intro l
    rw [clampLowerThres_eq_min, clampLowerThres_eq_min, min_assoc, min_self]
  constructor
  · have h1 : clampLowerThres upperThres lowerThres knee
        = clampLowerThres upperThres (upperThres - 2 * knee) knee := by
      rw [clampLowerThres_eq_min, clampLowerThres_eq_min, min_self, min_eq_right hL]
    simp only [computeUpwardsDownwardsGain,
      upwardsDownwardsOutput_congr_clamp x upperThres lowerThres (upperThres - 2 * knee)
        upperR lowerR knee h1]
  · intro l
    refine ⟨clampLowerThres_eq_min upperThres l knee, ?_, ?_⟩
    · simp only [computeUpwardsDownwardsGain,
        upwardsDownwardsOutput_congr_clamp x upperThres l (min l (upperThres - 2 * knee))
          upperR lowerR knee (hidem l)]
    · have hmin : min l (upperThres - 2 * knee) ≤ upperThres - 2 * knee := min_le_right _ _
      linarith

theorem computeUpwardsDownwardsGain_clamps_lowerThres_witness :
    computeUpwardsDownwardsGain (fun g : ℚ => g) (-3) 0 5 2 3 1
        = computeUpwardsDownwardsGain (fun g : ℚ => g) (-3) 0 (0 - 2 * 1) 2 3 1
      ∧ (∀ l : ℚ, clampLowerThres 0 l 1 = min l (0 - 2 * 1)
          ∧ computeUpwardsDownwardsGain (fun g : ℚ => g) (-3) 0 l 2 3 1
            = computeUpwardsDownwardsGain (fun g : ℚ => g) (-3) 0 (min l (0 - 2 * 1)) 2 3 1
          ∧ min l (0 - 2 * 1) + 1 / 2 < 0 - 1 / 2) :=
  computeUpwardsDownwardsGain_clamps_lowerThres (fun g : ℚ => g) (-3) 0 5 2 3 1
    (by norm_num) (by norm_num)

/-! ## The expander curve -/

/-- For every `ratio > 1` and `kneeWidth > 0` the knee expression of `computeExpanderGain`
meets neither neighbouring line at the knee boundaries: at `−kneeWidth/2` it is
`−kneeWidth/2`, not `ratio·input_db`, and at `+kneeWidth/2` it is
`kneeWidth/2 + kneeWidth/(2·ratio)`, not `input_db`. -/
theorem expanderKnee_misses_both_lines {α : Type} [LinearOrderedField α] (ratio kneeWidth : α)
    (hr : 1 < ratio) (hk : 0 < kneeWidth) :
    expanderKnee (-kneeWidth / 2) ratio kneeWidth = -kneeWidth / 2
      ∧ expanderKnee (-kneeWidth / 2) ratio kneeWidth ≠ ratio * (-kneeWidth / 2)
      ∧ expanderKnee (kneeWidth / 2) ratio kneeWidth = kneeWidth / 2 + kneeWidth / (2 * ratio)
      ∧ expanderKnee (kneeWidth / 2) ratio kneeWidth ≠ kneeWidth / 2 := by
  have hr0 : ratio ≠ 0 := by
    intro h
    rw [h] at hr
    exact absurd hr (by norm_num)
  have hrpos : 0 < ratio := lt_trans zero_lt_one hr
  have hk0 : kneeWidth ≠ 0 := ne_of_gt hk
  have e1 : expanderKnee (-kneeWidth / 2) ratio kneeWidth = -kneeWidth / 2 := by
    simp only [expanderKnee]
    have : -kneeWidth / 2 - 0 + kneeWidth / 2 = 0 := by ring
    rw [this]
    simp
  have e2 : expanderKnee (kneeWidth / 2) ratio kneeWidth
      = kneeWidth / 2 + kneeWidth / (2 * ratio) := by
    simp only [expanderKnee]
    field_simp
    ring
  refine ⟨e1, ?_, e2, ?_⟩
  · rw [e1]
    intro h
    have h' : kneeWidth * (ratio - 1) = 0 := by linarith
    rcases mul_eq_zero.mp h' with h0 | h0
    · exact hk0 h0
    · linarith
  · rw [e2]
    intro h
    have hpos : 0 < kneeWidth / (2 * ratio) := div_pos hk (by linarith)
    linarith

/-- C8 (the code at a failing input): with `ratio = 2` and `kneeWidth = 2` the dB-domain
output of `computeExpanderGain` jumps at both knee boundaries.  At `input_db = 1` the knee
expression gives `3/2` where the pass-through line gives `1`; at `input_db = −1` the line
`ratio·input_db` gives `−2` where the knee expression gives `−1`; and over the reals the
output is continuous at neither point. -/
theorem expanderOutput_discontinuous_at_knee_boundaries :
    expanderOutput (1 : ℚ) 2 2 = 3 / 2
      ∧ expanderOutput (1 + 1 / 1000 : ℚ) 2 2 = 1 + 1 / 1000
      ∧ expanderOutput (-1 : ℚ) 2 2 = -2
      ∧ expanderOutput (-1 + 1 / 1000 : ℚ) 2 2 = -7991999 / 8000000
      ∧ expanderKnee (1 : ℚ) 2 2 ≠ 1
      ∧ expanderKnee (-1 : ℚ) 2 2 ≠ 2 * (-1)
      ∧ ¬ ContinuousAt (fun x : ℝ => expanderOutput x 2 2) 1
      ∧ ¬ ContinuousAt (fun x : ℝ => expanderOutput x 2 2) (-1) := by
  refine ⟨?_, ?_, ?_, ?_, ?_, ?_, ?_, ?_⟩
  · norm_num [expanderOutput, expanderKnee]
  · norm_num [expanderOutput, expanderKnee]
  · norm_num [expanderOutput, expanderKnee]
  · norm_num [expanderOutput, expanderKnee]
  · norm_num [expanderKnee]
  · norm_num [expanderKnee]
  · intro hc
    rw [Metric.continuousAt_iff] at hc
    obtain ⟨δ, hδ, h⟩ := hc (1 / 4) (by norm_num)
    have ht0 : 0 < min (δ / 2) (1 / 4) := lt_min (by linarith) (by norm_num)
    have ht1 : min (δ / 2) (1 / 4) ≤ 1 / 4 := min_le_right _ _
    have ht2 : min (δ / 2) (1 / 4) ≤ δ / 2 := min_le_left _ _
    generalize min (δ / 2) (1 / 4) = t at ht0 ht1 ht2
    have hd : dist (1 + t) (1 : ℝ) < δ := by
      rw [Real.dist_eq]
      have : (1 + t) - (1 : ℝ) = t := by ring
      rw [this, abs_of_pos ht0]
      linarith
    have hx := h hd
    rw [Real.dist_eq] at hx
    have e1 : expanderOutput (1 + t : ℝ) 2 2 = 1 + t := by
      have hgt : 2 * ((1 + t : ℝ) - 0) > 2 := by linarith
      simp only [expanderOutput, if_pos hgt]
    have e2 : expanderOutput (1 : ℝ) 2 2 = 3 / 2 := by
      norm_num [expanderOutput, expanderKnee]
    rw [e1, e2] at hx
    have hlt := (abs_lt.mp hx).1
    linarith
  · intro hc
    rw [Metric.continuousAt_iff] at hc
    obtain ⟨δ, hδ, h⟩ := hc 1 one_pos
    have ht0 : 0 < min (δ / 2) (1 / 4) := lt_min (by linarith) (by norm_num)
    have ht1 : min (δ / 2) (1 / 4) ≤ 1 / 4 := min_le_right _ _
    have ht2 : min (δ / 2) (1 / 4) ≤ δ / 2 := min_le_left _ _
    generalize min (δ / 2) (1 / 4) = t at ht0 ht1 ht2
    have hd : dist (-1 + t) (-1 : ℝ) < δ := by
      rw [Real.dist_eq]
      have : (-1 + t) - (-1 : ℝ) = t := by ring
      rw [this, abs_of_pos ht0]
      linarith
    have hx := h hd
    rw [Real.dist_eq] at hx
    have e1 : expanderOutput (-1 + t : ℝ) 2 2 = expanderKnee (-1 + t) 2 2 := by
      have h1 : ¬ 2 * ((-1 + t : ℝ) - 0) > 2 := by
        apply not_lt.mpr
        linarith
      have h2 : ¬ 2 * ((-1 + t : ℝ) - 0) ≤ -2 := by
        apply not_le.mpr
        linarith
      simp only [expanderOutput, if_neg h1, if_neg h2]
    have e2 : expanderOutput (-1 : ℝ) 2 2 = -2 := by
      norm_num [expanderOutput, expanderKnee]
    rw [e1, e2] at hx
    have hgt := (abs_lt.mp hx).2
    simp only [expanderKnee] at hgt
    nlinarith [sq_nonneg t]

/-! ## Gain direction and divisions of the compressor curve -/

/-- With exact arithmetic, for `kneeWidth > 0` and `ratio ≥ 1`, the compressor curve never
increases level: `output − input_db ≤ 0`, so the gain is at most 1 for a monotone
`decibelsToGain` that maps 0 dB to 1.  For `0 < ratio < 1` every input above the knee, and
so at least one, has a strictly positive gain change. -/
theorem computeCompressorGain_never_boosts_exact {α : Type} [LinearOrderedField α]
    (threshold kneeWidth : α) (hk : 0 < kneeWidth) :
    (∀ input_db ratio : α, 1 ≤ ratio →
        compressorOutput input_db threshold ratio kneeWidth - input_db ≤ 0
          ∧ ∀ decibelsToGain : α → α, Monotone decibelsToGain → decibelsToGain 0 = 1 →
              computeCompressorGain decibelsToGain input_db threshold ratio kneeWidth ≤ 1)
      ∧ (∀ ratio : α, 0 < ratio → ratio < 1 →
          (∃ input_db : α, 2 * (input_db - threshold) > kneeWidth
              ∧ 0 < compressorOutput input_db threshold ratio kneeWidth - input_db)
            ∧ ∀ input_db : α, 2 * (input_db - threshold) > kneeWidth →
                0 < compressorOutput input_db threshold ratio kneeWidth - input_db) := by
  constructor
  · intro input_db ratio hr
    have hrpos : 0 < ratio := lt_of_lt_of_le zero_lt_one hr
    have hle : compressorOutput input_db threshold ratio kneeWidth - input_db ≤ 0 := by
      unfold compressorOutput
      split_ifs with h1 h2
      · simp
      · have hpos : 0 ≤ input_db - threshold := by linarith
        have hdiv : (input_db - threshold) / ratio ≤ input_db - threshold :=
          div_le_self hpos hr
        simp only [compressorAbove]
        linarith
      · have hinv : 1 / ratio - 1 ≤ 0 := by
          have : 1 / ratio ≤ 1 := by
            rw [div_le_one hrpos]
            exact hr
          linarith
        have hsq : 0 ≤ (input_db - threshold + kneeWidth / 2) ^ 2 := sq_nonneg _
        have hnum : (1 / ratio - 1) * (input_db - threshold + kneeWidth / 2) ^ 2 ≤ 0 :=
          mul_nonpos_iff.mpr (Or.inr ⟨hinv, hsq⟩)
        have hden : 0 ≤ 2 * kneeWidth := by linarith
        have hq : (1 / ratio - 1) * (input_db - threshold + kneeWidth / 2) ^ 2
            / (2 * kneeWidth) ≤ 0 := div_nonpos_of_nonpos_of_nonneg hnum hden
        simp only [compressorKnee]
        linarith
    refine ⟨hle, ?_⟩
    intro decibelsToGain hmono h0
    have := hmono hle
    simp only [computeCompressorGain]
    rw [← h0]
    exact this
  · intro ratio hr0 hr1
    have habove : ∀ input_db : α, 2 * (input_db - threshold) > kneeWidth →
        0 < compressorOutput input_db threshold ratio kneeWidth - input_db := by
      intro input_db hx
      have h1 : ¬ 2 * (input_db - threshold) < -kneeWidth := by
        apply not_lt.mpr
        linarith
      have hpos : 0 < input_db - threshold := by linarith
      have hdiv : input_db - threshold < (input_db - threshold) / ratio := by
        rw [lt_div_iff₀ hr0]
        have := mul_lt_mul_of_pos_left hr1 hpos
        linarith
      simp only [compressorOutput, if_neg h1, if_pos hx, compressorAbove]
      linarith
    refine ⟨⟨threshold + kneeWidth, ?_, ?_⟩, habove⟩
    · have : threshold + kneeWidth - threshold = kneeWidth := by ring
      rw [this]
      linarith
    · apply habove
      have : threshold + kneeWidth - threshold = kneeWidth := by ring
      rw [this]
      linarith

/-- With a non-zero ratio and a positive knee width no executed division has a zero divisor,
and the checked output is the plain one. -/
theorem compressorOutputChecked_eq_some {α : Type} [LinearOrderedField α]
    (input_db threshold ratio kneeWidth : α) (hr : ratio ≠ 0) (hk : 0 < kneeWidth) :
    compressorOutputChecked input_db threshold ratio kneeWidth
      = some (compressorOutput input_db threshold ratio kneeWidth) := by
  have h2 : (2 : α) ≠ 0 := two_ne_zero
  have hk2 : 2 * kneeWidth ≠ 0 := mul_ne_zero h2 (ne_of_gt hk)
  unfold compressorOutputChecked compressorOutput
  split_ifs with h1 h3
  · rfl
  · simp [checkedDiv, hr, compressorAbove]
  · simp [checkedDiv, hr, h2, hk2, compressorKnee]

/-- C10 (the code at a failing input): with `kneeWidth = 0` and `input_db = threshold`
neither `2·(input_db − threshold) < −kneeWidth` nor `2·(input_db − threshold) > kneeWidth`
holds, so `computeCompressorGain` takes the knee branch and divides by `2·kneeWidth = 0`;
this is so for every threshold and every ratio, in particular for `ratio = 2`. -/
theorem compressorOutputChecked_zero_knee :
    ¬ (2 * ((0 : ℚ) - 0) < -0) ∧ ¬ (2 * ((0 : ℚ) - 0) > 0) ∧ 2 * (0 : ℚ) = 0
      ∧ compressorOutputChecked (0 : ℚ) 0 2 0 = none
      ∧ ∀ threshold ratio : ℚ, compressorOutputChecked threshold threshold ratio 0 = none := by
  have hall : ∀ threshold ratio : ℚ,
      compressorOutputChecked threshold threshold ratio 0 = none := by
    intro threshold ratio
    by_cases hr : ratio = 0
    · simp [compressorOutputChecked, checkedDiv, hr]
    · simp [compressorOutputChecked, checkedDiv, hr]
  exact ⟨by norm_num, by norm_num, by norm_num, hall 0 2, hall⟩

end Curves

namespace Processor

open MBComp (AudioBuffer ProcessSpec)

/-! ## The block-processing pipeline -/

/-- The calls made by `prepareToPlay`, in order: the `prepare` calls with their specs, then
the latency report, the mixer reset, the mixer `prepare` and the wet latency; `L` is the
latency read from the stack after the `prepare` calls. -/
theorem prepareToPlay_log {κ α : Type} (ops : Ops κ α) (env : Env) (st : State κ α)
    (sampleRate : ℚ) (samplesPerBlock : Nat) :
    (prepareToPlay ops env st sampleRate samplesPerBlock).log
      = st.log ++
        [Event.prepareToPlay sampleRate samplesPerBlock,
         Event.prepare Component.inputGain (baseSpec env sampleRate samplesPerBlock),
         Event.prepare Component.outputGain (baseSpec env sampleRate samplesPerBlock),
         Event.setOversamplingFactor env.hq,
         Event.prepare Component.oversamplingStack (baseSpec env sampleRate samplesPerBlock),
         Event.prepare Component.emphasisFilter
           (oversampledSpec env env.hq sampleRate samplesPerBlock),
         Event.prepare Component.distortionTypeSelection
           (oversampledSpec env env.hq sampleRate samplesPerBlock),
         Event.prepare Component.postClip
           (oversampledSpec env env.hq sampleRate samplesPerBlock),
         Event.prepare Component.preDistortionSelection
           (oversampledSpec env env.hq sampleRate samplesPerBlock),
         Event.prepare Component.noiseDistortionSelection
           (oversampledSpec env env.hq sampleRate samplesPerBlock),
         Event.prepare Component.dynamics
           (oversampledSpec env env.hq sampleRate samplesPerBlock),
         Event.setLatencySamples
           ⌈ops.getLatencySamples
             (prepareComponents ops env st sampleRate samplesPerBlock).components⌉,
         Event.mixerReset,
         Event.prepare Component.dryWetMixer (baseSpec env sampleRate samplesPerBlock),
         Event.setWetLatency
           (ops.getLatencySamples
             (prepareComponents ops env st sampleRate samplesPerBlock).components)] := by
  simp only [prepareToPlay, prepareComponents, State.call,
    OversamplingStack.setOversamplingFactor, OversamplingStack.getOversamplingFactor,
    List.append_assoc, List.singleton_append, List.cons_append, List.nil_append]

theorem prepareToPlay_old {κ α : Type} (ops : Ops κ α) (env : Env) (st : State κ α)
    (sampleRate : ℚ) (samplesPerBlock : Nat) :
    (prepareToPlay ops env st sampleRate samplesPerBlock).oldOversamplingFactor
      = st.oldOversamplingFactor := by
  simp only [prepareToPlay, prepareComponents, State.call]

/-- C11: when `hamburgerEnabled` is false, `processBlock` returns the buffer as it was and
the processor as it was: no call is recorded, so no stage has run and no member object,
latency, gain or mix value has changed. -/
theorem processBlock_disabled {κ α : Type} [Zero α] (ops : Ops κ α) (env : Env)
    (st : State κ α) (buffer : AudioBuffer α) (h : env.hamburgerEnabled = false) :
    processBlock ops env st buffer = (st, buffer)
      ∧ (processBlock ops env st buffer).1.log = st.log
      ∧ ∀ c i, (processBlock ops env st buffer).2.data c i = buffer.data c i := by
  have hrun : processBlock ops env st buffer = (st, buffer) := by
    simp only [processBlock, h, if_true]
  refine ⟨hrun, ?_, ?_⟩
  · rw [hrun]
  · intro c i
    rw [hrun]

theorem processBlock_disabled_witness :
    processBlock halfSampleOps bypassedEnv idleState MBComp.rampBlock
        = (idleState, MBComp.rampBlock)
      ∧ (processBlock halfSampleOps bypassedEnv idleState MBComp.rampBlock).1.log
        = idleState.log
      ∧ ∀ c i, (processBlock halfSampleOps bypassedEnv idleState MBComp.rampBlock).2.data c i
        = MBComp.rampBlock.data c i :=
  processBlock_disabled halfSampleOps bypassedEnv idleState MBComp.rampBlock rfl

/-- For a factor `k ≥ 0` the oversampled spec has the rate multiplied by `2 ^ k` and the
block size multiplied by `2 ^ k` and reduced modulo `2 ^ 32`. -/
theorem oversampledSpec_natCast (env : Env) (k : Nat) (sampleRate : ℚ) (samplesPerBlock : Nat) :
    oversampledSpec env (k : Int) sampleRate samplesPerBlock
      = { sampleRate := sampleRate * 2 ^ k,
          maximumBlockSize := (samplesPerBlock * 2 ^ k) % 4294967296,
          numChannels := env.totalNumOutputChannels } := by
  have hfloor : Int.toNat ⌊(samplesPerBlock : ℚ) * (2 : ℚ) ^ (k : Int)⌋
      = samplesPerBlock * 2 ^ k := by
    have hcast : (samplesPerBlock : ℚ) * (2 : ℚ) ^ (k : Int)
        = ((samplesPerBlock * 2 ^ k : Nat) : ℚ) := by
      rw [zpow_natCast]
      push_cast
      ring
    rw [hcast, Int.floor_natCast, Int.toNat_natCast]
  simp only [oversampledSpec]
  rw [hfloor, zpow_natCast]

/-- The calls of the "oversampling config" block when the factor is the one seen before. -/
theorem oversamplingConfig_same {κ α : Type} (ops : Ops κ α) (env : Env) (st : State κ α)
    (numSamples : Nat) (h : st.oldOversamplingFactor = env.hq) :
    (oversamplingConfig ops env st numSamples).log
        = st.log ++ [Event.setWetLatency (ops.getLatencySamples st.components),
            Event.setOversamplingFactor env.hq]
      ∧ (oversamplingConfig ops env st numSamples).oldOversamplingFactor = env.hq := by
  simp only [oversamplingConfig, State.call, h, ne_eq, not_true_eq_false, if_false,
    List.append_assoc, List.singleton_append, and_self]

/-- The calls of the "oversampling config" block when the factor has changed: the two
setter calls and then everything `prepareToPlay` does. -/
theorem oversamplingConfig_changed {κ α : Type} (ops : Ops κ α) (env : Env) (st : State κ α)
    (numSamples : Nat) (h : st.oldOversamplingFactor ≠ env.hq) :
    (∃ l : ℚ, (oversamplingConfig ops env st numSamples).log
        = st.log ++ [Event.setWetLatency (ops.getLatencySamples st.components),
            Event.setOversamplingFactor env.hq] ++
          [Event.prepareToPlay env.sampleRate numSamples,
           Event.prepare Component.inputGain (baseSpec env env.sampleRate numSamples),
           Event.prepare Component.outputGain (baseSpec env env.sampleRate numSamples),
           Event.setOversamplingFactor env.hq,
           Event.prepare Component.oversamplingStack (baseSpec env env.sampleRate numSamples),
           Event.prepare Component.emphasisFilter
             (oversampledSpec env env.hq env.sampleRate numSamples),
           Event.prepare Component.distortionTypeSelection
             (oversampledSpec env env.hq env.sampleRate numSamples),
           Event.prepare Component.postClip
             (oversampledSpec env env.hq env.sampleRate numSamples),
           Event.prepare Component.preDistortionSelection
             (oversampledSpec env env.hq env.sampleRate numSamples),
           Event.prepare Component.noiseDistortionSelection
             (oversampledSpec env env.hq env.sampleRate numSamples),
           Event.prepare Component.dynamics
             (oversampledSpec env env.hq env.sampleRate numSamples),
           Event.setLatencySamples ⌈l⌉,
           Event.mixerReset,
           Event.prepare Component.dryWetMixer (baseSpec env env.sampleRate numSamples),
           Event.setWetLatency l])
      ∧ (oversamplingConfig ops env st numSamples).oldOversamplingFactor = env.hq := by
  have hne : ¬ (st.oldOversamplingFactor = env.hq) := h
  constructor
  · simp only [oversamplingConfig, State.call, ne_eq, hne, not_false_eq_true, if_true]
    rw [prepareToPlay_log]
    simp only [List.append_assoc, List.singleton_append, List.cons_append, List.nil_append]
    exact ⟨_, rfl⟩
  · simp only [oversamplingConfig, State.call, ne_eq, hne, not_false_eq_true, if_true,
      prepareToPlay_old]

/-- With a channel count of zero an enabled `processBlock` is the "oversampling config"
block and nothing else. -/
theorem processBlock_zero_channels_eq {κ α : Type} [Zero α] (ops : Ops κ α) (env : Env)
    (st : State κ α) (buffer : AudioBuffer α) (hen : env.hamburgerEnabled = true)
    (hz : env.totalNumInputChannels = 0 ∨ env.totalNumOutputChannels = 0) :
    processBlock ops env st buffer
      = (oversamplingConfig ops env st buffer.numSamples, buffer) := by
  rcases hz with hz | hz
  · simp [processBlock, hen, hz]
  · simp [processBlock, hen, hz]

/-- A call that writes no audio is neither a stage call nor a `clear`. -/
theorem not_touchesAudio {α : Type} (e : Event α) (h : e.touchesAudio = false) :
    e.stageName = none ∧ ∀ c s n, e ≠ Event.clear c s n := by
  cases e <;> simp_all [Event.touchesAudio, Event.stageName]

/-- The calls of the "oversampling config" block: none writes audio, and `prepareToPlay`
and its `prepare` calls are among them exactly when the factor differs from
`oldOversamplingFactor`, which afterwards holds the factor just read. -/
theorem oversamplingConfig_log {κ α : Type} (ops : Ops κ α) (env : Env) (st : State κ α)
    (numSamples : Nat) :
    ∃ cfg, (oversamplingConfig ops env st numSamples).log = st.log ++ cfg
      ∧ (∀ e ∈ cfg, e.touchesAudio = false)
      ∧ ((∃ e ∈ cfg, e.isPrepare = true) ↔ st.oldOversamplingFactor ≠ env.hq)
      ∧ (Event.prepareToPlay env.sampleRate numSamples ∈ cfg
          ↔ st.oldOversamplingFactor ≠ env.hq)
      ∧ (oversamplingConfig ops env st numSamples).oldOversamplingFactor = env.hq := by
  by_cases hsame : st.oldOversamplingFactor = env.hq
  · obtain ⟨hlog, hold⟩ := oversamplingConfig_same ops env st numSamples hsame
    refine ⟨_, hlog, ?_, ?_, ?_, hold⟩
    · simp [Event.touchesAudio]
    · simp [Event.isPrepare, hsame]
    · simp [hsame]
  · obtain ⟨⟨l, hl⟩, hold⟩ := oversamplingConfig_changed ops env st numSamples hsame
    rw [List.append_assoc] at hl
    refine ⟨_, hl, ?_, ?_, ?_, hold⟩
    · simp [Event.touchesAudio]
    · simp [Event.isPrepare, hsame]
    · simp [hsame]

/-- The channel-clearing loop: it records one `clear` per channel `first ≤ c < first + count`
in index order, sets the first `numSamples` samples of those channels to zero and leaves
every other sample alone. -/
theorem clearChannels_spec {κ α : Type} [Zero α] (ops : Ops κ α) (numSamples count : Nat) :
    ∀ (first : Nat) (r : State κ α × AudioBuffer α),
      (clearChannels ops numSamples count first r).1.log
          = r.1.log ++ (List.range' first count).map (fun c => Event.clear c 0 numSamples)
        ∧ (clearChannels ops numSamples count first r).1.oldOversamplingFactor
          = r.1.oldOversamplingFactor
        ∧ ∀ c i, (clearChannels ops numSamples count first r).2.data c i
          = if first ≤ c ∧ c < first + count ∧ i < numSamples then 0 else r.2.data c i := by
  induction count with
  | zero =>
    intro first r
    refine ⟨by simp [clearChannels], rfl, ?_⟩
    intro c i
    have : ¬ (first ≤ c ∧ c < first + 0 ∧ i < numSamples) := by omega
    simp only [clearChannels, if_neg this]
  | succ count ih =>
    intro first r
    obtain ⟨h1, h2, h3⟩ := ih (first + 1)
      (r.1.call ops (Event.clear first 0 numSamples), clear r.2 first 0 numSamples)
    refine ⟨?_, ?_, ?_⟩
    · simp only [clearChannels]
      rw [h1]
      simp [State.call, List.range'_succ]
    · simp only [clearChannels]
      rw [h2]
      rfl
    · intro c i
      simp only [clearChannels]
      rw [h3 c i]
      simp only [clear]
      by_cases hc : c = first
      · subst hc
        by_cases hi : i < numSamples
        · have e1 : ¬ (c + 1 ≤ c ∧ c < c + 1 + count ∧ i < numSamples) := by omega
          have e2 : c = c ∧ 0 ≤ i ∧ i < 0 + numSamples := ⟨rfl, Nat.zero_le i, by omega⟩
          have e3 : c ≤ c ∧ c < c + (count + 1) ∧ i < numSamples := ⟨le_refl c, by omega, hi⟩
          rw [if_neg e1, if_pos e2, if_pos e3]
        · have e1 : ¬ (c + 1 ≤ c ∧ c < c + 1 + count ∧ i < numSamples) := by omega
          have e2 : ¬ (c = c ∧ 0 ≤ i ∧ i < 0 + numSamples) := by omega
          have e3 : ¬ (c ≤ c ∧ c < c + (count + 1) ∧ i < numSamples) := by omega
          rw [if_neg e1, if_neg e2, if_neg e3]
      · have e2 : ¬ (c = first ∧ 0 ≤ i ∧ i < 0 + numSamples) := fun h => hc h.1
        by_cases hin : first + 1 ≤ c ∧ c < first + 1 + count ∧ i < numSamples
        · have e3 : first ≤ c ∧ c < first + (count + 1) ∧ i < numSamples := by omega
          rw [if_pos hin, if_pos e3]
        · have e3 : ¬ (first ≤ c ∧ c < first + (count + 1) ∧ i < numSamples) := by omega
          rw [if_neg hin, if_neg e2, if_neg e3]

/-- The calls of the stage sequence of `processBlock`: the input gain is set, the input
gain stage receives the block it is handed, and after it come the remaining stages in the
order of the source, the post clip only when `clipEnabled` is true; none of these calls is
a `prepare` or a `clear`, and `oldOversamplingFactor` is not touched. -/
theorem runStages_log {κ α : Type} (ops : Ops κ α) (env : Env) (st : State κ α)
    (block : AudioBuffer α) :
    ∃ rest,
      (runDownStages ops env (runUpStages ops env st block).1
          (runUpStages ops env st block).2.1 (runUpStages ops env st block).2.2).1.log
        = st.log ++ (Event.setGainDecibels Component.inputGain env.inputGainKnob
            :: Event.stage Stage.inputGain block :: rest)
      ∧ rest.filterMap Event.stageName
        = [Stage.pushDrySamples, Stage.processSamplesUp, Stage.emphasisBefore, Stage.dynamics,
            Stage.noiseDistortion, Stage.preDistortion, Stage.primaryDistortion,
            Stage.emphasisAfter]
          ++ (if env.clipEnabled = true then [Stage.postClip] else [])
          ++ [Stage.processSamplesDown, Stage.outputGain, Stage.mixWetSamples]
      ∧ (∀ e ∈ rest, e.isPrepare = false)
      ∧ (∀ e ∈ rest, ∀ c s n, e ≠ Event.clear c s n)
      ∧ (∃ dry, Event.stage Stage.pushDrySamples dry ∈ rest
          ∧ dry = (ops.audio Stage.inputGain
              (ops.control (Event.setGainDecibels Component.inputGain env.inputGainKnob)
                st.components) block).2)
      ∧ (runDownStages ops env (runUpStages ops env st block).1
          (runUpStages ops env st block).2.1
          (runUpStages ops env st block).2.2).1.oldOversamplingFactor
        = st.oldOversamplingFactor := by
  cases hclip : env.clipEnabled
  · simp only [runDownStages, runUpStages, State.call, State.runAudio, hclip,
      Bool.false_eq_true, if_false, List.append_assoc, List.singleton_append,
      List.cons_append, List.nil_append]
    refine ⟨_, rfl, rfl, ?_, ?_, ⟨_, List.mem_cons_self _ _, rfl⟩, trivial⟩
    · simp [Event.isPrepare]
    · simp
  · simp only [runDownStages, runUpStages, State.call, State.runAudio, hclip,
      if_true, List.append_assoc, List.singleton_append,
      List.cons_append, List.nil_append]
    refine ⟨_, rfl, rfl, ?_, ?_, ⟨_, List.mem_cons_self _ _, rfl⟩, trivial⟩
    · simp [Event.isPrepare]
    · simp

/-- An enabled `processBlock` with both channel counts non-zero is the config block, the
channel-clearing loop and the stage sequence, one after the other. -/
theorem processBlock_enabled_eq {κ α : Type} [Zero α] (ops : Ops κ α) (env : Env)
    (st : State κ α) (buffer : AudioBuffer α) (hen : env.hamburgerEnabled = true)
    (hin : env.totalNumInputChannels ≠ 0) (hout : env.totalNumOutputChannels ≠ 0) :
    processBlock ops env st buffer
      = runDownStages ops env
          (runUpStages ops env
            (clearChannels ops buffer.numSamples
              (env.totalNumOutputChannels - env.totalNumInputChannels)
              env.totalNumInputChannels
              (oversamplingConfig ops env st buffer.numSamples, buffer)).1
            (clearChannels ops buffer.numSamples
              (env.totalNumOutputChannels - env.totalNumInputChannels)
              env.totalNumInputChannels
              (oversamplingConfig ops env st buffer.numSamples, buffer)).2).1
          (runUpStages ops env
            (clearChannels ops buffer.numSamples
              (env.totalNumOutputChannels - env.totalNumInputChannels)
              env.totalNumInputChannels
              (oversamplingConfig ops env st buffer.numSamples, buffer)).1
            (clearChannels ops buffer.numSamples
              (env.totalNumOutputChannels - env.totalNumInputChannels)
              env.totalNumInputChannels
              (oversamplingConfig ops env st buffer.numSamples, buffer)).2).2.1
          (runUpStages ops env
            (clearChannels ops buffer.numSamples
              (env.totalNumOutputChannels - env.totalNumInputChannels)
              env.totalNumInputChannels
              (oversamplingConfig ops env st buffer.numSamples, buffer)).1
            (clearChannels ops buffer.numSamples
              (env.totalNumOutputChannels - env.totalNumInputChannels)
              env.totalNumInputChannels
              (oversamplingConfig ops env st buffer.numSamples, buffer)).2).2.2 := by
  simp only [processBlock, hen, Bool.true_eq_false, if_false, hin, hout]

/-- The calls of an enabled `processBlock` with both channel counts non-zero: the config
calls, one `clear` per channel from the input count up to the output count, the input
gain setter, the input gain stage on the cleared buffer, and the remaining stages. -/
theorem processBlock_enabled_log {κ α : Type} [Zero α] (ops : Ops κ α) (env : Env)
    (st : State κ α) (buffer : AudioBuffer α) (hen : env.hamburgerEnabled = true)
    (hin : env.totalNumInputChannels ≠ 0) (hout : env.totalNumOutputChannels ≠ 0) :
    ∃ cfg cleared rest,
      (processBlock ops env st buffer).1.log
        = st.log ++ cfg
          ++ (List.range' env.totalNumInputChannels
                (env.totalNumOutputChannels - env.totalNumInputChannels)).map
              (fun c => Event.clear c 0 buffer.numSamples)
          ++ (Event.setGainDecibels Component.inputGain env.inputGainKnob
              :: Event.stage Stage.inputGain cleared :: rest)
      ∧ (∀ e ∈ cfg, e.touchesAudio = false)
      ∧ ((∃ e ∈ cfg, e.isPrepare = true) ↔ st.oldOversamplingFactor ≠ env.hq)
      ∧ (Event.prepareToPlay env.sampleRate buffer.numSamples ∈ cfg
          ↔ st.oldOversamplingFactor ≠ env.hq)
      ∧ (∀ c i, cleared.data c i
          = if env.totalNumInputChannels ≤ c
              ∧ c < env.totalNumInputChannels
                  + (env.totalNumOutputChannels - env.totalNumInputChannels)
              ∧ i < buffer.numSamples then 0 else buffer.data c i)
      ∧ rest.filterMap Event.stageName
        = [Stage.pushDrySamples, Stage.processSamplesUp, Stage.emphasisBefore, Stage.dynamics,
            Stage.noiseDistortion, Stage.preDistortion, Stage.primaryDistortion,
            Stage.emphasisAfter]
          ++ (if env.clipEnabled = true then [Stage.postClip] else [])
          ++ [Stage.processSamplesDown, Stage.outputGain, Stage.mixWetSamples]
      ∧ (∀ e ∈ rest, e.isPrepare = false)
      ∧ (∀ e ∈ rest, ∀ c s n, e ≠ Event.clear c s n)
      ∧ (∃ k, Event.stage Stage.pushDrySamples (ops.audio Stage.inputGain k cleared).2 ∈ rest)
      ∧ (processBlock ops env st buffer).1.oldOversamplingFactor = env.hq := by
  obtain ⟨cfg, hcfg, hc1, hc2, hc3, hc4⟩ := oversamplingConfig_log ops env st buffer.numSamples
  obtain ⟨hl1, hl2, hl3⟩ := clearChannels_spec ops buffer.numSamples
    (env.totalNumOutputChannels - env.totalNumInputChannels) env.totalNumInputChannels
    (oversamplingConfig ops env st buffer.numSamples, buffer)
  obtain ⟨rest, hr1, hr2, hr3, hr4, ⟨dry, hdry, hdryeq⟩, hr6⟩ := runStages_log ops env
    (clearChannels ops buffer.numSamples
      (env.totalNumOutputChannels - env.totalNumInputChannels) env.totalNumInputChannels
      (oversamplingConfig ops env st buffer.numSamples, buffer)).1
    (clearChannels ops buffer.numSamples
      (env.totalNumOutputChannels - env.totalNumInputChannels) env.totalNumInputChannels
      (oversamplingConfig ops env st buffer.numSamples, buffer)).2
  refine ⟨cfg, (clearChannels ops buffer.numSamples
      (env.totalNumOutputChannels - env.totalNumInputChannels) env.totalNumInputChannels
      (oversamplingConfig ops env st buffer.numSamples, buffer)).2, rest, ?_, hc1, hc2, hc3, hl3, hr2, hr3, hr4,
    ⟨ops.control (Event.setGainDecibels Component.inputGain env.inputGainKnob)
      (clearChannels ops buffer.numSamples
      (env.totalNumOutputChannels - env.totalNumInputChannels) env.totalNumInputChannels
      (oversamplingConfig ops env st buffer.numSamples, buffer)).1.components, ?_⟩, ?_⟩
  · rw [processBlock_enabled_eq ops env st buffer hen hin hout, hr1, hl1, hcfg]
  · rw [← hdryeq]
    exact hdry
  · rw [processBlock_enabled_eq ops env st buffer hen hin hout, hr6, hl2, hc4]

/-- C13: in an enabled `processBlock` call with `in > 0` input and `out > 0` output
channels, the buffer that the input gain stage (the first stage call) receives has every
sample `i < numSamples` of every channel `in ≤ c < out` equal to 0 and every channel
`c < in` as it was; each such channel `in ≤ c < out` has been cleared by a recorded
`clear (c, 0, numSamples)`, and no `clear` is made on any other channel. -/
theorem processBlock_clears_extra_channels {κ α : Type} [Zero α] (ops : Ops κ α) (env : Env)
    (st : State κ α) (buffer : AudioBuffer α) (hen : env.hamburgerEnabled = true)
    (hin : 0 < env.totalNumInputChannels) (hout : 0 < env.totalNumOutputChannels) :
    ∃ pre cleared post,
      (processBlock ops env st buffer).1.log
        = st.log ++ pre ++ Event.stage Stage.inputGain cleared :: post
      ∧ (∀ e ∈ pre, e.stageName = none)
      ∧ (∀ c i, env.totalNumInputChannels ≤ c → c < env.totalNumOutputChannels →
          i < buffer.numSamples → cleared.data c i = 0)
      ∧ (∀ c i, c < env.totalNumInputChannels → cleared.data c i = buffer.data c i)
      ∧ (∀ c, env.totalNumInputChannels ≤ c → c < env.totalNumOutputChannels →
          Event.clear c 0 buffer.numSamples ∈ pre)
      ∧ (∀ c s n, Event.clear c s n ∈ pre ∨ Event.clear c s n ∈ post →
          env.totalNumInputChannels ≤ c ∧ c < env.totalNumOutputChannels) := by
  obtain ⟨cfg, cleared, rest, hlog, hc1, _, _, hdata, _, _, hr4, _, _⟩ :=
    processBlock_enabled_log ops env st buffer hen (Nat.pos_iff_ne_zero.mp hin)
      (Nat.pos_iff_ne_zero.mp hout)
  refine ⟨cfg ++ (List.range' env.totalNumInputChannels
        (env.totalNumOutputChannels - env.totalNumInputChannels)).map
        (fun c => Event.clear c 0 buffer.numSamples)
      ++ [Event.setGainDecibels Component.inputGain env.inputGainKnob],
    cleared, rest, ?_, ?_, ?_, ?_, ?_, ?_⟩
  · rw [hlog]
    simp only [List.append_assoc, List.singleton_append]
  · intro e he
    rcases List.mem_append.mp he with he | he
    · rcases List.mem_append.mp he with he | he
      · exact (not_touchesAudio e (hc1 e he)).1
      · obtain ⟨c, _, rfl⟩ := List.mem_map.mp he
        rfl
    · rw [List.mem_singleton.mp he]
      rfl
  · intro c i h1 h2 h3
    rw [hdata c i, if_pos ⟨h1, by omega, h3⟩]
  · intro c i h1
    have hn : ¬ (env.totalNumInputChannels ≤ c
        ∧ c < env.totalNumInputChannels
            + (env.totalNumOutputChannels - env.totalNumInputChannels)
        ∧ i < buffer.numSamples) := by omega
    rw [hdata c i, if_neg hn]
  · intro c h1 h2
    apply List.mem_append_left
    apply List.mem_append_right
    exact List.mem_map.mpr ⟨c, List.mem_range'_1.mpr ⟨h1, by omega⟩, rfl⟩
  · intro c s n h
    rcases h with he | he
    · rcases List.mem_append.mp he with he | he
      · rcases List.mem_append.mp he with he | he
        · exact absurd rfl ((not_touchesAudio _ (hc1 _ he)).2 c s n)
        · obtain ⟨c', hc', heq⟩ := List.mem_map.mp he
          have hcc : c' = c := by
            injection heq
          subst hcc
          have := List.mem_range'_1.mp hc'
          omega
      · have := List.mem_singleton.mp he
        exact absurd this (by simp)
    · exact absurd rfl (hr4 _ he c s n)

theorem processBlock_clears_extra_channels_witness :
    ∃ pre cleared post,
      (processBlock halfSampleOps monoInEnv idleState MBComp.rampBlock).1.log
        = idleState.log ++ pre ++ Event.stage Stage.inputGain cleared :: post
      ∧ (∀ e ∈ pre, e.stageName = none)
      ∧ (∀ c i, monoInEnv.totalNumInputChannels ≤ c → c < monoInEnv.totalNumOutputChannels →
          i < MBComp.rampBlock.numSamples → cleared.data c i = 0)
      ∧ (∀ c i, c < monoInEnv.totalNumInputChannels →
          cleared.data c i = MBComp.rampBlock.data c i)
      ∧ (∀ c, monoInEnv.totalNumInputChannels ≤ c → c < monoInEnv.totalNumOutputChannels →
          Event.clear c 0 MBComp.rampBlock.numSamples ∈ pre)
      ∧ (∀ c s n, Event.clear c s n ∈ pre ∨ Event.clear c s n ∈ post →
          monoInEnv.totalNumInputChannels ≤ c ∧ c < monoInEnv.totalNumOutputChannels) :=
  processBlock_clears_extra_channels halfSampleOps monoInEnv idleState MBComp.rampBlock rfl
    (by decide) (by decide)

/-- The calls of any enabled `processBlock`: first the config calls, none of which writes
audio, then calls none of which is a `prepare`; `prepareToPlay` is among the config calls
exactly when the factor differs from `oldOversamplingFactor`, which afterwards holds the
factor read in the call. -/
theorem processBlock_enabled_structure {κ α : Type} [Zero α] (ops : Ops κ α) (env : Env)
    (st : State κ α) (buffer : AudioBuffer α) (hen : env.hamburgerEnabled = true) :
    (∃ cfg rest, (processBlock ops env st buffer).1.log = st.log ++ cfg ++ rest
        ∧ (∀ e ∈ cfg, e.touchesAudio = false)
        ∧ (∀ e ∈ rest, e.isPrepare = false)
        ∧ (Event.prepareToPlay env.sampleRate buffer.numSamples ∈ cfg
            ↔ st.oldOversamplingFactor ≠ env.hq)
        ∧ ((∃ e ∈ cfg, e.isPrepare = true) ↔ st.oldOversamplingFactor ≠ env.hq))
      ∧ (processBlock ops env st buffer).1.oldOversamplingFactor = env.hq := by
  by_cases hz : env.totalNumInputChannels = 0 ∨ env.totalNumOutputChannels = 0
  · obtain ⟨cfg, hcfg, hc1, hc2, hc3, hc4⟩ :=
      oversamplingConfig_log ops env st buffer.numSamples
    rw [processBlock_zero_channels_eq ops env st buffer hen hz]
    refine ⟨⟨cfg, [], ?_, hc1, ?_, hc3, hc2⟩, hc4⟩
    · rw [List.append_nil]
      exact hcfg
    · intro e he
      exact absurd he (List.not_mem_nil e)
  · have hin : env.totalNumInputChannels ≠ 0 := fun h => hz (Or.inl h)
    have hout : env.totalNumOutputChannels ≠ 0 := fun h => hz (Or.inr h)
    obtain ⟨cfg, cleared, rest, hlog, hc1, hc2, hc3, _, _, hr3, _, _, hold⟩ :=
      processBlock_enabled_log ops env st buffer hen hin hout
    refine ⟨⟨cfg, (List.range' env.totalNumInputChannels
          (env.totalNumOutputChannels - env.totalNumInputChannels)).map
          (fun c => Event.clear c 0 buffer.numSamples)
        ++ (Event.setGainDecibels Component.inputGain env.inputGainKnob
            :: Event.stage Stage.inputGain cleared :: rest), ?_, hc1, ?_, hc3, hc2⟩, hold⟩
    · rw [hlog]
      simp only [List.append_assoc]
    · intro e he
      rcases List.mem_append.mp he with he | he
      · obtain ⟨c, _, rfl⟩ := List.mem_map.mp he
        rfl
      · rcases List.mem_cons.mp he with he | he
        · rw [he]
          rfl
        · rcases List.mem_cons.mp he with he | he
          · rw [he]
            rfl
          · exact hr3 e he

/-- C14: in an enabled `processBlock` call `prepareToPlay` is invoked if and only if the
oversampling-factor parameter differs from `oldOversamplingFactor`; every `prepare` call
comes before every audio call of the block; afterwards `oldOversamplingFactor` is the
parameter value read in the call, so a second call with the same value makes no `prepare`
call. -/
theorem processBlock_reprepares_iff_factor_changed {κ α : Type} [Zero α] (ops : Ops κ α)
    (env : Env) (st : State κ α) (buffer : AudioBuffer α)
    (hen : env.hamburgerEnabled = true) :
    (∃ cfg rest, (processBlock ops env st buffer).1.log = st.log ++ cfg ++ rest
        ∧ (∀ e ∈ cfg, e.touchesAudio = false)
        ∧ (∀ e ∈ rest, e.isPrepare = false)
        ∧ (Event.prepareToPlay env.sampleRate buffer.numSamples ∈ cfg
            ↔ st.oldOversamplingFactor ≠ env.hq)
        ∧ ((∃ e ∈ cfg, e.isPrepare = true) ↔ st.oldOversamplingFactor ≠ env.hq))
      ∧ (processBlock ops env st buffer).1.oldOversamplingFactor = env.hq
      ∧ ∀ next : AudioBuffer α, ∃ new,
          (processBlock ops env (processBlock ops env st buffer).1 next).1.log
            = (processBlock ops env st buffer).1.log ++ new
          ∧ ∀ e ∈ new, e.isPrepare = false := by
  obtain ⟨h1, h2⟩ := processBlock_enabled_structure ops env st buffer hen
  refine ⟨h1, h2, ?_⟩
  intro next
  obtain ⟨⟨cfg, rest, hlog, _, hrest, _, hiff⟩, _⟩ :=
    processBlock_enabled_structure ops env (processBlock ops env st buffer).1 next hen
  refine ⟨cfg ++ rest, ?_, ?_⟩
  · rw [hlog, List.append_assoc]
  · intro e he
    rcases List.mem_append.mp he with he | he
    · cases hp : e.isPrepare
      · rfl
      · exact absurd h2 (hiff.mp ⟨e, he, hp⟩)
    · exact hrest e he

theorem processBlock_reprepares_iff_factor_changed_witness :
    (∃ cfg rest, (processBlock halfSampleOps stereoEnv idleState MBComp.rampBlock).1.log
          = idleState.log ++ cfg ++ rest
        ∧ (∀ e ∈ cfg, e.touchesAudio = false)
        ∧ (∀ e ∈ rest, e.isPrepare = false)
        ∧ (Event.prepareToPlay stereoEnv.sampleRate MBComp.rampBlock.numSamples ∈ cfg
            ↔ idleState.oldOversamplingFactor ≠ stereoEnv.hq)
        ∧ ((∃ e ∈ cfg, e.isPrepare = true) ↔ idleState.oldOversamplingFactor ≠ stereoEnv.hq))
      ∧ (processBlock halfSampleOps stereoEnv idleState
          MBComp.rampBlock).1.oldOversamplingFactor = stereoEnv.hq
      ∧ ∀ next : AudioBuffer ℚ, ∃ new,
          (processBlock halfSampleOps stereoEnv
              (processBlock halfSampleOps stereoEnv idleState MBComp.rampBlock).1 next).1.log
            = (processBlock halfSampleOps stereoEnv idleState MBComp.rampBlock).1.log ++ new
          ∧ ∀ e ∈ new, e.isPrepare = false :=
  processBlock_reprepares_iff_factor_changed halfSampleOps stereoEnv idleState
    MBComp.rampBlock rfl

/-- C15 (the claim fails): for block size `2 ^ 30`, which an `int` holds, and oversampling
factor 2, the six downstream objects are prepared with maximum block size 0, not with
`2 ^ 30 · 2 ^ 2`: the product does not fit the 32-bit unsigned `maximumBlockSize`. -/
theorem prepareToPlay_block_size_wraps :
    (1073741824 : Nat) < 2 ^ 31 ∧ quadEnv.hq = 2
      ∧ (∀ c ∈ [Component.emphasisFilter, Component.distortionTypeSelection,
            Component.postClip, Component.preDistortionSelection,
            Component.noiseDistortionSelection, Component.dynamics],
          Event.prepare c ⟨44100 * 2 ^ 2, 0, 2⟩
            ∈ (prepareToPlay halfSampleOps quadEnv idleState 44100 1073741824).log)
      ∧ (∀ c, Event.prepare c ⟨44100 * 2 ^ 2, 1073741824 * 2 ^ 2, 2⟩
            ∉ (prepareToPlay halfSampleOps quadEnv idleState 44100 1073741824).log)
      ∧ (0 : Nat) ≠ 1073741824 * 2 ^ 2 := by
  have hspec : oversampledSpec quadEnv quadEnv.hq 44100 1073741824
      = ⟨44100 * 2 ^ 2, 0, 2⟩ := by
    have h := oversampledSpec_natCast quadEnv 2 44100 1073741824
    norm_num at h
    norm_num
    exact h
  have hbase : baseSpec quadEnv 44100 1073741824 = ⟨44100, 1073741824, 2⟩ := rfl
  rw [prepareToPlay_log, hspec, hbase]
  refine ⟨by norm_num, rfl, ?_, ?_, by norm_num⟩
  · intro c hc
    simp only [List.mem_cons, List.mem_singleton, List.not_mem_nil, or_false] at hc
    rcases hc with rfl | rfl | rfl | rfl | rfl | rfl <;> simp
  · intro c
    simp [idleState]

/-- C15 (amended): for every base sample rate, every oversampling factor `f` in {0, 1, 2}
and every block size with `blockSize · 2^f < 2^32`, `prepareToPlay` prepares the emphasis
filter, primary distortion, post clip, pre-distortion, noise distortion and dynamics with
rate `sampleRate · 2^f` and maximum block size `blockSize · 2^f`, and prepares the input and
output gain, the oversampling stack and the dry/wet mixer with `sampleRate` and
`blockSize`.  These are all its calls, in this order; the member objects end in the state
these calls produce from the state they started in, the latency being read after the
first eleven calls; the stack holds the factor `f`. -/
theorem prepareToPlay_specs {κ α : Type} (ops : Ops κ α) (env : Env) (st : State κ α)
    (sampleRate : ℚ) (blockSize : Nat) (f : Nat) (_hf : f ≤ 2) (hq : env.hq = (f : Int))
    (hfit : blockSize * 2 ^ f < 4294967296) :
    let base : ProcessSpec := ⟨sampleRate, blockSize, env.totalNumOutputChannels⟩
    let oversampled : ProcessSpec :=
      ⟨sampleRate * 2 ^ f, blockSize * 2 ^ f, env.totalNumOutputChannels⟩
    let first : List (Event α) :=
      [Event.prepareToPlay sampleRate blockSize,
       Event.prepare Component.inputGain base,
       Event.prepare Component.outputGain base,
       Event.setOversamplingFactor (f : Int),
       Event.prepare Component.oversamplingStack base,
       Event.prepare Component.emphasisFilter oversampled,
       Event.prepare Component.distortionTypeSelection oversampled,
       Event.prepare Component.postClip oversampled,
       Event.prepare Component.preDistortionSelection oversampled,
       Event.prepare Component.noiseDistortionSelection oversampled,
       Event.prepare Component.dynamics oversampled]
    let latency : ℚ :=
      ops.getLatencySamples (first.foldl (fun k e => ops.control e k) st.components)
    let last : List (Event α) :=
      [Event.setLatencySamples ⌈latency⌉,
       Event.mixerReset,
       Event.prepare Component.dryWetMixer base,
       Event.setWetLatency latency]
    (prepareToPlay ops env st sampleRate blockSize).log = st.log ++ first ++ last
      ∧ (prepareToPlay ops env st sampleRate blockSize).components
          = (first ++ last).foldl (fun k e => ops.control e k) st.components
      ∧ (prepareToPlay ops env st sampleRate blockSize).oversamplingStack.getOversamplingFactor
          = (f : Int)
      ∧ (prepareToPlay ops env st sampleRate blockSize).oldOversamplingFactor
          = st.oldOversamplingFactor := by
  have hspec : oversampledSpec env (f : Int) sampleRate blockSize
      = ⟨sampleRate * 2 ^ f, blockSize * 2 ^ f, env.totalNumOutputChannels⟩ := by
    rw [oversampledSpec_natCast, Nat.mod_eq_of_lt hfit]
  intro base oversampled first latency last
  refine ⟨?_, ?_, ?_, ?_⟩
  · simp only [prepareToPlay, prepareComponents, State.call,
      OversamplingStack.setOversamplingFactor, OversamplingStack.getOversamplingFactor,
      hq, hspec, List.append_assoc, List.singleton_append, List.cons_append, List.nil_append]
    rfl
  · simp only [prepareToPlay, prepareComponents, State.call,
      OversamplingStack.setOversamplingFactor, OversamplingStack.getOversamplingFactor,
      hq, hspec]
    rfl
  · simp only [prepareToPlay, prepareComponents, State.call,
      OversamplingStack.setOversamplingFactor, OversamplingStack.getOversamplingFactor, hq]
  · simp only [prepareToPlay, prepareComponents, State.call]

theorem prepareToPlay_specs_witness :
    (512 * 2 ^ 1 < 4294967296)
      ∧ (prepareToPlay countingOps stereoEnv countingState 48000 512).log
        = [Event.prepareToPlay 48000 512,
           Event.prepare Component.inputGain ⟨48000, 512, 2⟩,
           Event.prepare Component.outputGain ⟨48000, 512, 2⟩,
           Event.setOversamplingFactor 1,
           Event.prepare Component.oversamplingStack ⟨48000, 512, 2⟩,
           Event.prepare Component.emphasisFilter ⟨48000 * 2 ^ 1, 512 * 2 ^ 1, 2⟩,
           Event.prepare Component.distortionTypeSelection ⟨48000 * 2 ^ 1, 512 * 2 ^ 1, 2⟩,
           Event.prepare Component.postClip ⟨48000 * 2 ^ 1, 512 * 2 ^ 1, 2⟩,
           Event.prepare Component.preDistortionSelection ⟨48000 * 2 ^ 1, 512 * 2 ^ 1, 2⟩,
           Event.prepare Component.noiseDistortionSelection ⟨48000 * 2 ^ 1, 512 * 2 ^ 1, 2⟩,
           Event.prepare Component.dynamics ⟨48000 * 2 ^ 1, 512 * 2 ^ 1, 2⟩,
           Event.setLatencySamples ⌈((11 : Nat) : ℚ) / 2⌉,
           Event.mixerReset,
           Event.prepare Component.dryWetMixer ⟨48000, 512, 2⟩,
           Event.setWetLatency (((11 : Nat) : ℚ) / 2)]
      ∧ (prepareToPlay countingOps stereoEnv countingState 48000 512).components = 15
      ∧ (prepareToPlay countingOps stereoEnv countingState 48000 512).oversamplingStack.getOversamplingFactor
          = 1 :=
  ⟨by norm_num,
    (prepareToPlay_specs countingOps stereoEnv countingState 48000 512 1 (by decide) rfl
      (by norm_num)).1,
    (prepareToPlay_specs countingOps stereoEnv countingState 48000 512 1 (by decide) rfl
      (by norm_num)).2.1,
    (prepareToPlay_specs countingOps stereoEnv countingState 48000 512 1 (by decide) rfl
      (by norm_num)).2.2.1⟩

/-- C16 (the claim fails): when the stack reports a latency of 5/2 samples,
`prepareToPlay` reports 3 samples to the host and gives 5/2 samples to the mixer. -/
theorem prepareToPlay_latency_differs :
    Event.setLatencySamples 3 ∈ (prepareToPlay halfSampleOps stereoEnv idleState 44100 3).log
      ∧ Event.setWetLatency (5 / 2)
          ∈ (prepareToPlay halfSampleOps stereoEnv idleState 44100 3).log
      ∧ ((3 : Int) : ℚ) ≠ 5 / 2 := by
  have hceil : ⌈(5 / 2 : ℚ)⌉ = 3 := by
    rw [Int.ceil_eq_iff]
    constructor <;> norm_num
  have hl : halfSampleOps.getLatencySamples
      (prepareComponents halfSampleOps stereoEnv idleState 44100 3).components = 5 / 2 := rfl
  rw [prepareToPlay_log, hl, hceil]
  refine ⟨?_, ?_, by norm_num⟩ <;> simp

/-- C16 (amended): `prepareToPlay` reads the stack latency `L` once, after the `prepare`
calls; the host is told `⌈L⌉`, the least whole number of samples not below `L`, and the
mixer is given `L` itself.  These are the only latency calls of `prepareToPlay`, and the two
values are equal exactly when `L` is a whole number.  The member objects end in the state
that the four calls `setLatencySamples ⌈L⌉`, `reset`, `prepare` and `setWetLatency L`
produce from the state the `prepare` calls left. -/
theorem prepareToPlay_latency {κ α : Type} (ops : Ops κ α) (env : Env) (st : State κ α)
    (sampleRate : ℚ) (blockSize : Nat) :
    ∃ pre,
      (prepareToPlay ops env st sampleRate blockSize).log
        = st.log ++ pre ++
          [Event.setLatencySamples
             ⌈ops.getLatencySamples
               (prepareComponents ops env st sampleRate blockSize).components⌉,
           Event.mixerReset,
           Event.prepare Component.dryWetMixer (baseSpec env sampleRate blockSize),
           Event.setWetLatency
             (ops.getLatencySamples
               (prepareComponents ops env st sampleRate blockSize).components)]
      ∧ (∀ e ∈ pre, (∀ v, e ≠ Event.setLatencySamples v) ∧ ∀ v, e ≠ Event.setWetLatency v)
      ∧ ops.getLatencySamples (prepareComponents ops env st sampleRate blockSize).components
          ≤ ⌈ops.getLatencySamples
              (prepareComponents ops env st sampleRate blockSize).components⌉
      ∧ ((⌈ops.getLatencySamples
              (prepareComponents ops env st sampleRate blockSize).components⌉ : ℚ)
          < ops.getLatencySamples
              (prepareComponents ops env st sampleRate blockSize).components + 1)
      ∧ (((⌈ops.getLatencySamples
              (prepareComponents ops env st sampleRate blockSize).components⌉ : Int) : ℚ)
            = ops.getLatencySamples
                (prepareComponents ops env st sampleRate blockSize).components
          ↔ ∃ z : Int, ops.getLatencySamples
              (prepareComponents ops env st sampleRate blockSize).components = z)
      ∧ (prepareToPlay ops env st sampleRate blockSize).components
          = ops.control
              (Event.setWetLatency
                (ops.getLatencySamples
                  (prepareComponents ops env st sampleRate blockSize).components))
              (ops.control (Event.prepare Component.dryWetMixer (baseSpec env sampleRate blockSize))
                (ops.control Event.mixerReset
                  (ops.control
                    (Event.setLatencySamples
                      ⌈ops.getLatencySamples
                        (prepareComponents ops env st sampleRate blockSize).components⌉)
                    (prepareComponents ops env st sampleRate blockSize).components))) := by
  refine ⟨[Event.prepareToPlay sampleRate blockSize,
      Event.prepare Component.inputGain (baseSpec env sampleRate blockSize),
      Event.prepare Component.outputGain (baseSpec env sampleRate blockSize),
      Event.setOversamplingFactor env.hq,
      Event.prepare Component.oversamplingStack (baseSpec env sampleRate blockSize),
      Event.prepare Component.emphasisFilter (oversampledSpec env env.hq sampleRate blockSize),
      Event.prepare Component.distortionTypeSelection
        (oversampledSpec env env.hq sampleRate blockSize),
      Event.prepare Component.postClip (oversampledSpec env env.hq sampleRate blockSize),
      Event.prepare Component.preDistortionSelection
        (oversampledSpec env env.hq sampleRate blockSize),
      Event.prepare Component.noiseDistortionSelection
        (oversampledSpec env env.hq sampleRate blockSize),
      Event.prepare Component.dynamics (oversampledSpec env env.hq sampleRate blockSize)],
    ?_, ?_, Int.le_ceil _, Int.ceil_lt_add_one _, ?_, rfl⟩
  · rw [prepareToPlay_log]
    simp only [List.append_assoc, List.cons_append, List.nil_append]
  · simp
  · constructor
    · intro h
      exact ⟨_, h.symm⟩
    · rintro ⟨z, hz⟩
      rw [hz, Int.ceil_intCast]

/-- C17: in an enabled `processBlock` call with non-zero channel counts the stage calls
are, each once and in this order: input gain, dry capture, upsampling, emphasis-before,
dynamics, noise distortion, pre-distortion, primary distortion, emphasis-after, post
soft-clip exactly when `postClipEnabled` is true, downsampling, output gain, dry/wet mix;
the block the dry capture receives is the output of the input gain stage; and the buffer
returned and the state the member objects end in are those of the specification's signal
path, each of its stages applied once in that order, started on the buffer and the objects
as the "oversampling config" block and the clearing of the extra channels have left
them. -/
theorem processBlock_stage_order {κ α : Type} [Zero α] (ops : Ops κ α) (env : Env)
    (st : State κ α) (buffer : AudioBuffer α) (hen : env.hamburgerEnabled = true)
    (hin : env.totalNumInputChannels ≠ 0) (hout : env.totalNumOutputChannels ≠ 0) :
    (∃ new, (processBlock ops env st buffer).1.log = st.log ++ new
      ∧ new.filterMap Event.stageName
        = [Stage.inputGain, Stage.pushDrySamples, Stage.processSamplesUp, Stage.emphasisBefore,
            Stage.dynamics, Stage.noiseDistortion, Stage.preDistortion,
            Stage.primaryDistortion, Stage.emphasisAfter]
          ++ (if env.clipEnabled = true then [Stage.postClip] else [])
          ++ [Stage.processSamplesDown, Stage.outputGain, Stage.mixWetSamples]
      ∧ ∃ k input, Event.stage Stage.inputGain input ∈ new
          ∧ Event.stage Stage.pushDrySamples (ops.audio Stage.inputGain k input).2 ∈ new)
    ∧ (processBlock ops env st buffer).2
        = (specPipeline ops env
            ⟨(clearChannels ops buffer.numSamples
                (env.totalNumOutputChannels - env.totalNumInputChannels)
                env.totalNumInputChannels
                (oversamplingConfig ops env st buffer.numSamples, buffer)).1.components,
             (clearChannels ops buffer.numSamples
                (env.totalNumOutputChannels - env.totalNumInputChannels)
                env.totalNumInputChannels
                (oversamplingConfig ops env st buffer.numSamples, buffer)).2,
             (clearChannels ops buffer.numSamples
                (env.totalNumOutputChannels - env.totalNumInputChannels)
                env.totalNumInputChannels
                (oversamplingConfig ops env st buffer.numSamples, buffer)).2⟩).block
    ∧ (processBlock ops env st buffer).1.components
        = (specPipeline ops env
            ⟨(clearChannels ops buffer.numSamples
                (env.totalNumOutputChannels - env.totalNumInputChannels)
                env.totalNumInputChannels
                (oversamplingConfig ops env st buffer.numSamples, buffer)).1.components,
             (clearChannels ops buffer.numSamples
                (env.totalNumOutputChannels - env.totalNumInputChannels)
                env.totalNumInputChannels
                (oversamplingConfig ops env st buffer.numSamples, buffer)).2,
             (clearChannels ops buffer.numSamples
                (env.totalNumOutputChannels - env.totalNumInputChannels)
                env.totalNumInputChannels
                (oversamplingConfig ops env st buffer.numSamples, buffer)).2⟩).components := by
  have hrun : processBlock ops env st buffer
      = runDownStages ops env
          (runUpStages ops env
            (clearChannels ops buffer.numSamples
              (env.totalNumOutputChannels - env.totalNumInputChannels)
              env.totalNumInputChannels
              (oversamplingConfig ops env st buffer.numSamples, buffer)).1
            (clearChannels ops buffer.numSamples
              (env.totalNumOutputChannels - env.totalNumInputChannels)
              env.totalNumInputChannels
              (oversamplingConfig ops env st buffer.numSamples, buffer)).2).1
          (runUpStages ops env
            (clearChannels ops buffer.numSamples
              (env.totalNumOutputChannels - env.totalNumInputChannels)
              env.totalNumInputChannels
              (oversamplingConfig ops env st buffer.numSamples, buffer)).1
            (clearChannels ops buffer.numSamples
              (env.totalNumOutputChannels - env.totalNumInputChannels)
              env.totalNumInputChannels
              (oversamplingConfig ops env st buffer.numSamples, buffer)).2).2.1
          (runUpStages ops env
            (clearChannels ops buffer.numSamples
              (env.totalNumOutputChannels - env.totalNumInputChannels)
              env.totalNumInputChannels
              (oversamplingConfig ops env st buffer.numSamples, buffer)).1
            (clearChannels ops buffer.numSamples
              (env.totalNumOutputChannels - env.totalNumInputChannels)
              env.totalNumInputChannels
              (oversamplingConfig ops env st buffer.numSamples, buffer)).2).2.2 := by
    simp only [processBlock, hen, hin, hout, if_false, Bool.true_eq_false]
  refine ⟨?_, ?_, ?_⟩
  · obtain ⟨cfg, cleared, rest, hlog, hc1, _, _, _, hr2, _, _, ⟨k, hk⟩, _⟩ :=
      processBlock_enabled_log ops env st buffer hen hin hout
    refine ⟨cfg ++ (List.range' env.totalNumInputChannels
          (env.totalNumOutputChannels - env.totalNumInputChannels)).map
          (fun c => Event.clear c 0 buffer.numSamples)
        ++ (Event.setGainDecibels Component.inputGain env.inputGainKnob
            :: Event.stage Stage.inputGain cleared :: rest), ?_, ?_, ⟨k, cleared, ?_, ?_⟩⟩
    · rw [hlog]
      simp only [List.append_assoc]
    · have h1 : cfg.filterMap Event.stageName = [] :=
        List.filterMap_eq_nil_iff.mpr (fun e he => (not_touchesAudio e (hc1 e he)).1)
      have h2 : ((List.range' env.totalNumInputChannels
          (env.totalNumOutputChannels - env.totalNumInputChannels)).map
          (fun c => (Event.clear c 0 buffer.numSamples : Event α))).filterMap Event.stageName
          = [] := by
        apply List.filterMap_eq_nil_iff.mpr
        intro e he
        obtain ⟨c, _, rfl⟩ := List.mem_map.mp he
        rfl
      have h3 : (Event.setGainDecibels Component.inputGain env.inputGainKnob
          :: Event.stage Stage.inputGain cleared :: rest).filterMap Event.stageName
          = Stage.inputGain :: rest.filterMap Event.stageName := rfl
      rw [List.filterMap_append, List.filterMap_append, h1, h2, h3, hr2]
      simp only [List.nil_append, List.cons_append, List.append_assoc]
    · apply List.mem_append_right
      exact List.mem_cons_of_mem _ (List.mem_cons_self _ _)
    · apply List.mem_append_right
      exact List.mem_cons_of_mem _ (List.mem_cons_of_mem _ hk)
  · rw [hrun]
    cases hclip : env.clipEnabled <;>
      simp [runDownStages, runUpStages, State.runAudio, State.call, specPipeline,
        specStageOrder, specApplyStage, hclip]
  · rw [hrun]
    cases hclip : env.clipEnabled <;>
      simp [runDownStages, runUpStages, State.runAudio, State.call, specPipeline,
        specStageOrder, specApplyStage, hclip]

theorem processBlock_stage_order_witness :
    (∃ new, (processBlock countingOps stereoEnv countingState MBComp.rampBlock).1.log
        = countingState.log ++ new
      ∧ new.filterMap Event.stageName
        = [Stage.inputGain, Stage.pushDrySamples, Stage.processSamplesUp, Stage.emphasisBefore,
            Stage.dynamics, Stage.noiseDistortion, Stage.preDistortion,
            Stage.primaryDistortion, Stage.emphasisAfter]
          ++ (if stereoEnv.clipEnabled = true then [Stage.postClip] else [])
          ++ [Stage.processSamplesDown, Stage.outputGain, Stage.mixWetSamples]
      ∧ ∃ k input, Event.stage Stage.inputGain input ∈ new
          ∧ Event.stage Stage.pushDrySamples (countingOps.audio Stage.inputGain k input).2
              ∈ new)
    ∧ (processBlock countingOps stereoEnv countingState MBComp.rampBlock).2
        = (specPipeline countingOps stereoEnv
            ⟨(clearChannels countingOps MBComp.rampBlock.numSamples
                (stereoEnv.totalNumOutputChannels - stereoEnv.totalNumInputChannels)
                stereoEnv.totalNumInputChannels
                (oversamplingConfig countingOps stereoEnv countingState
                  MBComp.rampBlock.numSamples, MBComp.rampBlock)).1.components,
             (clearChannels countingOps MBComp.rampBlock.numSamples
                (stereoEnv.totalNumOutputChannels - stereoEnv.totalNumInputChannels)
                stereoEnv.totalNumInputChannels
                (oversamplingConfig countingOps stereoEnv countingState
                  MBComp.rampBlock.numSamples, MBComp.rampBlock)).2,
             (clearChannels countingOps MBComp.rampBlock.numSamples
                (stereoEnv.totalNumOutputChannels - stereoEnv.totalNumInputChannels)
                stereoEnv.totalNumInputChannels
                (oversamplingConfig countingOps stereoEnv countingState
                  MBComp.rampBlock.numSamples, MBComp.rampBlock)).2⟩).block
    ∧ (processBlock countingOps stereoEnv countingState MBComp.rampBlock).1.components
        = (specPipeline countingOps stereoEnv
            ⟨(clearChannels countingOps MBComp.rampBlock.numSamples
                (stereoEnv.totalNumOutputChannels - stereoEnv.totalNumInputChannels)
                stereoEnv.totalNumInputChannels
                (oversamplingConfig countingOps stereoEnv countingState
                  MBComp.rampBlock.numSamples, MBComp.rampBlock)).1.components,
             (clearChannels countingOps MBComp.rampBlock.numSamples
                (stereoEnv.totalNumOutputChannels - stereoEnv.totalNumInputChannels)
                stereoEnv.totalNumInputChannels
                (oversamplingConfig countingOps stereoEnv countingState
                  MBComp.rampBlock.numSamples, MBComp.rampBlock)).2,
             (clearChannels countingOps MBComp.rampBlock.numSamples
                (stereoEnv.totalNumOutputChannels - stereoEnv.totalNumInputChannels)
                stereoEnv.totalNumInputChannels
                (oversamplingConfig countingOps stereoEnv countingState
                  MBComp.rampBlock.numSamples, MBComp.rampBlock)).2⟩).components :=
  processBlock_stage_order countingOps stereoEnv countingState MBComp.rampBlock rfl
    (by decide) (by decide)

end Processor

namespace AllPassChain

open MBComp (AudioBuffer ProcessSpec)

/-! ## The all-pass chain -/

/-- Assigning coefficients over a list of stages records one assignment per stage, in
order, and touches neither the parameters nor the three `old` members. -/
theorem assignFold_spec {γ φ π : Type} (c : γ) (l : List (Fin 50)) :
    ∀ st : State γ φ π,
      (l.foldl (assignOne c) st).log = st.log ++ l.map (fun i => Event.assign i.val c)
        ∧ (l.foldl (assignOne c) st).oldAllPassFreq = st.oldAllPassFreq
        ∧ (l.foldl (assignOne c) st).oldAllPassQ = st.oldAllPassQ
        ∧ (l.foldl (assignOne c) st).oldAllPassAmount = st.oldAllPassAmount
        ∧ (l.foldl (assignOne c) st).allPassFrequency = st.allPassFrequency
        ∧ (l.foldl (assignOne c) st).allPassQ = st.allPassQ
        ∧ (l.foldl (assignOne c) st).allPassAmount = st.allPassAmount
        ∧ (l.foldl (assignOne c) st).oldSampleRate = st.oldSampleRate := by
  induction l with
  | nil =>
    intro st
    simp
  | cons i l ih =>
    intro st
    obtain ⟨h1, h2, h3, h4, h5, h6, h7, h8⟩ := ih (assignOne c st i)
    simp only [List.foldl_cons, List.map_cons]
    refine ⟨?_, h2, h3, h4, h5, h6, h7, h8⟩
    rw [h1]
    simp [assignOne]

/-- The range-based assignment loop records an assignment to each of the 50 stages, in
index order. -/
theorem assignAll_spec {γ φ π : Type} (c : γ) (st : State γ φ π) :
    (assignAll c st).log = st.log ++ (List.range 50).map (fun i => Event.assign i c)
      ∧ (assignAll c st).oldAllPassFreq = st.oldAllPassFreq
      ∧ (assignAll c st).oldAllPassQ = st.oldAllPassQ
      ∧ (assignAll c st).oldAllPassAmount = st.oldAllPassAmount
      ∧ (assignAll c st).allPassFrequency = st.allPassFrequency
      ∧ (assignAll c st).allPassQ = st.allPassQ
      ∧ (assignAll c st).allPassAmount = st.allPassAmount
      ∧ (assignAll c st).oldSampleRate = st.oldSampleRate := by
  obtain ⟨h1, h2⟩ := assignFold_spec c (List.finRange 50) st
  refine ⟨?_, h2⟩
  have hmap : (List.finRange 50).map (fun i : Fin 50 => (Event.assign i.val c : Event γ))
      = (List.range 50).map (fun i => Event.assign i c) := by
    rw [← List.map_coe_finRange 50, List.map_map]
    rfl
  rw [← hmap]
  exact h1

/-- Assigning coefficients over a list of stages leaves every filter memory as it was,
and a stage that is in the list, or already held the coefficients, holds them
afterwards. -/
theorem assignFold_filters {γ φ π : Type} (c : γ) (l : List (Fin 50)) :
    ∀ (st : State γ φ π) (i : Fin 50),
      ((l.foldl (assignOne c) st).allPassFilters i).memory = (st.allPassFilters i).memory
        ∧ ((i ∈ l ∨ (st.allPassFilters i).state = c) →
            ((l.foldl (assignOne c) st).allPassFilters i).state = c) := by
  induction l with
  | nil =>
    intro st i
    refine ⟨rfl, ?_⟩
    rintro (h | h)
    · exact absurd h (List.not_mem_nil _)
    · exact h
  | cons j l ih =>
    intro st i
    obtain ⟨h1, h2⟩ := ih (assignOne c st j) i
    simp only [List.foldl_cons]
    by_cases hij : i = j
    · subst hij
      have hs : ((assignOne c st i).allPassFilters i).state = c := by
        simp [assignOne]
      have hm : ((assignOne c st i).allPassFilters i).memory = (st.allPassFilters i).memory := by
        simp [assignOne]
      exact ⟨h1.trans hm, fun _ => h2 (Or.inr hs)⟩
    · have hsame : (assignOne c st j).allPassFilters i = st.allPassFilters i := by
        simp [assignOne, Function.update_noteq hij]
      refine ⟨by rw [h1, hsame], ?_⟩
      rintro (h | h)
      · rcases List.mem_cons.mp h with h | h
        · exact absurd h hij
        · exact h2 (Or.inl h)
      · exact h2 (Or.inr (by rw [hsame]; exact h))

/-- The range-based assignment loop gives every one of the 50 stages the coefficients and
leaves every filter memory as it was. -/
theorem assignAll_filters {γ φ π : Type} (c : γ) (st : State γ φ π) (i : Fin 50) :
    ((assignAll c st).allPassFilters i).state = c
      ∧ ((assignAll c st).allPassFilters i).memory = (st.allPassFilters i).memory := by
  obtain ⟨h1, h2⟩ := assignFold_filters c (List.finRange 50) st i
  exact ⟨h2 (Or.inl (List.mem_finRange i)), h1⟩

/-- The stage loop from index `i` on, for an amount whose ceiling `n` is at most 50: it
succeeds, records `process i, …, process (n − 1)` in this order, and touches neither the
parameters nor the three `old` members. -/
theorem stageLoop_spec {γ φ π α : Type} (ops : Ops γ φ π α) (amount : ℚ)
    (hn : Int.toNat ⌈amount⌉ ≤ 50) (d : Nat) :
    ∀ (i : Nat) (r : State γ φ π × AudioBuffer α), i + d = Int.toNat ⌈amount⌉ →
      ∃ r', stageLoop ops amount i r = some r'
        ∧ r'.1.log = r.1.log ++ (List.range' i d).map Event.process
        ∧ r'.1.oldAllPassFreq = r.1.oldAllPassFreq
        ∧ r'.1.oldAllPassQ = r.1.oldAllPassQ
        ∧ r'.1.oldAllPassAmount = r.1.oldAllPassAmount
        ∧ r'.1.allPassFrequency = r.1.allPassFrequency
        ∧ r'.1.allPassQ = r.1.allPassQ
        ∧ r'.1.allPassAmount = r.1.allPassAmount
        ∧ r'.1.oldSampleRate = r.1.oldSampleRate := by
  induction d with
  | zero =>
    intro i r hi
    have hstop : ¬ ((i : ℚ) < amount) := by
      intro h
      have h1 : (i : Int) < ⌈amount⌉ := Int.lt_ceil.mpr (by exact_mod_cast h)
      omega
    refine ⟨r, ?_, by simp, rfl, rfl, rfl, rfl, rfl, rfl, rfl⟩
    rw [stageLoop, if_neg hstop]
  | succ d ih =>
    intro i r hi
    have hgo : (i : ℚ) < amount := by
      have h1 : (i : Int) < ⌈amount⌉ := by omega
      have h2 := Int.lt_ceil.mp h1
      exact_mod_cast h2
    have h50 : i < 50 := by omega
    obtain ⟨r', hrun, hlog, h1, h2, h3, h4, h5, h6, h7⟩ := ih (i + 1)
      ({ r.1 with
          allPassFilters := Function.update r.1.allPassFilters ⟨i, h50⟩
            { r.1.allPassFilters ⟨i, h50⟩ with
              memory := (ops.filterProcess (r.1.allPassFilters ⟨i, h50⟩).state
                (r.1.allPassFilters ⟨i, h50⟩).memory r.2).1 },
          log := r.1.log ++ [Event.process i] },
        (ops.filterProcess (r.1.allPassFilters ⟨i, h50⟩).state
          (r.1.allPassFilters ⟨i, h50⟩).memory r.2).2) (by omega)
    refine ⟨r', ?_, ?_, h1, h2, h3, h4, h5, h6, h7⟩
    · rw [stageLoop, if_pos hgo, dif_pos h50]
      exact hrun
    · rw [hlog]
      simp [List.range'_succ]

/-- What `processBlock` does when the ceiling of the observed amount is at most 50: it
succeeds; it assigns coefficients to all 50 stages when one of the three `old` members
differs from the observed value and to none otherwise; it then runs the stages below the
ceiling of the amount in index order; and it leaves the three `old` members as they were. -/
theorem processBlock_spec {γ φ π α : Type} (ops : Ops γ φ π α) (st : State γ φ π)
    (block : AudioBuffer α)
    (hn : Int.toNat ⌈ops.paramGetRaw (ops.paramUpdate st.allPassAmount)⌉ ≤ 50) :
    ∃ r, processBlock ops st block = some r
      ∧ r.1.log = st.log
          ++ (if st.oldAllPassFreq ≠ ops.paramGetRaw (ops.paramUpdate st.allPassFrequency)
                ∨ st.oldAllPassQ ≠ ops.paramGetRaw (ops.paramUpdate st.allPassQ)
                ∨ st.oldAllPassAmount ≠ ops.paramGetRaw (ops.paramUpdate st.allPassAmount)
              then (List.range 50).map (fun i => Event.assign i
                (ops.makeAllPass st.oldSampleRate
                  (ops.paramGetRaw (ops.paramUpdate st.allPassFrequency))
                  (ops.paramGetRaw (ops.paramUpdate st.allPassQ))))
              else [])
          ++ (List.range (Int.toNat ⌈ops.paramGetRaw (ops.paramUpdate st.allPassAmount)⌉)).map
              Event.process
      ∧ r.1.oldAllPassFreq = st.oldAllPassFreq
      ∧ r.1.oldAllPassQ = st.oldAllPassQ
      ∧ r.1.oldAllPassAmount = st.oldAllPassAmount
      ∧ r.1.allPassFrequency = ops.paramUpdate st.allPassFrequency
      ∧ r.1.allPassQ = ops.paramUpdate st.allPassQ
      ∧ r.1.allPassAmount = ops.paramUpdate st.allPassAmount
      ∧ r.1.oldSampleRate = st.oldSampleRate := by
  by_cases hch : st.oldAllPassFreq ≠ ops.paramGetRaw (ops.paramUpdate st.allPassFrequency)
      ∨ st.oldAllPassQ ≠ ops.paramGetRaw (ops.paramUpdate st.allPassQ)
      ∨ st.oldAllPassAmount ≠ ops.paramGetRaw (ops.paramUpdate st.allPassAmount)
  · obtain ⟨a1, a2, a3, a4, a5, a6, a7, a8⟩ := assignAll_spec
      (ops.makeAllPass st.oldSampleRate (ops.paramGetRaw (ops.paramUpdate st.allPassFrequency))
        (ops.paramGetRaw (ops.paramUpdate st.allPassQ)))
      { st with allPassAmount := ops.paramUpdate st.allPassAmount,
                allPassFrequency := ops.paramUpdate st.allPassFrequency,
                allPassQ := ops.paramUpdate st.allPassQ }
    obtain ⟨r, hrun, hlog, h1, h2, h3, h4, h5, h6, h7⟩ := stageLoop_spec ops
      (ops.paramGetRaw (ops.paramUpdate st.allPassAmount)) hn
      (Int.toNat ⌈ops.paramGetRaw (ops.paramUpdate st.allPassAmount)⌉) 0
      (assignAll
        (ops.makeAllPass st.oldSampleRate
          (ops.paramGetRaw (ops.paramUpdate st.allPassFrequency))
          (ops.paramGetRaw (ops.paramUpdate st.allPassQ)))
        { st with allPassAmount := ops.paramUpdate st.allPassAmount,
                  allPassFrequency := ops.paramUpdate st.allPassFrequency,
                  allPassQ := ops.paramUpdate st.allPassQ }, block) (Nat.zero_add _)
    refine ⟨r, ?_, ?_, ?_, ?_, ?_, ?_, ?_, ?_, ?_⟩
    · simp only [processBlock, if_pos hch, a7]
      exact hrun
    · rw [hlog, if_pos hch]
      simp only [a1, List.range_eq_range']
    · rw [h1]; exact a2
    · rw [h2]; exact a3
    · rw [h3]; exact a4
    · rw [h4]; exact a5
    · rw [h5]; exact a6
    · rw [h6]; exact a7
    · rw [h7]; exact a8
  · obtain ⟨r, hrun, hlog, h1, h2, h3, h4, h5, h6, h7⟩ := stageLoop_spec ops
      (ops.paramGetRaw (ops.paramUpdate st.allPassAmount)) hn
      (Int.toNat ⌈ops.paramGetRaw (ops.paramUpdate st.allPassAmount)⌉) 0
      ({ st with allPassAmount := ops.paramUpdate st.allPassAmount,
                 allPassFrequency := ops.paramUpdate st.allPassFrequency,
                 allPassQ := ops.paramUpdate st.allPassQ }, block) (Nat.zero_add _)
    refine ⟨r, ?_, ?_, h1, h2, h3, h4, h5, h6, h7⟩
    · simp only [processBlock, if_neg hch]
      exact hrun
    · rw [hlog, if_neg hch]
      simp only [List.append_nil, List.range_eq_range']

/-- Assignments contribute no `process` index. -/
theorem filterMap_processIndex_assign {γ : Type} (c : γ) (l : List Nat) :
    (l.map (fun i => (Event.assign i c : Event γ))).filterMap Event.processIndex = [] := by
  apply List.filterMap_eq_nil_iff.mpr
  intro e he
  obtain ⟨i, _, rfl⟩ := List.mem_map.mp he
  rfl

/-- The indices of a run of `process` calls are the indices themselves. -/
theorem filterMap_processIndex_process {γ : Type} (l : List Nat) :
    (l.map (Event.process : Nat → Event γ)).filterMap Event.processIndex = l := by
  induction l with
  | nil => rfl
  | cons i l ih =>
    simp only [List.map_cons]
    rw [List.filterMap_cons_some (show Event.processIndex (Event.process i : Event γ) = some i
      from rfl), ih]

/-- C18 (the claim fails): with `allPassAmount = 2.5`, a value of the declared range,
`processBlock` runs the three stages 0, 1, 2, which is not "exactly 2.5 stages". -/
theorem processBlock_fractional_amount_runs_three :
    ∃ r, processBlock plainOps (freshChain 85 (2 / 5) (5 / 2)) MBComp.rampBlock = some r
      ∧ r.1.log.filterMap Event.processIndex = [0, 1, 2]
      ∧ ((r.1.log.filterMap Event.processIndex).length : ℚ) ≠ 5 / 2 := by
  have hceil : ⌈(5 / 2 : ℚ)⌉ = 3 := by
    rw [Int.ceil_eq_iff]
    constructor <;> norm_num
  have ha : plainOps.paramGetRaw (plainOps.paramUpdate
      (freshChain 85 (2 / 5) (5 / 2)).allPassAmount) = 5 / 2 := rfl
  obtain ⟨r, hrun, hlog, _⟩ := processBlock_spec plainOps (freshChain 85 (2 / 5) (5 / 2))
    MBComp.rampBlock (by rw [ha, hceil]; decide)
  rw [ha, hceil] at hlog
  have hidx : r.1.log.filterMap Event.processIndex = [0, 1, 2] := by
    rw [hlog, List.filterMap_append, List.filterMap_append,
      filterMap_processIndex_process]
    have hnil : (freshChain 85 (2 / 5) (5 / 2)).log.filterMap Event.processIndex = [] := rfl
    rw [hnil]
    split_ifs
    · rw [filterMap_processIndex_assign]
      rfl
    · rfl
  refine ⟨r, hrun, hidx, ?_⟩
  rw [hidx]
  norm_num

/-- The stage loop from index `i` on, started on the block that the stages below `i` of
`filters` produce in series and on an array that agrees with `filters` except for the
memories of the stages below `i`: it ends on the block that the stages below the ceiling of
the amount produce in series, each of these stages holding the memory its one call left and
every other stage the memory of `filters`; no coefficient changes. -/
theorem stageLoop_series {γ φ π α : Type} (ops : Ops γ φ π α) (amount : ℚ)
    (filters : Fin 50 → Filter γ φ) (block : AudioBuffer α) (d : Nat) :
    ∀ (i : Nat) (r r' : State γ φ π × AudioBuffer α), i + d = Int.toNat ⌈amount⌉ →
      r.2 = specSeriesOutput ops filters block i →
      (∀ j : Fin 50, (r.1.allPassFilters j).state = (filters j).state
        ∧ (r.1.allPassFilters j).memory
            = if j.val < i then
                (ops.filterProcess (filters j).state (filters j).memory
                  (specSeriesOutput ops filters block j.val)).1
              else (filters j).memory) →
      stageLoop ops amount i r = some r' →
      r'.2 = specSeriesOutput ops filters block (Int.toNat ⌈amount⌉)
        ∧ ∀ j : Fin 50, (r'.1.allPassFilters j).state = (filters j).state
          ∧ (r'.1.allPassFilters j).memory
              = if j.val < Int.toNat ⌈amount⌉ then
                  (ops.filterProcess (filters j).state (filters j).memory
                    (specSeriesOutput ops filters block j.val)).1
                else (filters j).memory := by
  induction d with
  | zero =>
    intro i r r' hi hblock hfil hrun
    have hstop : ¬ ((i : ℚ) < amount) := by
      intro h
      have h1 : (i : Int) < ⌈amount⌉ := Int.lt_ceil.mpr (by exact_mod_cast h)
      omega
    rw [stageLoop, if_neg hstop, Option.some.injEq] at hrun
    have hin : i = Int.toNat ⌈amount⌉ := by omega
    rw [← hrun, ← hin]
    exact ⟨hblock, hfil⟩
  | succ d ih =>
    intro i r r' hi hblock hfil hrun
    have hgo : (i : ℚ) < amount := by
      have h1 : (i : Int) < ⌈amount⌉ := by omega
      have h2 := Int.lt_ceil.mp h1
      exact_mod_cast h2
    rw [stageLoop, if_pos hgo] at hrun
    split_ifs at hrun with h50
    obtain ⟨hs, hm⟩ := hfil ⟨i, h50⟩
    simp only [lt_self_iff_false, if_false] at hm
    refine ih (i + 1) _ r' (by omega) ?_ ?_ hrun
    · show (ops.filterProcess (r.1.allPassFilters ⟨i, h50⟩).state
          (r.1.allPassFilters ⟨i, h50⟩).memory r.2).2 = specSeriesOutput ops filters block (i + 1)
      rw [hs, hm, hblock]
      simp only [specSeriesOutput, dif_pos h50]
    · intro j
      by_cases hj : j = ⟨i, h50⟩
      · subst hj
        simp only [Function.update_same]
        refine ⟨hs, ?_⟩
        rw [if_pos (Nat.lt_succ_self i), hs, hm, hblock]
      · have hne : j.val ≠ i := fun h => hj (Fin.ext h)
        simp only [Function.update_noteq hj]
        refine ⟨(hfil j).1, ?_⟩
        rw [(hfil j).2]
        by_cases hlt : j.val < i
        · rw [if_pos hlt, if_pos (by omega)]
        · rw [if_neg hlt, if_neg (by omega)]

/-- C18 (amended): for an observed `allPassAmount` value `a` with `0 ≤ a ≤ 50`,
`processBlock` runs the stages `0, …, ⌈a⌉ − 1`, each once and in index order; when `a` is
a whole number `k` these are exactly the `k` stages `0, …, k − 1`.  The block returned is
the input block passed through these stages in series, each stage with the coefficients
it holds after the assignment (the new ones when one of the three observed values differs
from its `old` member) and the memory it had before the call; afterwards each of these
stages holds the memory its one call left, and every other stage the memory it had. -/
theorem processBlock_runs_ceil_amount_stages {γ φ π α : Type} (ops : Ops γ φ π α)
    (st : State γ φ π) (block : AudioBuffer α)
    (_h0 : 0 ≤ ops.paramGetRaw (ops.paramUpdate st.allPassAmount))
    (h50 : ops.paramGetRaw (ops.paramUpdate st.allPassAmount) ≤ 50) :
    ∃ r new, processBlock ops st block = some r
      ∧ r.1.log = st.log ++ new
      ∧ new.filterMap Event.processIndex
        = List.range (Int.toNat ⌈ops.paramGetRaw (ops.paramUpdate st.allPassAmount)⌉)
      ∧ (∀ k : Nat, ops.paramGetRaw (ops.paramUpdate st.allPassAmount) = k →
          new.filterMap Event.processIndex = List.range k)
      ∧ (let filters : Fin 50 → Filter γ φ := fun j =>
            if st.oldAllPassFreq ≠ ops.paramGetRaw (ops.paramUpdate st.allPassFrequency)
                ∨ st.oldAllPassQ ≠ ops.paramGetRaw (ops.paramUpdate st.allPassQ)
                ∨ st.oldAllPassAmount ≠ ops.paramGetRaw (ops.paramUpdate st.allPassAmount)
            then { state := ops.makeAllPass st.oldSampleRate
                      (ops.paramGetRaw (ops.paramUpdate st.allPassFrequency))
                      (ops.paramGetRaw (ops.paramUpdate st.allPassQ)),
                   memory := (st.allPassFilters j).memory }
            else st.allPassFilters j
        r.2 = specSeriesOutput ops filters block
            (Int.toNat ⌈ops.paramGetRaw (ops.paramUpdate st.allPassAmount)⌉)
          ∧ ∀ j : Fin 50, (r.1.allPassFilters j).state = (filters j).state
            ∧ (r.1.allPassFilters j).memory
                = if j.val < Int.toNat ⌈ops.paramGetRaw (ops.paramUpdate st.allPassAmount)⌉
                  then (ops.filterProcess (filters j).state (filters j).memory
                    (specSeriesOutput ops filters block j.val)).1
                  else (st.allPassFilters j).memory) := by
  have hceil : ⌈ops.paramGetRaw (ops.paramUpdate st.allPassAmount)⌉ ≤ 50 :=
    Int.ceil_le.mpr (by exact_mod_cast h50)
  have hn : Int.toNat ⌈ops.paramGetRaw (ops.paramUpdate st.allPassAmount)⌉ ≤ 50 := by omega
  obtain ⟨r, hrun, hlog, _⟩ := processBlock_spec ops st block hn
  have hidx : ((if st.oldAllPassFreq ≠ ops.paramGetRaw (ops.paramUpdate st.allPassFrequency)
        ∨ st.oldAllPassQ ≠ ops.paramGetRaw (ops.paramUpdate st.allPassQ)
        ∨ st.oldAllPassAmount ≠ ops.paramGetRaw (ops.paramUpdate st.allPassAmount)
      then (List.range 50).map (fun i => Event.assign i
        (ops.makeAllPass st.oldSampleRate
          (ops.paramGetRaw (ops.paramUpdate st.allPassFrequency))
          (ops.paramGetRaw (ops.paramUpdate st.allPassQ))))
      else [])
      ++ (List.range (Int.toNat ⌈ops.paramGetRaw (ops.paramUpdate st.allPassAmount)⌉)).map
          Event.process).filterMap Event.processIndex
      = List.range (Int.toNat ⌈ops.paramGetRaw (ops.paramUpdate st.allPassAmount)⌉) := by
    rw [List.filterMap_append, filterMap_processIndex_process]
    split_ifs
    · rw [filterMap_processIndex_assign]
      rfl
    · rfl
  refine ⟨r, _, hrun, ?_, hidx, ?_, ?_⟩
  · rw [hlog, List.append_assoc]
  · intro k hk
    rw [hidx, hk, Int.ceil_natCast, Int.toNat_natCast]
  · intro filters
    by_cases hch : st.oldAllPassFreq ≠ ops.paramGetRaw (ops.paramUpdate st.allPassFrequency)
        ∨ st.oldAllPassQ ≠ ops.paramGetRaw (ops.paramUpdate st.allPassQ)
        ∨ st.oldAllPassAmount ≠ ops.paramGetRaw (ops.paramUpdate st.allPassAmount)
    · obtain ⟨_, _, _, _, _, _, a7, _⟩ := assignAll_spec
        (ops.makeAllPass st.oldSampleRate
          (ops.paramGetRaw (ops.paramUpdate st.allPassFrequency))
          (ops.paramGetRaw (ops.paramUpdate st.allPassQ)))
        { st with allPassAmount := ops.paramUpdate st.allPassAmount,
                  allPassFrequency := ops.paramUpdate st.allPassFrequency,
                  allPassQ := ops.paramUpdate st.allPassQ }
      simp only [processBlock, if_pos hch, a7] at hrun
      have hf : ∀ j, filters j
          = ⟨ops.makeAllPass st.oldSampleRate
              (ops.paramGetRaw (ops.paramUpdate st.allPassFrequency))
              (ops.paramGetRaw (ops.paramUpdate st.allPassQ)),
            (st.allPassFilters j).memory⟩ := fun j => if_pos hch
      have hmem : ∀ j, (filters j).memory = (st.allPassFilters j).memory := by
        intro j
        rw [hf j]
      obtain ⟨hb, hfil⟩ := stageLoop_series ops _ filters block _ 0 _ r (Nat.zero_add _) rfl
        (fun j => by
          obtain ⟨g1, g2⟩ := assignAll_filters
            (ops.makeAllPass st.oldSampleRate
              (ops.paramGetRaw (ops.paramUpdate st.allPassFrequency))
              (ops.paramGetRaw (ops.paramUpdate st.allPassQ)))
            { st with allPassAmount := ops.paramUpdate st.allPassAmount,
                      allPassFrequency := ops.paramUpdate st.allPassFrequency,
                      allPassQ := ops.paramUpdate st.allPassQ } j
          rw [hf j]
          exact ⟨g1, by simpa using g2⟩) hrun
      refine ⟨hb, fun j => ⟨(hfil j).1, ?_⟩⟩
      rw [(hfil j).2, hmem j]
    · simp only [processBlock, if_neg hch] at hrun
      have hf : ∀ j, filters j = st.allPassFilters j := fun j => if_neg hch
      obtain ⟨hb, hfil⟩ := stageLoop_series ops _ filters block _ 0 _ r (Nat.zero_add _) rfl
        (fun j => by
          rw [hf j]
          exact ⟨rfl, by simp⟩) hrun
      refine ⟨hb, fun j => ⟨(hfil j).1, ?_⟩⟩
      rw [(hfil j).2, hf j]

theorem processBlock_runs_ceil_amount_stages_witness :
    ∃ r new, processBlock plainOps (freshChain 85 (2 / 5) 10) MBComp.rampBlock = some r
      ∧ r.1.log = (freshChain 85 (2 / 5) 10).log ++ new
      ∧ new.filterMap Event.processIndex
        = List.range (Int.toNat ⌈plainOps.paramGetRaw
            (plainOps.paramUpdate (freshChain 85 (2 / 5) 10).allPassAmount)⌉)
      ∧ (∀ k : Nat, plainOps.paramGetRaw
            (plainOps.paramUpdate (freshChain 85 (2 / 5) 10).allPassAmount) = k →
          new.filterMap Event.processIndex = List.range k)
      ∧ (let filters : Fin 50 → Filter (ℚ × ℚ × ℚ) Unit := fun j =>
            if (freshChain 85 (2 / 5) 10).oldAllPassFreq
                  ≠ plainOps.paramGetRaw
                      (plainOps.paramUpdate (freshChain 85 (2 / 5) 10).allPassFrequency)
                ∨ (freshChain 85 (2 / 5) 10).oldAllPassQ
                  ≠ plainOps.paramGetRaw
                      (plainOps.paramUpdate (freshChain 85 (2 / 5) 10).allPassQ)
                ∨ (freshChain 85 (2 / 5) 10).oldAllPassAmount
                  ≠ plainOps.paramGetRaw
                      (plainOps.paramUpdate (freshChain 85 (2 / 5) 10).allPassAmount)
            then { state := plainOps.makeAllPass (freshChain 85 (2 / 5) 10).oldSampleRate
                      (plainOps.paramGetRaw
                        (plainOps.paramUpdate (freshChain 85 (2 / 5) 10).allPassFrequency))
                      (plainOps.paramGetRaw
                        (plainOps.paramUpdate (freshChain 85 (2 / 5) 10).allPassQ)),
                   memory := ((freshChain 85 (2 / 5) 10).allPassFilters j).memory }
            else (freshChain 85 (2 / 5) 10).allPassFilters j
        r.2 = specSeriesOutput plainOps filters MBComp.rampBlock
            (Int.toNat ⌈plainOps.paramGetRaw
              (plainOps.paramUpdate (freshChain 85 (2 / 5) 10).allPassAmount)⌉)
          ∧ ∀ j : Fin 50, (r.1.allPassFilters j).state = (filters j).state
            ∧ (r.1.allPassFilters j).memory
                = if j.val < Int.toNat ⌈plainOps.paramGetRaw
                      (plainOps.paramUpdate (freshChain 85 (2 / 5) 10).allPassAmount)⌉
                  then (plainOps.filterProcess (filters j).state (filters j).memory
                    (specSeriesOutput plainOps filters MBComp.rampBlock j.val)).1
                  else ((freshChain 85 (2 / 5) 10).allPassFilters j).memory) :=
  processBlock_runs_ceil_amount_stages plainOps (freshChain 85 (2 / 5) 10) MBComp.rampBlock
    (show (0 : ℚ) ≤ 10 by norm_num) (show (10 : ℚ) ≤ 50 by norm_num)

/-- C19 (the code at a failing input): a chain with frequency 85, Q 0.4 and amount 10 is
processed twice.  The second call observes the same three values as the first, yet it
assigns coefficients to all 50 stages again: `processBlock` never stores the observed
values, so the three `old` members still hold their initial 0 after the first call. -/
theorem processBlock_reassigns_with_unchanged_parameters :
    ∃ r1 r2, processBlock plainOps (freshChain 85 (2 / 5) 10) MBComp.rampBlock = some r1
      ∧ processBlock plainOps r1.1 r1.2 = some r2
      ∧ plainOps.paramGetRaw (plainOps.paramUpdate r1.1.allPassFrequency)
          = plainOps.paramGetRaw (plainOps.paramUpdate (freshChain 85 (2 / 5) 10).allPassFrequency)
      ∧ plainOps.paramGetRaw (plainOps.paramUpdate r1.1.allPassQ)
          = plainOps.paramGetRaw (plainOps.paramUpdate (freshChain 85 (2 / 5) 10).allPassQ)
      ∧ plainOps.paramGetRaw (plainOps.paramUpdate r1.1.allPassAmount)
          = plainOps.paramGetRaw (plainOps.paramUpdate (freshChain 85 (2 / 5) 10).allPassAmount)
      ∧ r1.1.oldAllPassFreq = 0 ∧ r1.1.oldAllPassQ = 0 ∧ r1.1.oldAllPassAmount = 0
      ∧ r2.1.log = r1.1.log
          ++ (List.range 50).map (fun i => Event.assign i ((44100 : ℚ), (85 : ℚ), (2 / 5 : ℚ)))
          ++ (List.range 10).map Event.process := by
  have hceil : ⌈(10 : ℚ)⌉ = 10 := by
    have h := Int.ceil_natCast (α := ℚ) 10
    exact_mod_cast h
  have ha : plainOps.paramGetRaw (plainOps.paramUpdate
      (freshChain 85 (2 / 5) 10).allPassAmount) = 10 := rfl
  obtain ⟨r1, hrun1, _, o1, o2, o3, p1, p2, p3, p4⟩ := processBlock_spec plainOps
    (freshChain 85 (2 / 5) 10) MBComp.rampBlock (by rw [ha, hceil]; decide)
  have q1 : r1.1.allPassFrequency = 85 := p1
  have q2 : r1.1.allPassQ = 2 / 5 := p2
  have q3 : r1.1.allPassAmount = 10 := p3
  have q4 : r1.1.oldSampleRate = 44100 := p4
  have z1 : r1.1.oldAllPassFreq = 0 := o1
  have z2 : r1.1.oldAllPassQ = 0 := o2
  have z3 : r1.1.oldAllPassAmount = 0 := o3
  have f1 : plainOps.paramGetRaw (plainOps.paramUpdate r1.1.allPassFrequency) = 85 := q1
  have f2 : plainOps.paramGetRaw (plainOps.paramUpdate r1.1.allPassQ) = 2 / 5 := q2
  have f3 : plainOps.paramGetRaw (plainOps.paramUpdate r1.1.allPassAmount) = 10 := q3
  obtain ⟨r2, hrun2, hlog2, _⟩ := processBlock_spec plainOps r1.1 r1.2
    (by rw [f3, hceil]; decide)
  have hch : r1.1.oldAllPassFreq ≠ plainOps.paramGetRaw
        (plainOps.paramUpdate r1.1.allPassFrequency)
      ∨ r1.1.oldAllPassQ ≠ plainOps.paramGetRaw (plainOps.paramUpdate r1.1.allPassQ)
      ∨ r1.1.oldAllPassAmount ≠ plainOps.paramGetRaw
        (plainOps.paramUpdate r1.1.allPassAmount) := by
    left
    rw [z1, f1]
    norm_num
  rw [if_pos hch, f1, f2, f3, q4, hceil] at hlog2
  exact ⟨r1, r2, hrun1, hrun2, f1, f2, f3, z1, z2, z3, hlog2⟩

/-- The first `k ≤ 50` iterations of the prepare loop succeed and record `prepare` and
`reset` for each index below `k`. -/
theorem prepareLoop_spec {γ φ π α : Type} (ops : Ops γ φ π α) (spec : ProcessSpec) (k : Nat)
    (hk : k ≤ 50) :
    ∀ st : State γ φ π, ∃ st', MBComp.forLoop (prepareOne ops spec) k st = some st'
      ∧ st'.log = st.log ++ prepareEvents spec k := by
  induction k with
  | zero =>
    intro st
    exact ⟨st, rfl, by simp [prepareEvents]⟩
  | succ k ih =>
    intro st
    obtain ⟨st1, hrun, hlog⟩ := ih (by omega) st
    have hlt : k < 50 := by omega
    simp only [MBComp.forLoop, hrun, Option.some_bind, prepareOne, dif_pos hlt]
    refine ⟨_, rfl, ?_⟩
    simp only [hlog, prepareEvents, List.append_assoc]

/-- Every index below `k` has its `prepare` and its `reset` among the first `k`
iterations. -/
theorem mem_prepareEvents {γ : Type} (spec : ProcessSpec) (k i : Nat) (hi : i < k) :
    (Event.prepare i spec : Event γ) ∈ prepareEvents spec k
      ∧ (Event.reset i : Event γ) ∈ prepareEvents spec k := by
  induction k with
  | zero => exact absurd hi (Nat.not_lt_zero i)
  | succ k ih =>
    simp only [prepareEvents]
    by_cases hik : i = k
    · subst hik
      constructor
      · exact List.mem_append_right _ (List.mem_cons_self _ _)
      · exact List.mem_append_right _ (List.mem_cons_of_mem _ (List.mem_cons_self _ _))
    · obtain ⟨h1, h2⟩ := ih (by omega)
      exact ⟨List.mem_append_left _ h1, List.mem_append_left _ h2⟩

/-- The first `k` iterations of the prepare loop leave every coefficient as it was, give
each stage below `k` the memory `reset (prepare memory)`, and leave the other memories as
they were. -/
theorem prepareLoop_filters {γ φ π α : Type} (ops : Ops γ φ π α) (spec : ProcessSpec)
    (k : Nat) :
    ∀ st st' : State γ φ π, MBComp.forLoop (prepareOne ops spec) k st = some st' →
      st'.allPassFrequency = st.allPassFrequency ∧ st'.allPassQ = st.allPassQ
        ∧ st'.allPassAmount = st.allPassAmount
        ∧ ∀ i : Fin 50, (st'.allPassFilters i).state = (st.allPassFilters i).state
          ∧ (st'.allPassFilters i).memory
              = if i.val < k then ops.filterReset (ops.filterPrepare (st.allPassFilters i).memory spec)
                else (st.allPassFilters i).memory := by
  induction k with
  | zero =>
    intro st st' h
    simp only [MBComp.forLoop, Option.some.injEq] at h
    subst h
    exact ⟨rfl, rfl, rfl, fun i => ⟨rfl, by simp⟩⟩
  | succ k ih =>
    intro st st' h
    simp only [MBComp.forLoop] at h
    cases h1 : MBComp.forLoop (prepareOne ops spec) k st with
    | none =>
      rw [h1] at h
      exact absurd h (by simp)
    | some st1 =>
      rw [h1, Option.some_bind] at h
      obtain ⟨p1, p2, p3, hf⟩ := ih st st1 h1
      unfold prepareOne at h
      split_ifs at h with hk
      simp only [Option.some.injEq] at h
      subst h
      refine ⟨p1, p2, p3, ?_⟩
      intro i
      by_cases hik : i = ⟨k, hk⟩
      · subst hik
        have hm := (hf ⟨k, hk⟩).2
        simp only [lt_self_iff_false, if_false] at hm
        simp [Function.update_same, (hf ⟨k, hk⟩).1, hm]
      · have hne : i.val ≠ k := fun h => hik (Fin.ext h)
        simp only [Function.update_noteq hik]
        refine ⟨(hf i).1, ?_⟩
        rw [(hf i).2]
        by_cases hlt : i.val < k
        · rw [if_pos hlt, if_pos (by omega)]
        · rw [if_neg hlt, if_neg (by omega)]

/-- The stage loop from index `i` on leaves untouched every stage whose index is below
`i` or not below the ceiling of the amount. -/
theorem stageLoop_untouched {γ φ π α : Type} (ops : Ops γ φ π α) (amount : ℚ) (d : Nat) :
    ∀ (i : Nat) (r r' : State γ φ π × AudioBuffer α), i + d = Int.toNat ⌈amount⌉ →
      stageLoop ops amount i r = some r' →
      ∀ j : Fin 50, (j.val < i ∨ Int.toNat ⌈amount⌉ ≤ j.val) →
        r'.1.allPassFilters j = r.1.allPassFilters j := by
  induction d with
  | zero =>
    intro i r r' hi hrun j _
    have hstop : ¬ ((i : ℚ) < amount) := by
      intro h
      have h1 : (i : Int) < ⌈amount⌉ := Int.lt_ceil.mpr (by exact_mod_cast h)
      omega
    rw [stageLoop, if_neg hstop, Option.some.injEq] at hrun
    rw [← hrun]
  | succ d ih =>
    intro i r r' hi hrun j hj
    have hgo : (i : ℚ) < amount := by
      have h1 : (i : Int) < ⌈amount⌉ := by omega
      have h2 := Int.lt_ceil.mp h1
      exact_mod_cast h2
    rw [stageLoop, if_pos hgo] at hrun
    split_ifs at hrun with h50
    have hne : j ≠ ⟨i, h50⟩ := by
      intro h
      have hv : j.val = i := by rw [h]
      omega
    have hstep := ih (i + 1) _ r' (by omega) hrun j (by omega)
    rw [hstep]
    exact Function.update_noteq hne _ _

/-- C20: `prepareToPlay` assigns coefficients to, prepares and resets every one of the 50
stages, whatever the state (and so the amount) it starts from: afterwards each of the 50
array elements holds the coefficients made from the prepared parameters and the memory
`reset (prepare memory)`; and for an observed amount `a` with `0 ≤ a ≤ 50`, `processBlock`
succeeds, every stage index `i` it processes satisfies `i < a`, hence `i < 50` (no access
leaves the 50-element array), and the memory of every stage with index `≥ a` is as it
was. -/
theorem prepareToPlay_all_stages_processBlock_in_range {γ φ π α : Type} (ops : Ops γ φ π α)
    (st : State γ φ π) (block : AudioBuffer α) (sampleRate : ℚ) (samplesPerBlock : Nat)
    (_h0 : 0 ≤ ops.paramGetRaw (ops.paramUpdate st.allPassAmount))
    (h50 : ops.paramGetRaw (ops.paramUpdate st.allPassAmount) ≤ 50) :
    (∀ st0 : State γ φ π, ∃ st' c,
        prepareToPlay ops st0 sampleRate samplesPerBlock = some st'
        ∧ st'.log = st0.log ++ (List.range 50).map (fun i => Event.assign i c)
            ++ prepareEvents ⟨sampleRate, samplesPerBlock, 2⟩ 50
        ∧ (∀ i, i < 50 → Event.assign i c ∈ st'.log
            ∧ Event.prepare i ⟨sampleRate, samplesPerBlock, 2⟩ ∈ st'.log
            ∧ Event.reset i ∈ st'.log)
        ∧ c = ops.makeAllPass sampleRate
            (ops.paramGetRaw (ops.paramPrepareToPlay st0.allPassFrequency sampleRate
              samplesPerBlock))
            (ops.paramGetRaw (ops.paramPrepareToPlay st0.allPassQ sampleRate samplesPerBlock))
        ∧ (∀ i : Fin 50, (st'.allPassFilters i).state = c
            ∧ (st'.allPassFilters i).memory
                = ops.filterReset (ops.filterPrepare (st0.allPassFilters i).memory
                    ⟨sampleRate, samplesPerBlock, 2⟩))
        ∧ st'.oldSampleRate = sampleRate)
      ∧ ∃ r new, processBlock ops st block = some r
          ∧ r.1.log = st.log ++ new
          ∧ (∀ i, Event.process i ∈ new →
              (i : ℚ) < ops.paramGetRaw (ops.paramUpdate st.allPassAmount) ∧ i < 50)
          ∧ ∀ i : Fin 50, ops.paramGetRaw (ops.paramUpdate st.allPassAmount) ≤ (i.val : ℚ) →
              (r.1.allPassFilters i).memory = (st.allPassFilters i).memory := by
  constructor
  · intro st0
    obtain ⟨a1, _⟩ := assignAll_spec
      (ops.makeAllPass sampleRate
        (ops.paramGetRaw (ops.paramPrepareToPlay st0.allPassFrequency sampleRate samplesPerBlock))
        (ops.paramGetRaw (ops.paramPrepareToPlay st0.allPassQ sampleRate samplesPerBlock)))
      { st0 with
        allPassFrequency := ops.paramPrepareToPlay st0.allPassFrequency sampleRate samplesPerBlock,
        allPassQ := ops.paramPrepareToPlay st0.allPassQ sampleRate samplesPerBlock,
        allPassAmount := ops.paramPrepareToPlay st0.allPassAmount sampleRate samplesPerBlock }
    obtain ⟨st1, hrun, hlog⟩ := prepareLoop_spec ops ⟨sampleRate, samplesPerBlock, 2⟩ 50
      (le_refl 50)
      (assignAll
        (ops.makeAllPass sampleRate
          (ops.paramGetRaw
            (ops.paramPrepareToPlay st0.allPassFrequency sampleRate samplesPerBlock))
          (ops.paramGetRaw (ops.paramPrepareToPlay st0.allPassQ sampleRate samplesPerBlock)))
        { st0 with
          allPassFrequency :=
            ops.paramPrepareToPlay st0.allPassFrequency sampleRate samplesPerBlock,
          allPassQ := ops.paramPrepareToPlay st0.allPassQ sampleRate samplesPerBlock,
          allPassAmount := ops.paramPrepareToPlay st0.allPassAmount sampleRate samplesPerBlock })
    obtain ⟨_, _, _, hfil⟩ := prepareLoop_filters ops ⟨sampleRate, samplesPerBlock, 2⟩ 50 _ st1
      hrun
    have hfinal : ({ st1 with oldSampleRate := sampleRate } : State γ φ π).log
        = st0.log ++ (List.range 50).map (fun i => Event.assign i
            (ops.makeAllPass sampleRate
              (ops.paramGetRaw
                (ops.paramPrepareToPlay st0.allPassFrequency sampleRate samplesPerBlock))
              (ops.paramGetRaw
                (ops.paramPrepareToPlay st0.allPassQ sampleRate samplesPerBlock))))
          ++ prepareEvents ⟨sampleRate, samplesPerBlock, 2⟩ 50 := by
      show st1.log = _
      rw [hlog, a1]
    refine ⟨{ st1 with oldSampleRate := sampleRate }, _, ?_, hfinal, ?_, rfl, ?_, rfl⟩
    · simp only [prepareToPlay, hrun, Option.map_some']
    · intro i hi
      rw [hfinal]
      obtain ⟨m1, m2⟩ := mem_prepareEvents (γ := γ) ⟨sampleRate, samplesPerBlock, 2⟩ 50 i hi
      refine ⟨?_, List.mem_append_right _ m1, List.mem_append_right _ m2⟩
      apply List.mem_append_left
      apply List.mem_append_right
      exact List.mem_map.mpr ⟨i, List.mem_range.mpr hi, rfl⟩
    · intro i
      obtain ⟨f1, f2⟩ := hfil i
      obtain ⟨g1, g2⟩ := assignAll_filters
        (ops.makeAllPass sampleRate
          (ops.paramGetRaw
            (ops.paramPrepareToPlay st0.allPassFrequency sampleRate samplesPerBlock))
          (ops.paramGetRaw (ops.paramPrepareToPlay st0.allPassQ sampleRate samplesPerBlock)))
        { st0 with
          allPassFrequency :=
            ops.paramPrepareToPlay st0.allPassFrequency sampleRate samplesPerBlock,
          allPassQ := ops.paramPrepareToPlay st0.allPassQ sampleRate samplesPerBlock,
          allPassAmount := ops.paramPrepareToPlay st0.allPassAmount sampleRate samplesPerBlock }
        i
      rw [if_pos i.isLt] at f2
      constructor
      · show (st1.allPassFilters i).state = _
        rw [f1, g1]
      · show (st1.allPassFilters i).memory = _
        rw [f2, g2]
  · have hceil : ⌈ops.paramGetRaw (ops.paramUpdate st.allPassAmount)⌉ ≤ 50 :=
      Int.ceil_le.mpr (by exact_mod_cast h50)
    have hn : Int.toNat ⌈ops.paramGetRaw (ops.paramUpdate st.allPassAmount)⌉ ≤ 50 := by omega
    obtain ⟨r, hrun, hlog, _⟩ := processBlock_spec ops st block hn
    rw [List.append_assoc] at hlog
    refine ⟨r, _, hrun, hlog, ?_, ?_⟩
    · intro i hi
      have hmem : i ∈ List.range
          (Int.toNat ⌈ops.paramGetRaw (ops.paramUpdate st.allPassAmount)⌉) := by
        rcases List.mem_append.mp hi with hi | hi
        · split_ifs at hi
          · obtain ⟨j, _, hj⟩ := List.mem_map.mp hi
            exact absurd hj (by simp)
          · exact absurd hi (List.not_mem_nil _)
        · obtain ⟨j, hj, hji⟩ := List.mem_map.mp hi
          have : j = i := by
            injection hji
          rw [← this]
          exact hj
      have hlt := List.mem_range.mp hmem
      have h1 : (i : Int) < ⌈ops.paramGetRaw (ops.paramUpdate st.allPassAmount)⌉ := by omega
      have h2 := Int.lt_ceil.mp h1
      exact ⟨by exact_mod_cast h2, by omega⟩
    · intro i hi
      have hge : Int.toNat ⌈ops.paramGetRaw (ops.paramUpdate st.allPassAmount)⌉ ≤ i.val := by
        have h1 : ⌈ops.paramGetRaw (ops.paramUpdate st.allPassAmount)⌉ ≤ (i.val : Int) :=
          Int.ceil_le.mpr (by exact_mod_cast hi)
        omega
      by_cases hch : st.oldAllPassFreq ≠ ops.paramGetRaw (ops.paramUpdate st.allPassFrequency)
          ∨ st.oldAllPassQ ≠ ops.paramGetRaw (ops.paramUpdate st.allPassQ)
          ∨ st.oldAllPassAmount ≠ ops.paramGetRaw (ops.paramUpdate st.allPassAmount)
      · obtain ⟨_, _, _, _, _, _, a7, _⟩ := assignAll_spec
          (ops.makeAllPass st.oldSampleRate
            (ops.paramGetRaw (ops.paramUpdate st.allPassFrequency))
            (ops.paramGetRaw (ops.paramUpdate st.allPassQ)))
          { st with allPassAmount := ops.paramUpdate st.allPassAmount,
                    allPassFrequency := ops.paramUpdate st.allPassFrequency,
                    allPassQ := ops.paramUpdate st.allPassQ }
        simp only [processBlock, if_pos hch, a7] at hrun
        have hkeep := stageLoop_untouched ops _ _ 0 _ r (Nat.zero_add _) hrun i (Or.inr hge)
        rw [hkeep]
        exact (assignAll_filters _ _ i).2
      · simp only [processBlock, if_neg hch] at hrun
        have hkeep := stageLoop_untouched ops _ _ 0 _ r (Nat.zero_add _) hrun i (Or.inr hge)
        rw [hkeep]

theorem prepareToPlay_all_stages_processBlock_in_range_witness :
    (∀ st0 : State (ℚ × ℚ × ℚ) Unit ℚ, ∃ st' c,
        prepareToPlay plainOps st0 48000 256 = some st'
        ∧ st'.log = st0.log ++ (List.range 50).map (fun i => Event.assign i c)
            ++ prepareEvents ⟨48000, 256, 2⟩ 50
        ∧ (∀ i, i < 50 → Event.assign i c ∈ st'.log
            ∧ Event.prepare i ⟨48000, 256, 2⟩ ∈ st'.log
            ∧ Event.reset i ∈ st'.log)
        ∧ c = plainOps.makeAllPass 48000
            (plainOps.paramGetRaw (plainOps.paramPrepareToPlay st0.allPassFrequency 48000 256))
            (plainOps.paramGetRaw (plainOps.paramPrepareToPlay st0.allPassQ 48000 256))
        ∧ (∀ i : Fin 50, (st'.allPassFilters i).state = c
            ∧ (st'.allPassFilters i).memory
                = plainOps.filterReset (plainOps.filterPrepare (st0.allPassFilters i).memory
                    ⟨48000, 256, 2⟩))
        ∧ st'.oldSampleRate = 48000)
      ∧ ∃ r new, processBlock plainOps (freshChain 85 (2 / 5) 50) MBComp.rampBlock = some r
          ∧ r.1.log = (freshChain 85 (2 / 5) 50).log ++ new
          ∧ (∀ i, Event.process i ∈ new →
              (i : ℚ) < plainOps.paramGetRaw
                (plainOps.paramUpdate (freshChain 85 (2 / 5) 50).allPassAmount) ∧ i < 50)
          ∧ ∀ i : Fin 50, plainOps.paramGetRaw
                (plainOps.paramUpdate (freshChain 85 (2 / 5) 50).allPassAmount) ≤ (i.val : ℚ) →
              (r.1.allPassFilters i).memory
                = ((freshChain 85 (2 / 5) 50).allPassFilters i).memory :=
  prepareToPlay_all_stages_processBlock_in_range plainOps (freshChain 85 (2 / 5) 50)
    MBComp.rampBlock 48000 256 (show (0 : ℚ) ≤ 50 by norm_num) (show (50 : ℚ) ≤ 50 by norm_num)

end AllPassChain

namespace Parameters

/-! ## The parameter layout -/

/-- C21: every parameter declared in `createParameterLayout` has its default inside its
declared range (`min ≤ default ≤ max` for each float and int parameter, default index 0
for each categorical parameter); the oversampling factor is the one integer parameter,
declared with minimum 0, maximum 2 and default 0, so its values are exactly 0, 1 and 2. -/
theorem createParameterLayout_defaults_in_range :
    (∀ p ∈ createParameterLayout, p.defaultInRange)
      ∧ createParameterLayout.length = 70
      ∧ createParameterLayout.filterMap ParamDecl.intValues = [(0, 2)]
      ∧ ParamDecl.int "oversamplingFactor" "Oversampling Factor" 0 2 0 ∈ createParameterLayout
      ∧ ∀ z : Int, (0 ≤ z ∧ z ≤ 2) ↔ (z = 0 ∨ z = 1 ∨ z = 2) := by
  refine ⟨?_, rfl, rfl, ?_, ?_⟩
  · simp only [createParameterLayout, List.forall_mem_cons, ParamDecl.defaultInRange,
      makeRange, List.not_mem_nil, false_implies, implies_true, and_true]
    norm_num
  · simp [createParameterLayout]
  · intro z
    omega

end Parameters

namespace Curves

/-! ## Monotonicity of the compressor curve -/

/-- For `ratio ≥ 1` and a positive knee width every branch slope of the compressor curve is
non-negative: 1 below the knee, `1/ratio` above it, and between the two inside the knee. -/
theorem compressorSlope_nonneg (threshold ratio kneeWidth x : ℝ) (hr : 1 ≤ ratio)
    (hk : 0 < kneeWidth) : 0 ≤ compressorSlope x threshold ratio kneeWidth := by
  have hrpos : 0 < ratio := lt_of_lt_of_le zero_lt_one hr
  have hinv0 : 0 < 1 / ratio := div_pos one_pos hrpos
  have hinv1 : 1 / ratio ≤ 1 := by
    rw [div_le_one hrpos]
    exact hr
  unfold compressorSlope
  split_ifs with h1 h2
  · exact zero_le_one
  · exact le_of_lt hinv0
  · have hu0 : 0 ≤ (x - threshold + kneeWidth / 2) / kneeWidth :=
      div_nonneg (by linarith) (le_of_lt hk)
    have hu1 : (x - threshold + kneeWidth / 2) / kneeWidth ≤ 1 := by
      rw [div_le_one hk]
      linarith
    have hassoc : (1 / ratio - 1) * (x - threshold + kneeWidth / 2) / kneeWidth
        = (1 / ratio - 1) * ((x - threshold + kneeWidth / 2) / kneeWidth) := by
      rw [mul_div_assoc]
    rw [hassoc]
    nlinarith

/-- With exact arithmetic on the reals, for `ratio ≥ 1` and `kneeWidth > 0`, the dB-domain
output of the compressor curve is a monotonically non-decreasing function of `input_db`
across all three branches. -/
theorem compressorOutput_monotone_real (threshold ratio kneeWidth : ℝ) (hr : 1 ≤ ratio)
    (hk : 0 < kneeWidth) :
    Monotone (fun x : ℝ => compressorOutput x threshold ratio kneeWidth)
      ∧ ∀ x y : ℝ, x ≤ y →
          compressorOutput x threshold ratio kneeWidth
            ≤ compressorOutput y threshold ratio kneeWidth := by
  have hdiff : Differentiable ℝ (fun x : ℝ => compressorOutput x threshold ratio kneeWidth) :=
    fun x => (compressorOutput_hasDerivAt threshold ratio kneeWidth hk x).differentiableAt
  have hderiv : ∀ x, 0 ≤ deriv (fun x : ℝ => compressorOutput x threshold ratio kneeWidth) x := by
    intro x
    rw [(compressorOutput_hasDerivAt threshold ratio kneeWidth hk x).deriv]
    exact compressorSlope_nonneg threshold ratio kneeWidth x hr hk
  have hmono := monotone_of_deriv_nonneg hdiff hderiv
  exact ⟨hmono, fun x y hxy => hmono hxy⟩

end Curves

namespace Curves

/-! ## The branches of the upward/downward curve -/

/-- The output of `computeUpwardsDownwardsGain` is the expression of the branch it takes. -/
theorem upwardsDownwardsOutput_of_branch {α : Type} [LinearOrderedField α]
    (x upperThres lowerThres upperR lowerR knee : α) :
    upwardsDownwardsOutput x upperThres lowerThres upperR lowerR knee
      = if upwardsDownwardsBranch x upperThres lowerThres knee = 1 then
          upperThres + (x - upperThres) / upperR
        else if upwardsDownwardsBranch x upperThres lowerThres knee = 2 then
          upperKnee x upperThres upperR knee
        else if upwardsDownwardsBranch x upperThres lowerThres knee = 3 then
          clampLowerThres upperThres lowerThres knee
            + (x - clampLowerThres upperThres lowerThres knee) / lowerR
        else if upwardsDownwardsBranch x upperThres lowerThres knee = 4 then
          x + ((1 / lowerR - 1)
            * (x - clampLowerThres upperThres lowerThres knee + knee / 2) ^ 2) / (2 * knee)
        else
          x := by
  unfold upwardsDownwardsOutput upwardsDownwardsBranch
  by_cases h1 : 2 * (x - upperThres) > knee
  · simp only [if_pos h1, if_true]
  · by_cases h2 : 2 * |x - clampLowerThres upperThres lowerThres knee| > knee
    · simp only [if_neg h1, if_pos h2, if_true, OfNat.ofNat_ne_one, if_false]
    · by_cases h3 : 2 * boolToNum (x < clampLowerThres upperThres lowerThres knee) - knee
          ≠ (0 : α)
      · simp only [if_neg h1, if_neg h2, if_pos h3, if_true, OfNat.ofNat_ne_one, if_false,
          Nat.reduceEqDiff]
      · by_cases h4 : 2 * boolToNum (x > upperThres) + knee ≠ (0 : α)
        · simp only [if_neg h1, if_neg h2, if_neg h3, if_pos h4, if_true,
            OfNat.ofNat_ne_one, if_false, Nat.reduceEqDiff]
        · simp only [if_neg h1, if_neg h2, if_neg h3, if_neg h4, if_true,
            OfNat.ofNat_ne_one, if_false, Nat.reduceEqDiff]

/-- C23: for `knee > 0` with `knee ≠ 2`, `computeUpwardsDownwardsGain` never takes its
fourth branch or its final pass-through branch, because the third test
`2·(x < lowerThres) − knee` is a non-zero number.  With `L` the clamped lower threshold
the output is `upperThres + (x − upperThres)/upperR` when `2·(x − upperThres) > knee`,
else the upper-knee polynomial when `2·|x − L| > knee`, else `L + (x − L)/lowerR`. -/
theorem upwardsDownwards_three_cases {α : Type} [LinearOrderedField α]
    (x upperThres lowerThres upperR lowerR knee : α) (hk : 0 < knee) (hk2 : knee ≠ 2) :
    upwardsDownwardsBranch x upperThres lowerThres knee ≠ 4
      ∧ upwardsDownwardsBranch x upperThres lowerThres knee ≠ 5
      ∧ upwardsDownwardsOutput x upperThres lowerThres upperR lowerR knee
        = (if 2 * (x - upperThres) > knee then
            upperThres + (x - upperThres) / upperR
          else if 2 * |x - clampLowerThres upperThres lowerThres knee| > knee then
            x + (1 / upperR - 1) * (x - upperThres + knee / 2) ^ 2 / (2 * knee)
          else
            clampLowerThres upperThres lowerThres knee
              + (x - clampLowerThres upperThres lowerThres knee) / lowerR) := by
  have h3 : 2 * boolToNum (x < clampLowerThres upperThres lowerThres knee) - knee ≠ (0 : α) := by
    unfold boolToNum
    by_cases hx : x < clampLowerThres upperThres lowerThres knee
    · rw [if_pos hx]
      intro h
      apply hk2
      linarith
    · rw [if_neg hx]
      intro h
      linarith
  refine ⟨?_, ?_, ?_⟩
  · unfold upwardsDownwardsBranch
    simp only [if_pos h3]
    split_ifs <;> omega
  · unfold upwardsDownwardsBranch
    simp only [if_pos h3]
    split_ifs <;> omega
  · unfold upwardsDownwardsOutput
    simp only [if_pos h3, upperKnee]

/-- The restriction `knee ≠ 2` is needed: with `knee = 2` an input inside the lower knee
window and below the lower threshold makes the third test zero, and the fourth branch is
taken. -/
theorem upwardsDownwardsBranch_knee_two :
    upwardsDownwardsBranch (-21 / 2 : ℚ) 10 (-10) 2 = 4 := by
  have hL : clampLowerThres (10 : ℚ) (-10) 2 = -10 := clampLowerThres_of_lt _ _ _ (by norm_num)
  have habs : |(-21 / 2 : ℚ) - -10| = 1 / 2 := by
    rw [abs_of_neg (by norm_num)]
    norm_num
  have h1 : ¬ (2 * ((-21 / 2 : ℚ) - 10) > 2) := by norm_num
  have h2 : ¬ (2 * |(-21 / 2 : ℚ) - -10| > 2) := by
    rw [habs]
    norm_num
  have hlt : (-21 / 2 : ℚ) < -10 := by norm_num
  have hgt : ¬ ((-21 / 2 : ℚ) > 10) := by norm_num
  have h3 : ¬ (2 * boolToNum ((-21 / 2 : ℚ) < -10) - 2 ≠ (0 : ℚ)) := by
    simp only [boolToNum, if_pos hlt]
    norm_num
  have h4 : 2 * boolToNum ((-21 / 2 : ℚ) > 10) + 2 ≠ (0 : ℚ) := by
    simp only [boolToNum, if_neg hgt]
    norm_num
  simp only [upwardsDownwardsBranch, hL, if_neg h1, if_neg h2, if_neg h3, if_pos h4]

theorem upwardsDownwards_three_cases_witness :
    upwardsDownwardsBranch (-10 : ℚ) 10 (-10) 1 ≠ 4
      ∧ upwardsDownwardsBranch (-10 : ℚ) 10 (-10) 1 ≠ 5
      ∧ upwardsDownwardsOutput (-10 : ℚ) 10 (-10) 2 3 1
        = (if 2 * ((-10 : ℚ) - 10) > 1 then
            10 + (-10 - 10) / 2
          else if 2 * |(-10 : ℚ) - clampLowerThres 10 (-10) 1| > 1 then
            -10 + (1 / 2 - 1) * (-10 - 10 + 1 / 2) ^ 2 / (2 * 1)
          else
            clampLowerThres 10 (-10) 1 + (-10 - clampLowerThres 10 (-10) 1) / 3) :=
  upwardsDownwards_three_cases (-10 : ℚ) 10 (-10) 2 3 1 (by norm_num) (by norm_num)

end Curves

namespace MBComp

/-! ## Band-buffer accesses of the multiband splitter -/

/-- An access to a buffer has a value exactly when its channel and sample index are inside
the buffer. -/
theorem access_isSome_iff {α : Type} (b : AudioBuffer α) (channel sample : Nat) (v : α) :
    ((b.getSample channel sample).isSome ↔ channel < b.numChannels ∧ sample < b.numSamples)
      ∧ ((b.setSample channel sample v).isSome
          ↔ channel < b.numChannels ∧ sample < b.numSamples) := by
  constructor
  · unfold AudioBuffer.getSample
    split_ifs with h
    · simp [h]
    · simp [h]
  · unfold AudioBuffer.setSample
    split_ifs with h
    · simp [h]
    · simp [h]

/-- C24: after `MBComp::prepare` with maximum block size `M` the three band buffers have 2
channels and `M` samples; on a stereo block of `n ≤ M` samples `processBlock` succeeds,
that is, every band-buffer read and write it performs has a value, which an access has
exactly when its channel index is 0 or 1 and its sample index is below `M`; the band
buffers keep their size.  The band compressors work in place and keep the size of the
buffer they are given. -/
theorem processBlock_band_accesses_in_range {σ κ π α : Type} [Field α] (ops : Ops σ κ π α)
    (st : State σ κ π α) (spec : ProcessSpec) (block : AudioBuffer α)
    (hbc : 2 ≤ block.numChannels) (hn : block.numSamples ≤ spec.maximumBlockSize)
    (hsize : ∀ k b, (ops.compressorProcessBlock k b).2.numChannels = b.numChannels
      ∧ (ops.compressorProcessBlock k b).2.numSamples = b.numSamples) :
    ((prepare ops st spec).lowBuffer.numChannels = 2
        ∧ (prepare ops st spec).lowBuffer.numSamples = spec.maximumBlockSize
        ∧ (prepare ops st spec).midBuffer.numChannels = 2
        ∧ (prepare ops st spec).midBuffer.numSamples = spec.maximumBlockSize
        ∧ (prepare ops st spec).highBuffer.numChannels = 2
        ∧ (prepare ops st spec).highBuffer.numSamples = spec.maximumBlockSize)
      ∧ (∀ c i (v : α),
          (((prepare ops st spec).lowBuffer.getSample c i).isSome
              ↔ c < 2 ∧ i < spec.maximumBlockSize)
          ∧ (((prepare ops st spec).lowBuffer.setSample c i v).isSome
              ↔ c < 2 ∧ i < spec.maximumBlockSize)
          ∧ (((prepare ops st spec).midBuffer.getSample c i).isSome
              ↔ c < 2 ∧ i < spec.maximumBlockSize)
          ∧ (((prepare ops st spec).midBuffer.setSample c i v).isSome
              ↔ c < 2 ∧ i < spec.maximumBlockSize)
          ∧ (((prepare ops st spec).highBuffer.getSample c i).isSome
              ↔ c < 2 ∧ i < spec.maximumBlockSize)
          ∧ (((prepare ops st spec).highBuffer.setSample c i v).isSome
              ↔ c < 2 ∧ i < spec.maximumBlockSize))
      ∧ ∃ st' out, processBlock ops (prepare ops st spec) block = some (st', out)
          ∧ st'.lowBuffer.numChannels = 2
          ∧ st'.lowBuffer.numSamples = spec.maximumBlockSize
          ∧ st'.midBuffer.numChannels = 2
          ∧ st'.midBuffer.numSamples = spec.maximumBlockSize
          ∧ st'.highBuffer.numChannels = 2
          ∧ st'.highBuffer.numSamples = spec.maximumBlockSize
          ∧ out.numChannels = block.numChannels
          ∧ out.numSamples = block.numSamples := by
  refine ⟨⟨rfl, rfl, rfl, rfl, rfl, rfl⟩, ?_, ?_⟩
  · intro c i v
    exact ⟨(access_isSome_iff (prepare ops st spec).lowBuffer c i v).1,
      (access_isSome_iff (prepare ops st spec).lowBuffer c i v).2,
      (access_isSome_iff (prepare ops st spec).midBuffer c i v).1,
      (access_isSome_iff (prepare ops st spec).midBuffer c i v).2,
      (access_isSome_iff (prepare ops st spec).highBuffer c i v).1,
      (access_isSome_iff (prepare ops st spec).highBuffer c i v).2⟩
  · obtain ⟨st1, hrun, h1, h2, h3, h4, h5, h6, _, _⟩ :=
      splitLoop_spec ops block
        { prepare ops st spec with
          attack := ops.paramUpdate (prepare ops st spec).attack,
          release := ops.paramUpdate (prepare ops st spec).release,
          makeup := ops.paramUpdate (prepare ops st spec).makeup,
          ratio := ops.paramUpdate (prepare ops st spec).ratio,
          threshold := ops.paramUpdate (prepare ops st spec).threshold }
        hbc (le_refl 2) hn (le_refl 2) hn (le_refl 2) hn block.numSamples (le_refl _)
    have e1 : st1.lowBuffer.numChannels = 2 := h1
    have e2 : st1.lowBuffer.numSamples = spec.maximumBlockSize := h2
    have e3 : st1.midBuffer.numChannels = 2 := h3
    have e4 : st1.midBuffer.numSamples = spec.maximumBlockSize := h4
    have e5 : st1.highBuffer.numChannels = 2 := h5
    have e6 : st1.highBuffer.numSamples = spec.maximumBlockSize := h6
    have c1 : (compressBands ops st1).lowBuffer.numChannels = 2 := by
      rw [← e1]
      exact (hsize _ _).1
    have c2 : (compressBands ops st1).lowBuffer.numSamples = spec.maximumBlockSize := by
      rw [← e2]
      exact (hsize _ _).2
    have c3 : (compressBands ops st1).midBuffer.numChannels = 2 := by
      rw [← e3]
      exact (hsize _ _).1
    have c4 : (compressBands ops st1).midBuffer.numSamples = spec.maximumBlockSize := by
      rw [← e4]
      exact (hsize _ _).2
    have c5 : (compressBands ops st1).highBuffer.numChannels = 2 := by
      rw [← e5]
      exact (hsize _ _).1
    have c6 : (compressBands ops st1).highBuffer.numSamples = spec.maximumBlockSize := by
      rw [← e6]
      exact (hsize _ _).2
    obtain ⟨out, hsum, o1, o2, _, _⟩ := sumLoop_spec ops (compressBands ops st1) block hbc
      (by omega) (by omega) (by omega) (by omega) (by omega) (by omega)
      block.numSamples (le_refl _)
    have hsum2 : sumBands ops (compressBands ops st1) block = some out := hsum
    have hrun2 : splitBands ops block
        { prepare ops st spec with
          attack := ops.paramUpdate (prepare ops st spec).attack,
          release := ops.paramUpdate (prepare ops st spec).release,
          makeup := ops.paramUpdate (prepare ops st spec).makeup,
          ratio := ops.paramUpdate (prepare ops st spec).ratio,
          threshold := ops.paramUpdate (prepare ops st spec).threshold } = some st1 := hrun
    refine ⟨compressBands ops st1, out, ?_, c1, c2, c3, c4, c5, c6, o1, o2⟩
    simp only [processBlock, Option.bind_eq_bind, hrun2, Option.some_bind, hsum2,
      Option.pure_def]

theorem processBlock_band_accesses_in_range_witness :
    ((prepare unityOps freshState smallSpec).lowBuffer.numChannels = 2
        ∧ (prepare unityOps freshState smallSpec).lowBuffer.numSamples
          = smallSpec.maximumBlockSize
        ∧ (prepare unityOps freshState smallSpec).midBuffer.numChannels = 2
        ∧ (prepare unityOps freshState smallSpec).midBuffer.numSamples
          = smallSpec.maximumBlockSize
        ∧ (prepare unityOps freshState smallSpec).highBuffer.numChannels = 2
        ∧ (prepare unityOps freshState smallSpec).highBuffer.numSamples
          = smallSpec.maximumBlockSize)
      ∧ (∀ c i (v : ℚ),
          (((prepare unityOps freshState smallSpec).lowBuffer.getSample c i).isSome
              ↔ c < 2 ∧ i < smallSpec.maximumBlockSize)
          ∧ (((prepare unityOps freshState smallSpec).lowBuffer.setSample c i v).isSome
              ↔ c < 2 ∧ i < smallSpec.maximumBlockSize)
          ∧ (((prepare unityOps freshState smallSpec).midBuffer.getSample c i).isSome
              ↔ c < 2 ∧ i < smallSpec.maximumBlockSize)
          ∧ (((prepare unityOps freshState smallSpec).midBuffer.setSample c i v).isSome
              ↔ c < 2 ∧ i < smallSpec.maximumBlockSize)
          ∧ (((prepare unityOps freshState smallSpec).highBuffer.getSample c i).isSome
              ↔ c < 2 ∧ i < smallSpec.maximumBlockSize)
          ∧ (((prepare unityOps freshState smallSpec).highBuffer.setSample c i v).isSome
              ↔ c < 2 ∧ i < smallSpec.maximumBlockSize))
      ∧ ∃ st' out, processBlock unityOps (prepare unityOps freshState smallSpec) rampBlock
            = some (st', out)
          ∧ st'.lowBuffer.numChannels = 2
          ∧ st'.lowBuffer.numSamples = smallSpec.maximumBlockSize
          ∧ st'.midBuffer.numChannels = 2
          ∧ st'.midBuffer.numSamples = smallSpec.maximumBlockSize
          ∧ st'.highBuffer.numChannels = 2
          ∧ st'.highBuffer.numSamples = smallSpec.maximumBlockSize
          ∧ out.numChannels = rampBlock.numChannels
          ∧ out.numSamples = rampBlock.numSamples :=
  processBlock_band_accesses_in_range unityOps freshState smallSpec rampBlock
    (by decide) (by decide) (fun _ _ => ⟨rfl, rfl⟩)

/-- The bound is live: with room for only 2 samples per band buffer, a block of 3 samples
makes `processBlock` write to sample index 2, which has no value. -/
theorem processBlock_block_longer_than_buffers :
    processBlock unityOps (prepare unityOps freshState ⟨44100, 2, 2⟩) rampBlock = none := by
  rfl

end MBComp

namespace Curves

/-! ## The compressor curve in binary floating point -/

/-- The compressed line of `compressorOutputFloat`, operation by operation. -/
theorem compressorOutputFloat_above_steps (x T R W d dd q o : ℚ)
    (hd : Binary.fl32 (x - T) = d) (hdd : Binary.fl32 (2 * d) = dd)
    (h1 : ¬ dd < -W) (h2 : dd > W)
    (hq : Binary.fl32 (d / R) = q) (ho : Binary.fl32 (T + q) = o) :
    compressorOutputFloat x T R W = o := by
  simp only [compressorOutputFloat, hd, hdd, if_neg h1, if_pos h2, hq, ho]

/-- The knee branch of `compressorOutputFloat`, operation by operation. -/
theorem compressorOutputFloat_knee_steps (x T R W d dd r c h u p cp w t s o : ℚ)
    (hd : Binary.fl32 (x - T) = d) (hdd : Binary.fl32 (2 * d) = dd)
    (h1 : ¬ dd < -W) (h2 : ¬ dd > W)
    (hr : Binary.fl32 (1 / R) = r) (hc : Binary.fl32 (r - 1) = c)
    (hh : Binary.fl32 (W / 2) = h) (hu : Binary.fl32 (d + h) = u)
    (hp : Binary.fl64 (u ^ 2) = p) (hcp : Binary.fl64 (c * p) = cp)
    (hw : Binary.fl32 (2 * W) = w) (ht : Binary.fl64 (cp / w) = t)
    (hs : Binary.fl64 (x + t) = s) (ho : Binary.fl32 s = o) :
    compressorOutputFloat x T R W = o := by
  simp only [compressorOutputFloat, hd, hdd, if_neg h1, if_neg h2, hr, hc, hh, hu, hp, hcp,
    hw, ht, hs, ho]

/-- C9 (the claim fails): the `float` nearest 0.7 as input, threshold -24 dB, ratio 1 and
knee width 0.5 dB.  The input is above the knee; the machine computes
`output = fl (-24 + fl (fl (input + 24) / 1))`, which is 0.7000007629394531 and exceeds the
input: the gain change `output - input_db` is `13 / 2 ^ 24` dB, about 7.7e-7, not `≤ 0`,
and the returned gain exceeds 1 for every strictly increasing `decibelsToGain` with
`decibelsToGain 0 = 1`. -/
theorem computeCompressorGain_float_boosts_at_ratio_one :
    Binary.fl32 (7 / 10) = (11744051 / 16777216 : ℚ) ∧ (1 : ℚ) ≤ 1 ∧ (0 : ℚ) < 1 / 2
      ∧ compressorOutputFloat (11744051 / 16777216 : ℚ) (-24 : ℚ) (1 : ℚ) (1 / 2 : ℚ) = (183501 / 262144 : ℚ)
      ∧ gainReductionFloat (11744051 / 16777216 : ℚ) (-24 : ℚ) (1 : ℚ) (1 / 2 : ℚ) = (13 / 16777216 : ℚ)
      ∧ ¬ (gainReductionFloat (11744051 / 16777216 : ℚ) (-24 : ℚ) (1 : ℚ) (1 / 2 : ℚ) ≤ 0)
      ∧ ∀ decibelsToGain : ℚ → ℚ, StrictMono decibelsToGain → decibelsToGain 0 = 1 →
          1 < computeCompressorGainFloat decibelsToGain
                (11744051 / 16777216 : ℚ) (-24 : ℚ) (1 : ℚ) (1 / 2 : ℚ) := by
  have hx : Binary.fl32 (7 / 10) = (11744051 / 16777216 : ℚ) :=
    ((Binary.fl32_eval _ (-1) 11744051 (by norm_num) (by norm_num [le_abs])
        (by norm_num [abs_lt]) (by norm_num [abs_lt])).trans (by norm_num))
  have ho : compressorOutputFloat (11744051 / 16777216 : ℚ) (-24 : ℚ) (1 : ℚ) (1 / 2 : ℚ) = (183501 / 262144 : ℚ) :=
    compressorOutputFloat_above_steps
      (11744051 / 16777216 : ℚ)
      (-24 : ℚ)
      (1 : ℚ)
      (1 / 2 : ℚ)
      (6474957 / 262144 : ℚ)
      (6474957 / 131072 : ℚ)
      (6474957 / 262144 : ℚ)
      (183501 / 262144 : ℚ)
      ((Binary.fl32_eval _ 4 12949914 (by norm_num) (by norm_num [le_abs])
        (by norm_num [abs_lt]) (by norm_num [abs_lt])).trans (by norm_num))
      ((Binary.fl32_eval _ 5 12949914 (by norm_num) (by norm_num [le_abs])
        (by norm_num [abs_lt]) (by norm_num [abs_lt])).trans (by norm_num))
      (by norm_num) (by norm_num)
      ((Binary.fl32_eval _ 4 12949914 (by norm_num) (by norm_num [le_abs])
        (by norm_num [abs_lt]) (by norm_num [abs_lt])).trans (by norm_num))
      ((Binary.fl32_eval _ (-1) 11744064 (by norm_num) (by norm_num [le_abs])
        (by norm_num [abs_lt]) (by norm_num [abs_lt])).trans (by norm_num))
  have hg : gainReductionFloat (11744051 / 16777216 : ℚ) (-24 : ℚ) (1 : ℚ) (1 / 2 : ℚ) = (13 / 16777216 : ℚ) := by
    unfold gainReductionFloat
    rw [ho]
    exact ((Binary.fl32_eval _ (-21) 13631488 (by norm_num) (by norm_num [le_abs])
        (by norm_num [abs_lt]) (by norm_num [abs_lt])).trans (by norm_num))
  refine ⟨hx, le_refl 1, by norm_num, ho, hg, ?_, ?_⟩
  · rw [hg]
    norm_num
  · intro decibelsToGain hmono h0
    unfold computeCompressorGainFloat
    rw [hg, ← h0]
    exact hmono (by norm_num)

/-- C22 (the claim fails): threshold -1 dB, ratio 10, knee width 4 dB and the two adjacent
`float` inputs 0.7936302423477173 and 0.7936303019523621, both inside the knee.  The
machine computes the outputs -0.8254280090332031 and -0.8254281878471375: the louder input
yields the quieter output level. -/
theorem compressorOutputFloat_inverts_adjacent_inputs :
    Binary.fl32 (6657453 / 8388608 : ℚ) = (6657453 / 8388608 : ℚ)
      ∧ Binary.fl32 (13314907 / 16777216 : ℚ) = (13314907 / 16777216 : ℚ)
      ∧ (6657453 / 8388608 : ℚ) < (13314907 / 16777216 : ℚ)
      ∧ (1 : ℚ) ≤ 10 ∧ (0 : ℚ) < 4
      ∧ compressorOutputFloat (6657453 / 8388608 : ℚ) (-1 : ℚ) (10 : ℚ) (4 : ℚ)
          = (-216381 / 262144 : ℚ)
      ∧ compressorOutputFloat (13314907 / 16777216 : ℚ) (-1 : ℚ) (10 : ℚ) (4 : ℚ)
          = (-13848387 / 16777216 : ℚ)
      ∧ (-13848387 / 16777216 : ℚ) < (-216381 / 262144 : ℚ) := by
  have h1 : compressorOutputFloat (6657453 / 8388608 : ℚ) (-1 : ℚ) (10 : ℚ) (4 : ℚ)
      = (-216381 / 262144 : ℚ) :=
    compressorOutputFloat_knee_steps
      (6657453 / 8388608 : ℚ)
      (-1 : ℚ)
      (10 : ℚ)
      (4 : ℚ)
      (15046061 / 8388608 : ℚ)
      (15046061 / 4194304 : ℚ)
      (13421773 / 134217728 : ℚ)
      (-7549747 / 8388608 : ℚ)
      (2 : ℚ)
      (7955819 / 2097152 : ℚ)
      (63295055960761 / 4398046511104 : ℚ)
      (-3645795126759243 / 281474976710656 : ℚ)
      (8 : ℚ)
      (-3645795126759243 / 2251799813685248 : ℚ)
      (-1858698694905675 / 2251799813685248 : ℚ)
      (-216381 / 262144 : ℚ)
      ((Binary.fl32_eval _ 0 15046061 (by norm_num) (by norm_num [le_abs])
        (by norm_num [abs_lt]) (by norm_num [abs_lt])).trans (by norm_num))
      ((Binary.fl32_eval _ 1 15046061 (by norm_num) (by norm_num [le_abs])
        (by norm_num [abs_lt]) (by norm_num [abs_lt])).trans (by norm_num))
      (by norm_num) (by norm_num)
      ((Binary.fl32_eval _ (-4) 13421773 (by norm_num) (by norm_num [le_abs])
        (by norm_num [abs_lt]) (by norm_num [abs_lt])).trans (by norm_num))
      ((Binary.fl32_eval _ (-1) (-15099494) (by norm_num) (by norm_num [le_abs])
        (by norm_num [abs_lt]) (by norm_num [abs_lt])).trans (by norm_num))
      ((Binary.fl32_eval _ 1 8388608 (by norm_num) (by norm_num [le_abs])
        (by norm_num [abs_lt]) (by norm_num [abs_lt])).trans (by norm_num))
      ((Binary.fl32_eval_tie _ 1 15911638 (by norm_num) (by norm_num [le_abs])
        (by norm_num [abs_lt]) (by norm_num) (by norm_num)).trans (by norm_num))
      ((Binary.fl64_eval _ 3 8101767162977408 (by norm_num) (by norm_num [le_abs])
        (by norm_num [abs_lt]) (by norm_num [abs_lt])).trans (by norm_num))
      ((Binary.fl64_eval _ 3 (-7291590253518486) (by norm_num) (by norm_num [le_abs])
        (by norm_num [abs_lt]) (by norm_num [abs_lt])).trans (by norm_num))
      ((Binary.fl32_eval _ 3 8388608 (by norm_num) (by norm_num [le_abs])
        (by norm_num [abs_lt]) (by norm_num [abs_lt])).trans (by norm_num))
      ((Binary.fl64_eval _ 0 (-7291590253518486) (by norm_num) (by norm_num [le_abs])
        (by norm_num [abs_lt]) (by norm_num [abs_lt])).trans (by norm_num))
      ((Binary.fl64_eval _ (-1) (-7434794779622700) (by norm_num) (by norm_num [le_abs])
        (by norm_num [abs_lt]) (by norm_num [abs_lt])).trans (by norm_num))
      ((Binary.fl32_eval _ (-1) (-13848384) (by norm_num) (by norm_num [le_abs])
        (by norm_num [abs_lt]) (by norm_num [abs_lt])).trans (by norm_num))
  have h2 : compressorOutputFloat (13314907 / 16777216 : ℚ) (-1 : ℚ) (10 : ℚ) (4 : ℚ)
      = (-13848387 / 16777216 : ℚ) :=
    compressorOutputFloat_knee_steps
      (13314907 / 16777216 : ℚ)
      (-1 : ℚ)
      (10 : ℚ)
      (4 : ℚ)
      (7523031 / 4194304 : ℚ)
      (7523031 / 2097152 : ℚ)
      (13421773 / 134217728 : ℚ)
      (-7549747 / 8388608 : ℚ)
      (2 : ℚ)
      (15911639 / 4194304 : ℚ)
      (253180255666321 / 17592186044416 : ℚ)
      (-7291591170028839 / 562949953421312 : ℚ)
      (8 : ℚ)
      (-7291591170028839 / 4503599627370496 : ℚ)
      (-3717398037886247 / 4503599627370496 : ℚ)
      (-13848387 / 16777216 : ℚ)
      ((Binary.fl32_eval_tie _ 0 15046062 (by norm_num) (by norm_num [le_abs])
        (by norm_num [abs_lt]) (by norm_num) (by norm_num)).trans (by norm_num))
      ((Binary.fl32_eval _ 1 15046062 (by norm_num) (by norm_num [le_abs])
        (by norm_num [abs_lt]) (by norm_num [abs_lt])).trans (by norm_num))
      (by norm_num) (by norm_num)
      ((Binary.fl32_eval _ (-4) 13421773 (by norm_num) (by norm_num [le_abs])
        (by norm_num [abs_lt]) (by norm_num [abs_lt])).trans (by norm_num))
      ((Binary.fl32_eval _ (-1) (-15099494) (by norm_num) (by norm_num [le_abs])
        (by norm_num [abs_lt]) (by norm_num [abs_lt])).trans (by norm_num))
      ((Binary.fl32_eval _ 1 8388608 (by norm_num) (by norm_num [le_abs])
        (by norm_num [abs_lt]) (by norm_num [abs_lt])).trans (by norm_num))
      ((Binary.fl32_eval _ 1 15911639 (by norm_num) (by norm_num [le_abs])
        (by norm_num [abs_lt]) (by norm_num [abs_lt])).trans (by norm_num))
      ((Binary.fl64_eval _ 3 8101768181322272 (by norm_num) (by norm_num [le_abs])
        (by norm_num [abs_lt]) (by norm_num [abs_lt])).trans (by norm_num))
      ((Binary.fl64_eval _ 3 (-7291591170028839) (by norm_num) (by norm_num [le_abs])
        (by norm_num [abs_lt]) (by norm_num [abs_lt])).trans (by norm_num))
      ((Binary.fl32_eval _ 3 8388608 (by norm_num) (by norm_num [le_abs])
        (by norm_num [abs_lt]) (by norm_num [abs_lt])).trans (by norm_num))
      ((Binary.fl64_eval _ 0 (-7291591170028839) (by norm_num) (by norm_num [le_abs])
        (by norm_num [abs_lt]) (by norm_num [abs_lt])).trans (by norm_num))
      ((Binary.fl64_eval _ (-1) (-7434796075772494) (by norm_num) (by norm_num [le_abs])
        (by norm_num [abs_lt]) (by norm_num [abs_lt])).trans (by norm_num))
      ((Binary.fl32_eval _ (-1) (-13848387) (by norm_num) (by norm_num [le_abs])
        (by norm_num [abs_lt]) (by norm_num [abs_lt])).trans (by norm_num))
  refine ⟨?_, ?_, by norm_num, by norm_num, by norm_num, h1, h2, by norm_num⟩
  · exact ((Binary.fl32_eval _ (-1) 13314906 (by norm_num) (by norm_num [le_abs])
        (by norm_num [abs_lt]) (by norm_num [abs_lt])).trans (by norm_num))
  · exact ((Binary.fl32_eval _ (-1) 13314907 (by norm_num) (by norm_num [le_abs])
        (by norm_num [abs_lt]) (by norm_num [abs_lt])).trans (by norm_num))

/-- A rounded value that is positive comes from a positive value, one that is negative
from a negative value. -/
theorem fl32_sign {q : ℚ} :
    (0 < Binary.fl32 q → 0 < q) ∧ (Binary.fl32 q < 0 → q < 0) := by
  constructor
  · intro h
    by_contra hq
    exact absurd (Binary.roundTo_nonpos 23 (-126) (not_lt.mp hq)) (not_le.mpr h)
  · intro h
    by_contra hq
    exact absurd (Binary.roundTo_nonneg 23 (-126) (not_lt.mp hq)) (not_le.mpr h)

/-- The quantity both tests of `computeCompressorGain` compare with the knee width, as the
machine computes it, does not decrease when the input grows. -/
theorem kneeTest_mono (T : ℚ) {x y : ℚ} (h : x ≤ y) :
    Binary.fl32 (2 * Binary.fl32 (x - T)) ≤ Binary.fl32 (2 * Binary.fl32 (y - T)) := by
  apply Binary.fl32_mono
  have := Binary.fl32_mono (show x - T ≤ y - T by linarith)
  linarith

/-- Over the pass-through and the compressed branch the machine's output does not decrease
when the input grows, for a threshold that is a `float`, a positive ratio and a
non-negative knee width. -/
theorem compressorOutputFloat_mono_outside_knee (T R W : ℚ) (hT : Binary.fl32 T = T)
    (hR : 0 < R) (hW : 0 ≤ W) (x y : ℚ) (hxy : x ≤ y)
    (hx : Binary.fl32 (2 * Binary.fl32 (x - T)) < -W
      ∨ W < Binary.fl32 (2 * Binary.fl32 (x - T)))
    (hy : Binary.fl32 (2 * Binary.fl32 (y - T)) < -W
      ∨ W < Binary.fl32 (2 * Binary.fl32 (y - T))) :
    compressorOutputFloat x T R W ≤ compressorOutputFloat y T R W := by
  have hg := kneeTest_mono T hxy
  have hd := Binary.fl32_mono (show x - T ≤ y - T by linarith)
  have habove : ∀ z : ℚ, W < Binary.fl32 (2 * Binary.fl32 (z - T)) →
      T ≤ Binary.fl32 (T + Binary.fl32 (Binary.fl32 (z - T) / R)) := by
    intro z hz
    have h1 : 0 < 2 * Binary.fl32 (z - T) := fl32_sign.1 (lt_of_le_of_lt hW hz)
    have h2 : 0 ≤ Binary.fl32 (z - T) / R := div_nonneg (by linarith) hR.le
    have h3 := Binary.roundTo_nonneg 23 (-126) h2
    have h4 := Binary.fl32_mono (show T ≤ T + Binary.fl32 (Binary.fl32 (z - T) / R) from by
      have : 0 ≤ Binary.fl32 (Binary.fl32 (z - T) / R) := h3
      linarith)
    rwa [hT] at h4
  rcases hx with hx | hx
  · have ex : compressorOutputFloat x T R W = x := by
      simp only [compressorOutputFloat, if_pos hx]
    rw [ex]
    rcases hy with hy | hy
    · have ey : compressorOutputFloat y T R W = y := by
        simp only [compressorOutputFloat, if_pos hy]
      rw [ey]
      exact hxy
    · have hny : ¬ Binary.fl32 (2 * Binary.fl32 (y - T)) < -W := by
        apply not_lt.mpr
        linarith
      have ey : compressorOutputFloat y T R W
          = Binary.fl32 (T + Binary.fl32 (Binary.fl32 (y - T) / R)) := by
        simp only [compressorOutputFloat, if_neg hny]
        rw [if_pos hy]
      rw [ey]
      have h1 : 2 * Binary.fl32 (x - T) < 0 := fl32_sign.2 (by linarith)
      have h2 : x - T < 0 := fl32_sign.2 (by linarith)
      have := habove y hy
      linarith
  · have hnx : ¬ Binary.fl32 (2 * Binary.fl32 (x - T)) < -W := by
      apply not_lt.mpr
      linarith
    have hy2 : W < Binary.fl32 (2 * Binary.fl32 (y - T)) := lt_of_lt_of_le hx hg
    have hny : ¬ Binary.fl32 (2 * Binary.fl32 (y - T)) < -W := by
      apply not_lt.mpr
      linarith
    have ex : compressorOutputFloat x T R W
        = Binary.fl32 (T + Binary.fl32 (Binary.fl32 (x - T) / R)) := by
      simp only [compressorOutputFloat, if_neg hnx]
      rw [if_pos hx]
    have ey : compressorOutputFloat y T R W
        = Binary.fl32 (T + Binary.fl32 (Binary.fl32 (y - T) / R)) := by
      simp only [compressorOutputFloat, if_neg hny]
      rw [if_pos hy2]
    rw [ex, ey]
    apply Binary.fl32_mono
    have := Binary.fl32_mono (div_le_div_of_nonneg_right hd hR.le)
    linarith

/-- C22 (amended): for every threshold, `ratio ≥ 1` and `kneeWidth > 0` the dB-domain
output of `computeCompressorGain`, as a function of real numbers, is monotonically
non-decreasing in `input_db` over all three branches; the output the machine computes in
binary floating point is non-decreasing over the pass-through and the compressed branch,
that is, for any two inputs outside the knee window (the threshold being a `float`).
Inside the knee the rounding of the machine can invert two inputs. -/
theorem compressorOutput_monotone (threshold ratio kneeWidth : ℝ) (hr : 1 ≤ ratio)
    (hk : 0 < kneeWidth) (T R W : ℚ) (hT : Binary.fl32 T = T) (hR : 1 ≤ R) (hW : 0 < W) :
    (Monotone (fun x : ℝ => compressorOutput x threshold ratio kneeWidth)
      ∧ ∀ x y : ℝ, x ≤ y →
          compressorOutput x threshold ratio kneeWidth
            ≤ compressorOutput y threshold ratio kneeWidth)
    ∧ ∀ x y : ℚ, x ≤ y →
        (Binary.fl32 (2 * Binary.fl32 (x - T)) < -W
          ∨ W < Binary.fl32 (2 * Binary.fl32 (x - T))) →
        (Binary.fl32 (2 * Binary.fl32 (y - T)) < -W
          ∨ W < Binary.fl32 (2 * Binary.fl32 (y - T))) →
        compressorOutputFloat x T R W ≤ compressorOutputFloat y T R W :=
  ⟨compressorOutput_monotone_real threshold ratio kneeWidth hr hk,
    fun x y hxy hx hy =>
      compressorOutputFloat_mono_outside_knee T R W hT (lt_of_lt_of_le zero_lt_one hR)
        hW.le x y hxy hx hy⟩

theorem compressorOutput_monotone_witness :
    (Monotone (fun x : ℝ => compressorOutput x (-24) (7 / 2) (1 / 2))
      ∧ ∀ x y : ℝ, x ≤ y →
          compressorOutput x (-24) (7 / 2) (1 / 2) ≤ compressorOutput y (-24) (7 / 2) (1 / 2))
    ∧ ∀ x y : ℚ, x ≤ y →
        (Binary.fl32 (2 * Binary.fl32 (x - (-1))) < -4
          ∨ 4 < Binary.fl32 (2 * Binary.fl32 (x - (-1)))) →
        (Binary.fl32 (2 * Binary.fl32 (y - (-1))) < -4
          ∨ 4 < Binary.fl32 (2 * Binary.fl32 (y - (-1)))) →
        compressorOutputFloat x (-1) 10 4 ≤ compressorOutputFloat y (-1) 10 4 :=
  compressorOutput_monotone (-24) (7 / 2) (1 / 2) (by norm_num) (by norm_num) (-1) 10 4
    ((Binary.fl32_eval (-1) 0 (-8388608) (by norm_num) (by norm_num [le_abs])
      (by norm_num [abs_lt]) (by norm_num [abs_lt])).trans (by norm_num))
    (by norm_num) (by norm_num)

/-- With `ratio ≥ 1`, a positive knee width and an input that is a `float`, the machine's
output is at most the input on the pass-through and the knee branch, and at most
`fl (threshold + fl (input_db − threshold))` on the compressed branch. -/
theorem compressorOutputFloat_le (x T R W : ℚ) (hx : Binary.fl32 x = x) (hR : 1 ≤ R)
    (hW : 0 < W) :
    (¬ (W < Binary.fl32 (2 * Binary.fl32 (x - T))) → compressorOutputFloat x T R W ≤ x)
      ∧ (W < Binary.fl32 (2 * Binary.fl32 (x - T)) →
          compressorOutputFloat x T R W ≤ Binary.fl32 (T + Binary.fl32 (x - T))) := by
  have hRpos : 0 < R := lt_of_lt_of_le zero_lt_one hR
  constructor
  · intro hna
    unfold compressorOutputFloat
    split_ifs with h1
    · exact le_refl x
    · have hinv : 1 / R ≤ 1 := by
        rw [div_le_one hRpos]
        exact hR
      have hc1 : Binary.fl32 (1 / R) ≤ 1 := by
        have := Binary.fl32_mono hinv
        rwa [Binary.fl32_one] at this
      have hc : Binary.fl32 (Binary.fl32 (1 / R) - 1) ≤ 0 :=
        Binary.roundTo_nonpos 23 (-126) (by linarith)
      have hp : 0 ≤ Binary.fl64 (Binary.fl32 (Binary.fl32 (x - T) + Binary.fl32 (W / 2)) ^ 2) :=
        Binary.roundTo_nonneg 52 (-1022) (sq_nonneg _)
      have hcp : Binary.fl64 (Binary.fl32 (Binary.fl32 (1 / R) - 1)
          * Binary.fl64 (Binary.fl32 (Binary.fl32 (x - T) + Binary.fl32 (W / 2)) ^ 2)) ≤ 0 :=
        Binary.roundTo_nonpos 52 (-1022) (mul_nonpos_iff.mpr (Or.inr ⟨hc, hp⟩))
      have hw : 0 ≤ Binary.fl32 (2 * W) := Binary.roundTo_nonneg 23 (-126) (by linarith)
      have ht : Binary.fl64 (Binary.fl64 (Binary.fl32 (Binary.fl32 (1 / R) - 1)
          * Binary.fl64 (Binary.fl32 (Binary.fl32 (x - T) + Binary.fl32 (W / 2)) ^ 2))
          / Binary.fl32 (2 * W)) ≤ 0 :=
        Binary.roundTo_nonpos 52 (-1022) (div_nonpos_of_nonpos_of_nonneg hcp hw)
      have hs := Binary.fl64_mono (show x + Binary.fl64 (Binary.fl64
          (Binary.fl32 (Binary.fl32 (1 / R) - 1)
            * Binary.fl64 (Binary.fl32 (Binary.fl32 (x - T) + Binary.fl32 (W / 2)) ^ 2))
          / Binary.fl32 (2 * W)) ≤ x by linarith)
      rw [Binary.fl64_of_fl32 x hx] at hs
      have ho := Binary.fl32_mono hs
      rwa [hx] at ho
  · intro ha
    have h1 : ¬ Binary.fl32 (2 * Binary.fl32 (x - T)) < -W := by
      apply not_lt.mpr
      linarith
    have e : compressorOutputFloat x T R W
        = Binary.fl32 (T + Binary.fl32 (Binary.fl32 (x - T) / R)) := by
      simp only [compressorOutputFloat, if_neg h1]
      rw [if_pos ha]
    rw [e]
    have hd : 0 < 2 * Binary.fl32 (x - T) := fl32_sign.1 (lt_trans hW ha)
    have hdiv : Binary.fl32 (x - T) / R ≤ Binary.fl32 (x - T) :=
      div_le_self (by linarith) hR
    have hq := Binary.fl32_mono hdiv
    rw [Binary.fl32_idem] at hq
    exact Binary.fl32_mono (by linarith)

/-- With a `float` ratio in `(0, 1)` and a positive knee width some `float` input above the
knee has a strictly positive computed gain change: every power of two `2 ^ (j + 24)` with
`2^26 · |threshold| + kneeWidth < 2 ^ j` is one. -/
theorem exists_expanded_input_float (T R W : ℚ) (hR0 : 0 < R) (hR1 : R < 1)
    (hRf : Binary.fl32 R = R) (hW : 0 < W) :
    ∃ x : ℚ, Binary.fl32 x = x ∧ W < Binary.fl32 (2 * Binary.fl32 (x - T))
      ∧ 0 < gainReductionFloat x T R W := by
  obtain ⟨j, hj⟩ := pow_unbounded_of_one_lt (2 ^ 26 * |T| + W) (by norm_num : (1 : ℚ) < 2)
  have hT := abs_nonneg T
  have hpj : (0 : ℚ) < 2 ^ j := by positivity
  have hx24 : (2 : ℚ) ^ (j + 23 + 1) = 2 ^ j * 2 ^ 24 := by
    rw [show j + 23 + 1 = j + 24 by omega, pow_add]
  have hx25 : (2 : ℚ) ^ (j + 23 + 1 + 1) = 2 * 2 ^ (j + 23 + 1) := by
    rw [pow_succ]
    ring
  have hxpos : (0 : ℚ) < 2 ^ (j + 23 + 1) := by positivity
  have hxbig : 2 ^ 26 * |T| + W < 2 ^ (j + 23 + 1) := by
    rw [hx24]
    nlinarith
  have hx : Binary.fl32 ((2 : ℚ) ^ (j + 23 + 1)) = 2 ^ (j + 23 + 1) :=
    Binary.fl32_two_pow (j + 23 + 1)
  have hd : Binary.fl32 ((2 : ℚ) ^ (j + 23 + 1) - T) = 2 ^ (j + 23 + 1) := by
    apply Binary.fl32_near_two_pow (j + 23)
    have : (2 : ℚ) ^ (j + 23 + 1) - T - 2 ^ (j + 23 + 1) = -T := by ring
    rw [this, abs_neg, lt_div_iff₀ (by positivity)]
    nlinarith
  have h2 : Binary.fl32 (2 * (2 : ℚ) ^ (j + 23 + 1)) = 2 * 2 ^ (j + 23 + 1) := by
    rw [← hx25]
    exact Binary.fl32_two_pow (j + 23 + 1 + 1)
  have ha : W < Binary.fl32 (2 * Binary.fl32 ((2 : ℚ) ^ (j + 23 + 1) - T)) := by
    rw [hd, h2]
    nlinarith
  have h1 : ¬ Binary.fl32 (2 * Binary.fl32 ((2 : ℚ) ^ (j + 23 + 1) - T)) < -W := by
    apply not_lt.mpr
    linarith
  have hRle := Binary.float_lt_one_le R hRf hR1
  have hq : (2 : ℚ) ^ (j + 23 + 1) * (1 + 1 / 2 ^ 23)
      ≤ Binary.fl32 (2 ^ (j + 23 + 1) / R) := by
    apply Binary.le_fl32_of_above_midpoint
    rw [lt_div_iff₀ hR0]
    have hprod : (1 + 1 / 2 ^ 24) * R < (1 : ℚ) := by
      have : (1 + 1 / 2 ^ 24) * R ≤ (1 + 1 / 2 ^ 24) * (1 - 1 / 2 ^ 24) :=
        mul_le_mul_of_nonneg_left hRle (by norm_num)
      have : (1 + 1 / 2 ^ 24) * (1 - 1 / 2 ^ 24) < (1 : ℚ) := by norm_num
      linarith
    calc (2 : ℚ) ^ (j + 23 + 1) * (1 + 1 / 2 ^ 24) * R
        = 2 ^ (j + 23 + 1) * ((1 + 1 / 2 ^ 24) * R) := by ring
      _ < 2 ^ (j + 23 + 1) * 1 := mul_lt_mul_of_pos_left hprod hxpos
      _ = 2 ^ (j + 23 + 1) := by ring
  have ho : (2 : ℚ) ^ (j + 23 + 1) * (1 + 1 / 2 ^ 23)
      ≤ Binary.fl32 (T + Binary.fl32 (2 ^ (j + 23 + 1) / R)) := by
    apply Binary.le_fl32_of_above_midpoint
    have hTlow : -|T| ≤ T := neg_abs_le T
    nlinarith
  have e : compressorOutputFloat (2 ^ (j + 23 + 1)) T R W
      = Binary.fl32 (T + Binary.fl32 (2 ^ (j + 23 + 1) / R)) := by
    simp only [compressorOutputFloat, if_neg h1]
    rw [if_pos ha, hd]
  refine ⟨2 ^ (j + 23 + 1), hx, ha, ?_⟩
  unfold gainReductionFloat
  rw [e]
  have hdiff : (2 : ℚ) ^ (j + 1)
      ≤ Binary.fl32 (T + Binary.fl32 (2 ^ (j + 23 + 1) / R)) - 2 ^ (j + 23 + 1) := by
    have : (2 : ℚ) ^ (j + 23 + 1) * (1 + 1 / 2 ^ 23) = 2 ^ (j + 23 + 1) + 2 ^ (j + 1) := by
      rw [hx24, pow_succ]
      ring
    linarith
  have hm := Binary.fl32_mono hdiff
  rw [Binary.fl32_two_pow] at hm
  have : (0 : ℚ) < 2 ^ (j + 1) := by positivity
  linarith

/-- With `0 < ratio < 1` and a positive knee width the machine's output on the compressed
branch is at least `fl (threshold + fl (input_db − threshold))`, the output for ratio 1. -/
theorem compressorOutputFloat_ge (x T R W : ℚ) (hR0 : 0 < R) (hR1 : R < 1) (hW : 0 < W)
    (ha : W < Binary.fl32 (2 * Binary.fl32 (x - T))) :
    Binary.fl32 (T + Binary.fl32 (x - T)) ≤ compressorOutputFloat x T R W := by
  have h1 : ¬ Binary.fl32 (2 * Binary.fl32 (x - T)) < -W := by
    apply not_lt.mpr
    linarith
  have e : compressorOutputFloat x T R W
      = Binary.fl32 (T + Binary.fl32 (Binary.fl32 (x - T) / R)) := by
    simp only [compressorOutputFloat, if_neg h1]
    rw [if_pos ha]
  rw [e]
  have hd : 0 < 2 * Binary.fl32 (x - T) := fl32_sign.1 (lt_trans hW ha)
  have hdiv : Binary.fl32 (x - T) ≤ Binary.fl32 (x - T) / R := by
    rw [le_div_iff₀ hR0]
    nlinarith
  have hq := Binary.fl32_mono hdiv
  rw [Binary.fl32_idem] at hq
  exact Binary.fl32_mono (by linarith)

/-- C9 (amended): for `kneeWidth > 0` and `ratio ≥ 1` the curve of
`computeCompressorGain`, as a function of real numbers, never increases level:
`output − input_db ≤ 0`, so the gain is at most 1 for a monotone `decibelsToGain` that maps
0 dB to 1; and for `0 < ratio < 1` every input above the knee, and so at least one, has a
strictly positive gain change.  In the binary floating point of the machine, for an input
that is a `float`, the gain change is `≤ 0` (and the gain `≤ 1`) on the pass-through and
the knee branch; on the compressed branch the output is at most
`fl (threshold + fl (input_db − threshold))`, so it exceeds `input_db` by at most the two
rounding errors `(|input_db − threshold| + |threshold + fl (input_db − threshold)|) / 2^24
+ 2 / 2^150`; and for every `float` ratio with `0 < ratio < 1` there is a `float` input
above the knee whose computed gain change is strictly positive, the output on the
compressed branch being at least `fl (threshold + fl (input_db − threshold))`. -/
theorem computeCompressorGain_never_boosts {α : Type} [LinearOrderedField α]
    (threshold kneeWidth : α) (hk : 0 < kneeWidth) (T W : ℚ) (hW : 0 < W) :
    ((∀ input_db ratio : α, 1 ≤ ratio →
        compressorOutput input_db threshold ratio kneeWidth - input_db ≤ 0
          ∧ ∀ decibelsToGain : α → α, Monotone decibelsToGain → decibelsToGain 0 = 1 →
              computeCompressorGain decibelsToGain input_db threshold ratio kneeWidth ≤ 1)
      ∧ (∀ ratio : α, 0 < ratio → ratio < 1 →
          (∃ input_db : α, 2 * (input_db - threshold) > kneeWidth
              ∧ 0 < compressorOutput input_db threshold ratio kneeWidth - input_db)
            ∧ ∀ input_db : α, 2 * (input_db - threshold) > kneeWidth →
                0 < compressorOutput input_db threshold ratio kneeWidth - input_db))
    ∧ (∀ x R : ℚ, Binary.fl32 x = x → 1 ≤ R →
        (¬ (W < Binary.fl32 (2 * Binary.fl32 (x - T))) →
            compressorOutputFloat x T R W ≤ x
              ∧ gainReductionFloat x T R W ≤ 0
              ∧ ∀ decibelsToGain : ℚ → ℚ, Monotone decibelsToGain → decibelsToGain 0 = 1 →
                  computeCompressorGainFloat decibelsToGain x T R W ≤ 1)
          ∧ (W < Binary.fl32 (2 * Binary.fl32 (x - T)) →
              compressorOutputFloat x T R W ≤ Binary.fl32 (T + Binary.fl32 (x - T)))
          ∧ compressorOutputFloat x T R W - x
              ≤ (|x - T| + |T + Binary.fl32 (x - T)|) / 2 ^ 24 + 2 / 2 ^ 150)
    ∧ (∀ R : ℚ, 0 < R → R < 1 → Binary.fl32 R = R →
        ∃ x : ℚ, Binary.fl32 x = x ∧ W < Binary.fl32 (2 * Binary.fl32 (x - T))
          ∧ 0 < gainReductionFloat x T R W)
    ∧ ∀ x R : ℚ, 0 < R → R < 1 → W < Binary.fl32 (2 * Binary.fl32 (x - T)) →
        Binary.fl32 (T + Binary.fl32 (x - T)) ≤ compressorOutputFloat x T R W := by
  refine ⟨computeCompressorGain_never_boosts_exact threshold kneeWidth hk, ?_,
    fun R hR0 hR1 hRf => exists_expanded_input_float T R W hR0 hR1 hRf hW,
    fun x R hR0 hR1 ha => compressorOutputFloat_ge x T R W hR0 hR1 hW ha⟩
  intro x R hx hR
  obtain ⟨hlow, hhigh⟩ := compressorOutputFloat_le x T R W hx hR hW
  have hbound : 0 ≤ (|x - T| + |T + Binary.fl32 (x - T)|) / 2 ^ 24 + 2 / 2 ^ 150 := by
    have h1 := abs_nonneg (x - T)
    have h2 := abs_nonneg (T + Binary.fl32 (x - T))
    positivity
  refine ⟨?_, hhigh, ?_⟩
  · intro hna
    have hle := hlow hna
    have hg : gainReductionFloat x T R W ≤ 0 :=
      Binary.roundTo_nonpos 23 (-126) (by linarith)
    refine ⟨hle, hg, ?_⟩
    intro decibelsToGain hmono h0
    unfold computeCompressorGainFloat
    rw [← h0]
    exact hmono hg
  · by_cases ha : W < Binary.fl32 (2 * Binary.fl32 (x - T))
    · have h1 := hhigh ha
      have e1 := abs_le.mp (Binary.abs_fl32_sub_le (x - T))
      have e2 := abs_le.mp (Binary.abs_fl32_sub_le (T + Binary.fl32 (x - T)))
      have hsplit : (|x - T| + |T + Binary.fl32 (x - T)|) / 2 ^ 24 + 2 / 2 ^ 150
          = (|x - T| / 2 ^ 24 + 1 / 2 ^ 150)
            + (|T + Binary.fl32 (x - T)| / 2 ^ 24 + 1 / 2 ^ 150) := by ring
      rw [hsplit]
      linarith [e1.2, e2.2]
    · have := hlow ha
      linarith

theorem computeCompressorGain_never_boosts_witness :
    ((∀ input_db ratio : ℚ, 1 ≤ ratio →
        compressorOutput input_db (-24) ratio (1 / 2) - input_db ≤ 0
          ∧ ∀ decibelsToGain : ℚ → ℚ, Monotone decibelsToGain → decibelsToGain 0 = 1 →
              computeCompressorGain decibelsToGain input_db (-24) ratio (1 / 2) ≤ 1)
      ∧ (∀ ratio : ℚ, 0 < ratio → ratio < 1 →
          (∃ input_db : ℚ, 2 * (input_db - (-24)) > 1 / 2
              ∧ 0 < compressorOutput input_db (-24) ratio (1 / 2) - input_db)
            ∧ ∀ input_db : ℚ, 2 * (input_db - (-24)) > 1 / 2 →
                0 < compressorOutput input_db (-24) ratio (1 / 2) - input_db))
    ∧ (∀ x R : ℚ, Binary.fl32 x = x → 1 ≤ R →
        (¬ ((1 / 2 : ℚ) < Binary.fl32 (2 * Binary.fl32 (x - (-24)))) →
            compressorOutputFloat x (-24) R (1 / 2) ≤ x
              ∧ gainReductionFloat x (-24) R (1 / 2) ≤ 0
              ∧ ∀ decibelsToGain : ℚ → ℚ, Monotone decibelsToGain → decibelsToGain 0 = 1 →
                  computeCompressorGainFloat decibelsToGain x (-24) R (1 / 2) ≤ 1)
          ∧ ((1 / 2 : ℚ) < Binary.fl32 (2 * Binary.fl32 (x - (-24))) →
              compressorOutputFloat x (-24) R (1 / 2)
                ≤ Binary.fl32 (-24 + Binary.fl32 (x - (-24))))
          ∧ compressorOutputFloat x (-24) R (1 / 2) - x
              ≤ (|x - (-24)| + |-24 + Binary.fl32 (x - (-24))|) / 2 ^ 24 + 2 / 2 ^ 150)
    ∧ (∀ R : ℚ, 0 < R → R < 1 → Binary.fl32 R = R →
        ∃ x : ℚ, Binary.fl32 x = x
          ∧ (1 / 2 : ℚ) < Binary.fl32 (2 * Binary.fl32 (x - (-24)))
          ∧ 0 < gainReductionFloat x (-24) R (1 / 2))
    ∧ ∀ x R : ℚ, 0 < R → R < 1 → (1 / 2 : ℚ) < Binary.fl32 (2 * Binary.fl32 (x - (-24))) →
        Binary.fl32 (-24 + Binary.fl32 (x - (-24))) ≤ compressorOutputFloat x (-24) R (1 / 2) :=
  computeCompressorGain_never_boosts (-24 : ℚ) (1 / 2) (by norm_num) (-24) (1 / 2)
    (by norm_num)

end Curves
